import Mathlib

/-!
Verification of the comment-thread reconciliation engine in
`src/dmc/converter.py` (docx-md-comments).

The Python source is shallowly embedded: pure helper functions become Lean
functions over `String` / `List Char` / association lists, machine integers
become `Nat` with explicit masking, and fallible code returns `Except`.
Python `dict`s built by assignment are modelled as association lists with
replace-on-assign semantics; attribute key/value *lists* (which may contain
duplicate keys) are modelled as plain `List (String × String)`.
-/

namespace DMC

/-- Python `str.strip()` whitespace test, restricted to the ASCII whitespace
characters that can occur in this pipeline. -/
def pyIsSpace (c : Char) : Bool :=
  c = ' ' || c = '\t' || c = '\n' || c = '\r' || c = '\x0b' || c = '\x0c'

/-- Python `str.strip()` on a character list. -/
def pyStripList (cs : List Char) : List Char :=
  ((cs.dropWhile pyIsSpace).reverse.dropWhile pyIsSpace).reverse

/-- Python `str.strip()`. -/
def pyStrip (s : String) : String :=
  String.mk (pyStripList s.data)

/-- Lookup in a Python `dict` modelled as an association list with unique keys
(first match). Mirrors `d.get(k)`. -/
def dictGet {α : Type} (m : List (String × α)) (k : String) : Option α :=
  (m.find? (fun p => p.1 = k)).map (·.2)

/-- Python `d.get(k)` followed by `or ""`: missing and empty collapse to `""`. -/
def dictGetD (m : List (String × String)) (k : String) : String :=
  (dictGet m k).getD ""

/-- Assignment `d[k] = v` on a Python `dict` modelled as an association list:
replaces the first binding of `k`, or appends a new one. -/
def dictSet {α : Type} (m : List (String × α)) (k : String) (v : α) :
    List (String × α) :=
  match m with
  | [] => [(k, v)]
  | (k0, v0) :: rest =>
      if k0 = k then (k0, v) :: rest else (k0, v0) :: dictSet rest k v

/-- Building a Python `dict` from an attribute key/value list
(`kv = {}; for item in kvs: kv[item[0]] = item[1]`): the *last* occurrence of a
key wins.  Mirrors the `kv` snapshot in `annotate_markdown_comment_attrs`. -/
def kvLast (kvs : List (String × String)) (k : String) : Option String :=
  ((kvs.reverse).find? (fun p => p.1 = k)).map (·.2)

/-- Python truthiness of `kv.get(k)`: `None` and `""` are both falsy. -/
def kvLastD (kvs : List (String × String)) (k : String) : String :=
  (kvLast kvs k).getD ""

/-! ## CRC-32 and stable-id generation (`converter.py` lines 2391-2408)

`zlib.crc32` is the standard reflected CRC-32 (polynomial `0xEDB88320`,
initial value `0xFFFFFFFF`, final complement), computed here over `Nat`
with explicit 32-bit masking.  Strings are encoded to UTF-8 bytes exactly
as `str.encode("utf-8")` does. -/

/-- One bit step of the reflected CRC-32. -/
def crcBit (crc : Nat) : Nat :=
  if crc % 2 = 1 then (crc / 2) ^^^ 0xEDB88320 else crc / 2

/-- One byte step of the reflected CRC-32. -/
def crcByte (crc b : Nat) : Nat :=
  Nat.iterate crcBit 8 (crc ^^^ b)

/-- The checksum computed by `zlib.crc32(data)` for a byte list. -/
def zlibCrc32 (data : List Nat) : Nat :=
  (data.foldl crcByte 0xFFFFFFFF) ^^^ 0xFFFFFFFF

/-- UTF-8 encoding of one code point, as a list of byte values. -/
def utf8Char (c : Char) : List Nat :=
  let n := c.toNat
  if n < 0x80 then [n]
  else if n < 0x800 then
    [0xC0 ||| (n >>> 6), 0x80 ||| (n &&& 0x3F)]
  else if n < 0x10000 then
    [0xE0 ||| (n >>> 12), 0x80 ||| ((n >>> 6) &&& 0x3F), 0x80 ||| (n &&& 0x3F)]
  else
    [0xF0 ||| (n >>> 18), 0x80 ||| ((n >>> 12) &&& 0x3F),
      0x80 ||| ((n >>> 6) &&& 0x3F), 0x80 ||| (n &&& 0x3F)]

/-- UTF-8 encoding of a string (`s.encode("utf-8")`). -/
def utf8Bytes (s : String) : List Nat :=
  s.data.flatMap utf8Char

/-- The sixteen uppercase hexadecimal digit characters. -/
def hexDigits : List Char := "0123456789ABCDEF".data

/-- The hexadecimal digit character for a value below 16. -/
def hexDigit (n : Nat) : Char :=
  hexDigits.getD n '0'

/-- Python `f"{x:08X}"` for `x < 2^32`: eight uppercase hex digits,
zero padded. -/
def toHex8 (n : Nat) : String :=
  String.mk ((List.range 8).map (fun i => hexDigit ((n >>> ((7 - i) * 4)) % 16)))

/-- The candidate produced inside the generation loop of
`generate_unique_para_id` / `generate_unique_durable_id`:
`f"{zlib.crc32(f'{seed}:{counter}'.encode('utf-8')) & 0xFFFFFFFF:08X}"`. -/
def unique_id_candidate (seed : String) (counter : Nat) : String :=
  toHex8 (zlibCrc32 (utf8Bytes (seed ++ ":" ++ Nat.repr counter)) &&& 0xFFFFFFFF)

/-- The loop exit test of the generation loop:
`candidate != "00000000" and candidate not in used`. -/
def unique_id_ok (seed : String) (used : List String) (counter : Nat) : Bool :=
  !(unique_id_candidate seed counter == "00000000")
    && !(used.contains (unique_id_candidate seed counter))

/-- Embedding of `generate_unique_para_id` (converter.py lines 2391-2398).
The Python `while True` search is expressed with `Nat.find`; the totality
hypothesis records that some counter passes the loop's exit test (the Python
loop does not terminate otherwise).  The returned pair is the generated id
together with the updated used-id set (`used_para_ids.add(candidate)`). -/
def generate_unique_para_id (seed : String) (used : List String)
    (h : ∃ k, unique_id_ok seed used k = true) : String × List String :=
  let k := Nat.find h
  (unique_id_candidate seed k, unique_id_candidate seed k :: used)

/-- Embedding of `generate_unique_durable_id` (converter.py lines 2401-2408),
whose body is identical to `generate_unique_para_id` with the used-durable-id
set in place of the used-paragraph-id set. -/
def generate_unique_durable_id (seed : String) (used : List String)
    (h : ∃ k, unique_id_ok seed used k = true) : String × List String :=
  let k := Nat.find h
  (unique_id_candidate seed k, unique_id_candidate seed k :: used)

/-- The paragraph-id seed used by the caller at converter.py line 2630:
`f"comment-{cid}"`. -/
def para_id_seed (cid : String) : String :=
  "comment-" ++ cid

/-- The durable-id seed used by the caller at converter.py line 2638:
`f"durable-{para_id}"`. -/
def durable_id_seed (paraId : String) : String :=
  "durable-" ++ paraId

/-- Keep the first occurrence of each element (Python `set(pending)` as a
duplicate-free list; only membership and removal are used on it, so the
choice of representative order is irrelevant to the modelled code). -/
def dedupFirstAux (seen : List String) : List String → List String
  | [] => []
  | x :: rest =>
      if x ∈ seen then dedupFirstAux seen rest
      else x :: dedupFirstAux (x :: seen) rest

/-- First-occurrence deduplication. -/
def dedupFirst (l : List String) : List String :=
  dedupFirstAux [] l

/-! ## Topological comment order (`converter.py` lines 2321-2343)

The pending set `pending_set` is modelled as a duplicate-free list; only
membership and removal are ever used on it, so iteration order of the Python
set is irrelevant. -/

/-- The parent lookup performed inside the loop:
`str((parent_by_id or {}).get(cid) or "").strip()`. -/
def topoParentOf (parentById : List (String × String)) (cid : String) : String :=
  pyStrip (dictGetD parentById cid)

/-- One scanning pass of the `while` body of `topological_comment_order`
(lines 2326-2335): walk `pending` in original order and emit every id still
pending whose parent is empty or no longer pending.  Returns the remaining
pending set, the extended emitted list, and the `progressed` flag. -/
def topoPass (parentById : List (String × String)) :
    List String → List String → List String → List String × List String × Bool
  | [], pset, emitted => (pset, emitted, false)
  | cid :: rest, pset, emitted =>
      if pset.contains cid then
        let parentId := topoParentOf parentById cid
        if parentId ≠ "" && pset.contains parentId then
          topoPass parentById rest pset emitted
        else
          let out := topoPass parentById rest (pset.erase cid) (emitted ++ [cid])
          (out.1, out.2.1, true)
      else
        topoPass parentById rest pset emitted

/-- The deterministic fallback branch (lines 2339-2342): append every id still
pending, in original order, removing each from the pending set. -/
def topoFallback : List String → List String → List String → List String × List String
  | [], pset, emitted => (pset, emitted)
  | cid :: rest, pset, emitted =>
      if pset.contains cid then
        topoFallback rest (pset.erase cid) (emitted ++ [cid])
      else
        topoFallback rest pset emitted

/-- The `while pending_set:` loop (lines 2325-2342).  Fuel bounds the number of
iterations; every progressing pass strictly shrinks the pending set and a
non-progressing pass empties it via the fallback, so `pending.length + 1`
units of fuel always suffice (proved in `topoLoop_fuel_irrelevant` below). -/
def topoLoop (parentById : List (String × String)) (pending : List String) :
    Nat → List String → List String → List String
  | 0, _, emitted => emitted
  | fuel + 1, pset, emitted =>
      if pset.isEmpty then emitted
      else
        let out := topoPass parentById pending pset emitted
        if out.2.2 then topoLoop parentById pending fuel out.1 out.2.1
        else (topoFallback pending out.1 out.2.1).2

/-- Embedding of `topological_comment_order` (converter.py lines 2321-2343). -/
def topological_comment_order (orderedIds : List String)
    (parentById : List (String × String)) : List String :=
  let pending := orderedIds.filter (fun cid => cid ≠ "")
  topoLoop parentById pending (pending.length + 1) (dedupFirst pending) []

/-! ## Thread-relationship validation
(`extract_comment_texts_from_markdown`, converter.py lines 2187-2244)

This is the parent-link acceptance filter plus the white/gray/black cycle
detection, operating on the extracted ordered id list and the raw
parent-candidate map. -/

/-- The parent-link acceptance loop (lines 2190-2205): a candidate link is
accepted only when the stripped parent id is nonempty, differs from the child
and is among the extracted ids; a self-parent or unknown parent is collected
as an issue.  Returns `(invalid_parent_issues, valid_parent_by_id)`.
The `add_child` bookkeeping feeds only the flattening stage and is omitted. -/
def collectParentLinks (startedIds : List String)
    (parentById : List (String × String)) :
    List String → List String → List (String × String) →
      List String × List (String × String)
  | [], issues, valid => (issues, valid)
  | child :: rest, issues, valid =>
      let parentId := pyStrip (dictGetD parentById child)
      if parentId = "" then
        collectParentLinks startedIds parentById rest issues valid
      else if parentId = child then
        collectParentLinks startedIds parentById rest
          (issues ++ ["comment " ++ child ++ " cannot be its own parent"]) valid
      else if !(startedIds.contains parentId) then
        collectParentLinks startedIds parentById rest
          (issues ++ ["comment " ++ child ++ " references unknown parent " ++ parentId]) valid
      else
        collectParentLinks startedIds parentById rest issues (dictSet valid child parentId)

/-- The recursive `detect_cycle` (lines 2210-2229) over the accepted parent
map, with the Python `visit_state` colouring (0 unvisited, 1 on stack,
2 done).  Fuel bounds the recursion depth; the Python recursion proceeds only
into ids of state 0 after marking the current id 1, so the depth never
exceeds the number of ids and the fuel supplied by callers is sufficient. -/
def detectCycle (validParent : List (String × String)) :
    Nat → String → List (String × Nat) → List String → List String →
      List (String × Nat) × List String
  | 0, _, vs, _, issues => (vs, issues)
  | fuel + 1, cid, vs, stack, issues =>
      let state := (dictGet vs cid).getD 0
      if state = 1 then
        let cycle :=
          if stack.contains cid then stack.drop (stack.indexOf cid) ++ [cid]
          else stack ++ [cid]
        (vs, issues ++ [String.intercalate " -> " cycle])
      else if state = 2 then (vs, issues)
      else
        let vs1 := dictSet vs cid 1
        let stack1 := stack ++ [cid]
        let parentId := (dictGet validParent cid).getD ""
        let out :=
          if parentId ≠ "" then detectCycle validParent fuel parentId vs1 stack1 issues
          else (vs1, issues)
        (dictSet out.1 cid 2, out.2)

/-- The driver loop over `ordered_started_ids` (lines 2231-2233): start a
cycle walk from every accepted child not yet visited. -/
def runCycleDetection (validParent : List (String × String)) (fuel : Nat) :
    List String → List (String × Nat) → List String →
      List (String × Nat) × List String
  | [], vs, issues => (vs, issues)
  | cid :: rest, vs, issues =>
      if (dictGet validParent cid).isSome && (dictGet vs cid).getD 0 == 0 then
        let out := detectCycle validParent fuel cid vs [] issues
        runCycleDetection validParent fuel rest out.1 out.2
      else
        runCycleDetection validParent fuel rest vs issues

/-- The aggregated `ValueError` message raised at lines 2240-2244. -/
def thread_error_message (issues : List String) : String :=
  "Invalid comment thread relationships in markdown cards/spans.\n"
    ++ String.intercalate "\n" (issues.map (fun i => "- " ++ i))
    ++ "\n- Fix parent IDs so every reply points to an existing comment and no cycles exist."

/-- Embedding of the thread-validation phase of
`extract_comment_texts_from_markdown` (converter.py lines 2187-2244): accept
parent links, detect cycles, and either raise one aggregated error or return
the fully validated parent map. -/
def validate_thread_relationships (orderedStartedIds : List String)
    (parentById : List (String × String)) :
    Except String (List (String × String)) :=
  let collected := collectParentLinks orderedStartedIds parentById orderedStartedIds [] []
  let invalidIssues := collected.1
  let validParent := collected.2
  let cycles := (runCycleDetection validParent (orderedStartedIds.length + 1)
    orderedStartedIds [] []).2
  if invalidIssues ≠ [] ∨ cycles ≠ [] then
    .error (thread_error_message
      (invalidIssues ++ cycles.map (fun c => "thread cycle detected: " ++ c)))
  else
    .ok validParent

/-! ## Pandoc AST model

The converter manipulates pandoc's JSON AST.  The node kinds the walkers
distinguish are modelled as a closed inductive type; the `isinstance` shape
checks of the Python code become vacuous on this typed representation
(they only guard against malformed JSON). -/

/-- A pandoc attribute triple `[identifier, classes, key-value pairs]`. -/
structure Attr where
  id : String
  classes : List String
  kvs : List (String × String)
deriving Repr, DecidableEq

/-- Pandoc inline nodes (the kinds the converter's walkers distinguish). -/
inductive Inline where
  | Str (s : String)
  | Space
  | SoftBreak
  | LineBreak
  | Span (attr : Attr) (content : List Inline)
  | Emph (content : List Inline)
  | Strong (content : List Inline)
  | Strikeout (content : List Inline)
  | Superscript (content : List Inline)
  | Subscript (content : List Inline)
  | SmallCaps (content : List Inline)
  | Underline (content : List Inline)
  | Quoted (quoteType : String) (content : List Inline)
  | Cite (content : List Inline)
  | Link (attr : Attr) (content : List Inline) (target : String)
  | Image (attr : Attr) (content : List Inline) (target : String)
  | Code (attr : Attr) (s : String)
  | RawInline (format : String) (s : String)
  | MathInline (s : String)

/-- Pandoc block nodes (the kinds the converter's walkers distinguish).
`Table` keeps only its nested block cells, which is all the walkers visit. -/
inductive Block where
  | Para (content : List Inline)
  | Plain (content : List Inline)
  | Header (level : Nat) (attr : Attr) (content : List Inline)
  | BlockQuote (blocks : List Block)
  | Div (attr : Attr) (blocks : List Block)
  | BulletList (items : List (List Block))
  | OrderedList (items : List (List Block))
  | Table (cells : List (List Block))
  | RawBlock (format : String) (s : String)
  | HorizontalRule

/-- A pandoc document: its top-level block list. -/
structure PDoc where
  blocks : List Block

/-! ## Milestone encoding (`rewrite_comment_spans_to_milestones_in_doc`,
converter.py lines 1001-1111) -/

/-- Python `str.isdigit()` restricted to ASCII digits. -/
def pyIsDigit (s : String) : Bool :=
  s ≠ "" && s.data.all Char.isDigit

/-- Embedding of `normalize_milestone_edge` (converter.py lines 355-361). -/
def normalize_milestone_edge (edgeToken : String) : String :=
  let token := (pyStrip edgeToken).toLower
  if token = "s" ∨ token = "start" then "s"
  else if token = "e" ∨ token = "end" then "e"
  else ""

/-- Embedding of `milestone_marker_inline` (converter.py lines 345-352): the
plain-text milestone token that replaces a root comment span. -/
def milestone_marker_inline (commentId edge : String) : Inline :=
  let cid := pyStrip commentId
  let edgeToken0 := normalize_milestone_edge edge
  let edgeToken := if edgeToken0 ≠ "s" ∧ edgeToken0 ≠ "e" then "s" else edgeToken0
  let edgeLabel := if edgeToken = "s" then "START" else "END"
  let markerId := if pyIsDigit cid then "C" ++ cid else cid
  Inline.Str ("==///" ++ markerId ++ "." ++ edgeLabel ++ "///==")

/-- Embedding of the local `comment_id_from_attr` (converter.py lines
1008-1018): the span's positional identifier, or the first `id` key/value
pair when the identifier slot is blank. -/
def comment_id_from_attr (attr : Attr) : String :=
  let identifier := pyStrip attr.id
  if identifier ≠ "" then identifier
  else
    match attr.kvs.find? (fun p => p.1 = "id") with
    | some p => pyStrip p.2
    | none => ""

/-- The mutable state threaded through the milestone rewriter: the `changed`
counter, the first-seen order of root start ids, and the seen-start set. -/
structure MilestoneState where
  changed : Nat
  startOrder : List String
  seenStarts : List String
deriving Repr, DecidableEq

/-- Record a root start id in first-seen order (converter.py lines
1040-1042). -/
def msRecordStart (st : MilestoneState) (cid : String) : MilestoneState :=
  if st.seenStarts.contains cid then st
  else { st with seenStarts := cid :: st.seenStarts, startOrder := st.startOrder ++ [cid] }

/-- Increment the `changed` counter. -/
def msBump (st : MilestoneState) : MilestoneState :=
  { st with changed := st.changed + 1 }

mutual

/-- One inline node of the rewriter's `walk_inlines` (converter.py lines
1025-1070).  A node maps to zero or more replacement nodes: a comment span
becomes a milestone token (root) or nothing (reply); container nodes keep
their shape with rewritten content; all other nodes pass through. -/
def rwInline (childIds : List String) :
    Inline → MilestoneState → List Inline × MilestoneState
  | .Span attr nested, st =>
      let cid := comment_id_from_attr attr
      if cid ≠ "" ∧ attr.classes.contains "comment-start" then
        if childIds.contains cid then ([], msBump st)
        else ([milestone_marker_inline cid "s"], msBump (msRecordStart st cid))
      else if cid ≠ "" ∧ attr.classes.contains "comment-end" then
        if childIds.contains cid then ([], msBump st)
        else ([milestone_marker_inline cid "e"], msBump st)
      else
        let out := rwInlines childIds nested st
        ([.Span attr out.1], out.2)
  | .Emph l, st => let out := rwInlines childIds l st; ([.Emph out.1], out.2)
  | .Strong l, st => let out := rwInlines childIds l st; ([.Strong out.1], out.2)
  | .Strikeout l, st => let out := rwInlines childIds l st; ([.Strikeout out.1], out.2)
  | .Superscript l, st => let out := rwInlines childIds l st; ([.Superscript out.1], out.2)
  | .Subscript l, st => let out := rwInlines childIds l st; ([.Subscript out.1], out.2)
  | .SmallCaps l, st => let out := rwInlines childIds l st; ([.SmallCaps out.1], out.2)
  | .Underline l, st => let out := rwInlines childIds l st; ([.Underline out.1], out.2)
  | .Quoted q l, st => let out := rwInlines childIds l st; ([.Quoted q out.1], out.2)
  | .Cite l, st => let out := rwInlines childIds l st; ([.Cite out.1], out.2)
  | .Link a l t, st => let out := rwInlines childIds l st; ([.Link a out.1 t], out.2)
  | .Image a l t, st => let out := rwInlines childIds l st; ([.Image a out.1 t], out.2)
  | .Str s, st => ([.Str s], st)
  | .Space, st => ([.Space], st)
  | .SoftBreak, st => ([.SoftBreak], st)
  | .LineBreak, st => ([.LineBreak], st)
  | .Code a s, st => ([.Code a s], st)
  | .RawInline f s, st => ([.RawInline f s], st)
  | .MathInline s, st => ([.MathInline s], st)

/-- The rewriter's `walk_inlines` over a whole inline list (the in-place
`inlines[:] = out` rebuild). -/
def rwInlines (childIds : List String) :
    List Inline → MilestoneState → List Inline × MilestoneState
  | [], st => ([], st)
  | i :: rest, st =>
      let a := rwInline childIds i st
      let b := rwInlines childIds rest a.2
      (a.1 ++ b.1, b.2)

end

mutual

/-- One block node of the rewriter's `walk_blocks` (converter.py lines
1076-1108); block kinds without a branch are left untouched. -/
def rwBlock (childIds : List String) :
    Block → MilestoneState → Block × MilestoneState
  | .Para l, st => let out := rwInlines childIds l st; (.Para out.1, out.2)
  | .Plain l, st => let out := rwInlines childIds l st; (.Plain out.1, out.2)
  | .Header n a l, st => let out := rwInlines childIds l st; (.Header n a out.1, out.2)
  | .BlockQuote bs, st => let out := rwBlocks childIds bs st; (.BlockQuote out.1, out.2)
  | .Div a bs, st => let out := rwBlocks childIds bs st; (.Div a out.1, out.2)
  | .BulletList items, st =>
      let out := rwBlockLists childIds items st; (.BulletList out.1, out.2)
  | .OrderedList items, st =>
      let out := rwBlockLists childIds items st; (.OrderedList out.1, out.2)
  | .Table cells, st =>
      let out := rwBlockLists childIds cells st; (.Table out.1, out.2)
  | .RawBlock f s, st => (.RawBlock f s, st)
  | .HorizontalRule, st => (.HorizontalRule, st)

/-- The rewriter's `walk_blocks` over a block list. -/
def rwBlocks (childIds : List String) :
    List Block → MilestoneState → List Block × MilestoneState
  | [], st => ([], st)
  | b :: rest, st =>
      let a := rwBlock childIds b st
      let c := rwBlocks childIds rest a.2
      (a.1 :: c.1, c.2)

/-- The rewriter's walk over the item lists of `BulletList` / `OrderedList` /
`Table`. -/
def rwBlockLists (childIds : List String) :
    List (List Block) → MilestoneState → List (List Block) × MilestoneState
  | [], st => ([], st)
  | item :: rest, st =>
      let a := rwBlocks childIds item st
      let c := rwBlockLists childIds rest a.2
      (a.1 :: c.1, c.2)

end

/-- Embedding of `rewrite_comment_spans_to_milestones_in_doc` (converter.py
lines 1001-1111): rewrites the document in place and returns it together with
the `changed` count and the root start order.  (`anchor_by_id` is always
returned empty by the source and is omitted.) -/
def rewrite_comment_spans_to_milestones_in_doc (doc : PDoc)
    (childIds : List String) : PDoc × MilestoneState :=
  let out := rwBlocks childIds doc.blocks { changed := 0, startOrder := [], seenStarts := [] }
  ({ blocks := out.1 }, out.2)


/-! ## Comment-attribute annotation (`annotate_markdown_comment_attrs`,
converter.py lines 1533-1602, with `ensure_attr_pair` lines 177-186,
`normalize_comment_span_id_attr` lines 201-222 and the generic
`walk_pandoc_spans` walker lines 225-317) -/

/-- Embedding of `parse_state_token` (converter.py lines 131-135). -/
def parse_state_token (stateValue : String) : String :=
  let token := (pyStrip stateValue).toLower
  if token = "resolved" then "resolved" else "active"

/-- Embedding of `ensure_attr_pair` (converter.py lines 177-186): fill the
first binding of `key` when it is empty, leave it alone when it already has a
value, and append a new pair when the key is absent.  Returns the updated
key/value list and the changed flag. -/
def ensure_attr_pair : List (String × String) → String → String →
    List (String × String) × Bool
  | [], key, value => ([(key, value)], true)
  | (k, v) :: rest, key, value =>
      if k = key then
        if v ≠ "" then ((k, v) :: rest, false)
        else ((k, value) :: rest, true)
      else
        let out := ensure_attr_pair rest key value
        ((k, v) :: out.1, out.2)

/-- The inner scan of `normalize_comment_span_id_attr` (converter.py lines
208-218): fill the first `id` binding when it is empty; report whether an
`id` binding exists at all.  Returns (kvs, changed, found). -/
def fillFirstId : List (String × String) → String →
    List (String × String) × Bool × Bool
  | [], _ => ([], false, false)
  | (k, v) :: rest, identifier =>
      if k = "id" then
        if v = "" then ((k, identifier) :: rest, true, true)
        else ((k, v) :: rest, false, true)
      else
        let out := fillFirstId rest identifier
        ((k, v) :: out.1, out.2.1, out.2.2)

/-- Embedding of `normalize_comment_span_id_attr` (converter.py lines
201-222): move a comment span's positional identifier into the `id`
key/value pair and blank the positional slot. -/
def normalize_comment_span_id_attr (attr : Attr) : Attr × Bool :=
  if ¬ (attr.classes.contains "comment-start" ∨ attr.classes.contains "comment-end") then
    (attr, false)
  else
    let identifier := pyStrip attr.id
    if identifier = "" then (attr, false)
    else
      let scanned := fillFirstId attr.kvs identifier
      let kvs1 := if scanned.2.2 then scanned.1 else ("id", identifier) :: attr.kvs
      let changed1 := if scanned.2.2 then scanned.2.1 else true
      let idChanged := attr.id ≠ ""
      let id1 := if idChanged then "" else attr.id
      ({ attr with id := id1, kvs := kvs1 }, changed1 || idChanged)

/-- The per-comment graph inputs of `annotate_markdown_comment_attrs`. -/
structure AnnotateInputs where
  parentMap : List (String × String)
  stateById : List (String × String)
  paraById : List (String × String)
  durableById : List (String × String)
  presenceProviderById : List (String × String)
  presenceUserById : List (String × String)

/-- The early-exit guard of `annotate_markdown_comment_attrs` (converter.py
lines 1545-1553): all six graph maps empty. -/
def annotateInputsEmpty (g : AnnotateInputs) : Bool :=
  g.parentMap.isEmpty && g.stateById.isEmpty && g.paraById.isEmpty
    && g.durableById.isEmpty && g.presenceProviderById.isEmpty
    && g.presenceUserById.isEmpty

/-- Embedding of the span handler `on_span` of `annotate_markdown_comment_attrs`
(converter.py lines 1556-1591).  The `kv` dictionary snapshot is taken once,
after the id normalization and before any `ensure_attr_pair` call, exactly as
in the source; all truthiness guards read that snapshot. -/
def annotate_on_span (g : AnnotateInputs) (attr : Attr) : Attr × Bool :=
  let n := normalize_comment_span_id_attr attr
  let attr1 := n.1
  let changed0 := n.2
  if ¬ (attr1.classes.contains "comment-start") then (attr1, changed0)
  else
    let identifier := pyStrip attr1.id
    let kv := attr1.kvs
    let cid := if identifier ≠ "" then identifier else pyStrip (kvLastD kv "id")
    if cid = "" then (attr1, changed0)
    else
      let pid := dictGetD g.parentMap cid
      let s1 :=
        if pid ≠ "" ∧ kvLastD kv "parent" = "" then ensure_attr_pair kv "parent" pid
        else (kv, false)
      let s2 :=
        if kvLastD kv "state" = "" then
          ensure_attr_pair s1.1 "state" (parse_state_token (dictGetD g.stateById cid))
        else (s1.1, false)
      let paraId := dictGetD g.paraById cid
      let s3 :=
        if paraId ≠ "" ∧ kvLastD kv "paraId" = "" then ensure_attr_pair s2.1 "paraId" paraId
        else (s2.1, false)
      let durableId := dictGetD g.durableById cid
      let s4 :=
        if durableId ≠ "" ∧ kvLastD kv "durableId" = "" then
          ensure_attr_pair s3.1 "durableId" durableId
        else (s3.1, false)
      let provider := dictGetD g.presenceProviderById cid
      let s5 :=
        if provider ≠ "" ∧ kvLastD kv "presenceProvider" = "" then
          ensure_attr_pair s4.1 "presenceProvider" provider
        else (s4.1, false)
      let user := dictGetD g.presenceUserById cid
      let s6 :=
        if user ≠ "" ∧ kvLastD kv "presenceUserId" = "" then
          ensure_attr_pair s5.1 "presenceUserId" user
        else (s5.1, false)
      ({ attr1 with kvs := s6.1 },
        changed0 || s1.2 || s2.2 || s3.2 || s4.2 || s5.2 || s6.2)

mutual

/-- One inline node of the generic `walk_pandoc_spans` walker (converter.py
lines 228-273) under a span handler.  On this typed AST: the handler fires on
`Span` attributes and the walk descends into span, quoted, cite, link and
image content; the emphasis-family nodes fall into the generic dict branch
(line 268-271), which routes their children to `walk_blocks` where no span
branch exists, so no handler call ever reaches them. -/
def spInline (h : Attr → Attr × Bool) :
    Inline → Nat → Inline × Nat
  | .Span attr nested, changed =>
      let a := h attr
      let changed1 := if a.2 then changed + 1 else changed
      let out := spInlines h nested changed1
      (.Span a.1 out.1, out.2)
  | .Quoted q l, changed => let out := spInlines h l changed; (.Quoted q out.1, out.2)
  | .Cite l, changed => let out := spInlines h l changed; (.Cite out.1, out.2)
  | .Link a l t, changed => let out := spInlines h l changed; (.Link a out.1 t, out.2)
  | .Image a l t, changed => let out := spInlines h l changed; (.Image a out.1 t, out.2)
  | i, changed => (i, changed)

/-- The generic walker's `walk_inlines` over an inline list. -/
def spInlines (h : Attr → Attr × Bool) :
    List Inline → Nat → List Inline × Nat
  | [], changed => ([], changed)
  | i :: rest, changed =>
      let a := spInline h i changed
      let b := spInlines h rest a.2
      (a.1 :: b.1, b.2)

end

mutual

/-- One block node of the generic walker's `walk_blocks` (converter.py lines
275-314). -/
def spBlock (h : Attr → Attr × Bool) :
    Block → Nat → Block × Nat
  | .Para l, changed => let out := spInlines h l changed; (.Para out.1, out.2)
  | .Plain l, changed => let out := spInlines h l changed; (.Plain out.1, out.2)
  | .Header n a l, changed => let out := spInlines h l changed; (.Header n a out.1, out.2)
  | .BlockQuote bs, changed => let out := spBlocks h bs changed; (.BlockQuote out.1, out.2)
  | .Div a bs, changed => let out := spBlocks h bs changed; (.Div a out.1, out.2)
  | .BulletList items, changed =>
      let out := spBlockLists h items changed; (.BulletList out.1, out.2)
  | .OrderedList items, changed =>
      let out := spBlockLists h items changed; (.OrderedList out.1, out.2)
  | .Table cells, changed =>
      let out := spBlockLists h cells changed; (.Table out.1, out.2)
  | .RawBlock f s, changed => (.RawBlock f s, changed)
  | .HorizontalRule, changed => (.HorizontalRule, changed)

/-- The generic walker's `walk_blocks` over a block list. -/
def spBlocks (h : Attr → Attr × Bool) :
    List Block → Nat → List Block × Nat
  | [], changed => ([], changed)
  | b :: rest, changed =>
      let a := spBlock h b changed
      let c := spBlocks h rest a.2
      (a.1 :: c.1, c.2)

/-- The generic walker over nested block lists. -/
def spBlockLists (h : Attr → Attr × Bool) :
    List (List Block) → Nat → List (List Block) × Nat
  | [], changed => ([], changed)
  | item :: rest, changed =>
      let a := spBlocks h item changed
      let c := spBlockLists h rest a.2
      (a.1 :: c.1, c.2)

end

/-- Embedding of `walk_pandoc_spans` (converter.py lines 225-317): apply a
span handler over a document, counting the spans whose handler reported a
change. -/
def walk_pandoc_spans (doc : PDoc) (h : Attr → Attr × Bool) : PDoc × Nat :=
  let out := spBlocks h doc.blocks 0
  ({ blocks := out.1 }, out.2)

/-- Embedding of the AST phase of `annotate_markdown_comment_attrs`
(converter.py lines 1533-1602): early-exit when every graph map is empty,
otherwise run the span handler over the whole document.  The pandoc
JSON round trips on either side of this phase are the identity on the AST. -/
def annotate_markdown_comment_attrs (g : AnnotateInputs) (doc : PDoc) :
    PDoc × Nat :=
  if annotateInputsEmpty g then (doc, 0)
  else walk_pandoc_spans doc (annotate_on_span g)



/-! ## Text scanners for comment markers, cards and milestone tokens

These embed the regular-expression scans of converter.py
(`COMMENT_START_ATTR_BLOCK_RE`, `COMMENT_END_ATTR_BLOCK_RE`, `KV_ATTR_RE`,
`CARD_META_INLINE_RE`, `MILESTONE_CORE_TOKEN_RE`) as explicit left-to-right,
non-overlapping scanners over character lists, with absolute code-point
offsets exactly as Python `match.start()` / `match.end()` report them. -/

/-- Key start class of `KV_ATTR_RE`: `[A-Za-z_:]`. -/
def isKeyStart (c : Char) : Bool :=
  c.isAlpha || c = '_' || c = ':'

/-- Key continuation class of `KV_ATTR_RE`: `[-A-Za-z0-9_:.]`. -/
def isKeyRest (c : Char) : Bool :=
  c.isAlphanum || c = '-' || c = '_' || c = ':' || c = '.'

/-- Identifier continuation class `[A-Za-z0-9_-]` shared by the card and
milestone grammars. -/
def isIdRestChar (c : Char) : Bool :=
  c.isAlphanum || c = '_' || c = '-'

/-- Non-overlapping scan of `KV_ATTR_RE`
(`([A-Za-z_:][-A-Za-z0-9_:.]*)="([^"]*)"`) over an attribute text,
in match order. -/
def scanKvPairs : Nat → List Char → List (String × String)
  | 0, _ => []
  | _, [] => []
  | fuel + 1, c :: rest =>
      if isKeyStart c then
        let keyRest := rest.takeWhile isKeyRest
        let after := rest.drop keyRest.length
        match after with
        | '=' :: q :: valRest =>
            if q = '"' then
              let value := valRest.takeWhile (fun d => d ≠ '"')
              let after2 := valRest.drop value.length
              match after2 with
              | _ :: tail =>
                  (String.mk (c :: keyRest), String.mk value) :: scanKvPairs fuel tail
              | [] => scanKvPairs fuel rest
            else scanKvPairs fuel rest
        | _ => scanKvPairs fuel rest
      else scanKvPairs fuel rest

/-- The Python dict comprehension `{k: v for k, v in KV_ATTR_RE.findall(...)}`:
later duplicates overwrite earlier ones. -/
def kvPairsToDict (pairs : List (String × String)) : List (String × String) :=
  pairs.foldl (fun m p => dictSet m p.1 p.2) []

/-- One match of a `\{\.comment-xxx(?P<attrs>[^}]*)\}` attribute block:
match start offset, match end offset, and the raw attribute text. -/
structure AttrBlockMatch where
  start : Nat
  stop : Nat
  attrs : String

/-- Non-overlapping leftmost scan of an attribute-block pattern
(`COMMENT_START_ATTR_BLOCK_RE` / `COMMENT_END_ATTR_BLOCK_RE`): the literal
marker, then any run of non-brace characters, then the closing brace. -/
def scanAttrBlocks (marker : List Char) : Nat → List Char → Nat → List AttrBlockMatch
  | 0, _, _ => []
  | _, [], _ => []
  | fuel + 1, cs@(_ :: rest), pos =>
      if marker.isPrefixOf cs then
        let after := cs.drop marker.length
        let attrs := after.takeWhile (fun c => c ≠ '\x7d')
        let remaining := after.drop attrs.length
        match remaining with
        | _ :: tail =>
            let len := marker.length + attrs.length + 1
            { start := pos, stop := pos + len, attrs := String.mk attrs }
              :: scanAttrBlocks marker fuel tail (pos + len)
        | [] => scanAttrBlocks marker fuel rest (pos + 1)
      else scanAttrBlocks marker fuel rest (pos + 1)

/-- All matches of `COMMENT_START_ATTR_BLOCK_RE` in a text. -/
def commentStartBlocks (text : String) : List AttrBlockMatch :=
  scanAttrBlocks ("\x7b.comment-start".data) (text.data.length + 1) text.data 0

/-- All matches of `COMMENT_END_ATTR_BLOCK_RE` in a text. -/
def commentEndBlocks (text : String) : List AttrBlockMatch :=
  scanAttrBlocks ("\x7b.comment-end".data) (text.data.length + 1) text.data 0

/-- Embedding of `line_col_for_offset` (converter.py lines 1328-1333):
1-based line and column of a code-point offset. -/
def line_col_for_offset (text : String) (offset : Nat) : Nat × Nat :=
  let pre := text.data.take (min offset text.data.length)
  (pre.count '\n' + 1, (pre.reverse.takeWhile (fun c => c ≠ '\n')).length + 1)

/-- Python `str.splitlines()` restricted to `\n` terminators: the segment
after a final newline is not an extra line. -/
def pySplitLines (text : String) : List String :=
  if text = "" then []
  else
    let parts := text.splitOn "\n"
    if text.endsWith "\n" then parts.dropLast else parts

/-- Embedding of `line_excerpt` (converter.py lines 1336-1343). -/
def line_excerpt (text : String) (lineNo : Nat) : String :=
  let lines := pySplitLines text
  if lineNo < 1 ∨ lines.length < lineNo then ""
  else
    let excerpt := pyStrip (lines.getD (lineNo - 1) "")
    if 140 < excerpt.data.length then String.mk (excerpt.data.take 137) ++ "..."
    else excerpt

/-- A marker location record (`{"offset": ..., "line": ..., "col": ...}`). -/
structure MarkerLoc where
  offset : Nat
  line : Nat
  col : Nat
deriving Repr, DecidableEq

/-- The `dict.setdefault(key, []).append(value)` idiom: extend the list bound
to a key, creating the binding at the end on first use. -/
def multiAppend {α : Type} (m : List (String × List α)) (k : String) (v : α) :
    List (String × List α) :=
  match m with
  | [] => [(k, [v])]
  | (k0, l) :: rest =>
      if k0 = k then (k0, l ++ [v]) :: rest else (k0, l) :: multiAppend rest k v

/-- Build the per-id marker location map from attribute-block matches
(the shared body of the two loops of `collect_span_marker_positions`,
converter.py lines 1346-1370). -/
def markerLocMap (text : String) (blockMatches : List AttrBlockMatch) :
    List (String × List MarkerLoc) :=
  blockMatches.foldl
    (fun m mt =>
      let attrs := kvPairsToDict (scanKvPairs (mt.attrs.data.length + 1) mt.attrs.data)
      let commentId := pyStrip (dictGetD attrs "id")
      if commentId = "" then m
      else
        let lc := line_col_for_offset text mt.start
        multiAppend m commentId { offset := mt.start, line := lc.1, col := lc.2 })
    []

/-- Embedding of `collect_span_marker_positions` (converter.py lines
1346-1370): per-id start and end marker locations, in match order. -/
def collect_span_marker_positions (text : String) :
    List (String × List MarkerLoc) × List (String × List MarkerLoc) :=
  (markerLocMap text (commentStartBlocks text),
   markerLocMap text (commentEndBlocks text))

/-! ### CARD_META scanning and its JSON payload -/

/-- Decode one JSON string escape character (after the backslash). -/
def jsonEscapeChar (c : Char) : Option Char :=
  if c = '"' then some '"'
  else if c = '\\' then some '\\'
  else if c = '/' then some '/'
  else if c = 'n' then some '\n'
  else if c = 't' then some '\t'
  else if c = 'r' then some '\r'
  else if c = 'b' then some '\x08'
  else if c = 'f' then some '\x0c'
  else none

/-- Parse a JSON string body (after the opening quote) returning the decoded
text and the remainder after the closing quote.  Control characters and
unknown escapes make the parse fail, as `json.loads` rejects them; `\u`
escapes are decoded for code points below the surrogate range. -/
def parseJsonStringBody : Nat → List Char → Option (List Char × List Char)
  | 0, _ => none
  | _, [] => none
  | fuel + 1, c :: rest =>
      if c = '"' then some ([], rest)
      else if c = '\\' then
        match rest with
        | [] => none
        | e :: tail =>
            if e = 'u' then
              match tail with
              | h1 :: h2 :: h3 :: h4 :: tail2 =>
                  let hv := fun (d : Char) =>
                    if d.isDigit then some (d.toNat - 48)
                    else if 'a' ≤ d ∧ d ≤ 'f' then some (d.toNat - 87)
                    else if 'A' ≤ d ∧ d ≤ 'F' then some (d.toNat - 55)
                    else none
                  match hv h1, hv h2, hv h3, hv h4 with
                  | some a, some b, some cc, some d =>
                      let n := ((a * 16 + b) * 16 + cc) * 16 + d
                      if n < 0xD800 then
                        (parseJsonStringBody fuel tail2).map
                          (fun out => (Char.ofNat n :: out.1, out.2))
                      else none
                  | _, _, _, _ => none
              | _ => none
            else
              match jsonEscapeChar e with
              | some d =>
                  (parseJsonStringBody fuel tail).map (fun out => (d :: out.1, out.2))
              | none => none
      else if c.toNat < 0x20 then none
      else (parseJsonStringBody fuel rest).map (fun out => (c :: out.1, out.2))

/-- Worker for `parseJsonObjectString`: parse the members after the opening
brace, accumulating into a dict where duplicate keys overwrite, and require
that only whitespace follows the closing brace. -/
def parseJsonMembersFrom : Nat → List Char → List (String × String) →
    Option (List (String × String))
  | 0, _, _ => none
  | fuel + 1, cs, acc =>
      let cs1 := cs.dropWhile pyIsSpace
      match cs1 with
      | [] => none
      | c :: rest =>
          if c = '\x7d' then
            if acc = [] ∧ rest.dropWhile pyIsSpace = [] then some []
            else none
          else if c = '"' then
            match parseJsonStringBody (rest.length + 1) rest with
            | none => none
            | some (key, afterKey) =>
                let afterKey1 := afterKey.dropWhile pyIsSpace
                match afterKey1 with
                | ':' :: afterColon =>
                    let afterColon1 := afterColon.dropWhile pyIsSpace
                    match afterColon1 with
                    | q :: valRest =>
                        if q = '"' then
                          match parseJsonStringBody (valRest.length + 1) valRest with
                          | none => none
                          | some (value, afterVal) =>
                              let acc1 := dictSet acc (String.mk key) (String.mk value)
                              let afterVal1 := afterVal.dropWhile pyIsSpace
                              match afterVal1 with
                              | ',' :: more => parseJsonMembersFrom fuel more acc1
                              | d :: more =>
                                  if d = '\x7d' ∧ more.dropWhile pyIsSpace = [] then some acc1
                                  else none
                              | [] => none
                        else none
                    | [] => none
                | _ => none
          else none

/-- Parse a JSON object with string keys and string values (the only shape a
`CARD_META` payload uses; any other JSON shape fails, which the caller treats
like a decode error yielding no payload). -/
def parseJsonObjectString (cs : List Char) : Option (List (String × String)) :=
  let cs1 := cs.dropWhile pyIsSpace
  match cs1 with
  | c :: rest => if c = '\x7b' then parseJsonMembersFrom (rest.length + 1) rest [] else none
  | [] => none

/-- Embedding of the payload decoding of `parse_card_meta_marker`
(converter.py lines 490-507): wrap the raw attribute text in braces, decode
it as a JSON object, and keep the stripped string keys and values. -/
def parse_card_meta_payload (attrsRaw : String) : List (String × String) :=
  let stripped := pyStrip attrsRaw
  if stripped = "" then []
  else
    match parseJsonObjectString ("\x7b" ++ stripped ++ "\x7d").data with
    | some pairs =>
        pairs.foldl
          (fun m p =>
            let k := pyStrip p.1
            if k ≠ "" then dictSet m k (pyStrip p.2) else m)
          []
    | none => []

/-- Find the first brace-close followed by optional whitespace and `-->`;
returns the attrs length and the total consumed length from the search
start. -/
def findCardEnd : Nat → List Char → Nat → Option (Nat × Nat)
  | 0, _, _ => none
  | _, [], _ => none
  | fuel + 1, c :: rest, n =>
      if c = '\x7d' then
        let w := (rest.takeWhile pyIsSpace).length
        let after := rest.drop w
        if ("-->".data).isPrefixOf after then some (n, n + 1 + w + 3)
        else findCardEnd fuel rest (n + 1)
      else findCardEnd fuel rest (n + 1)

/-- Attempt to match `CARD_META_INLINE_RE` at the head of the text, returning
the card id, the raw attribute text (the lazy `attrs` group, extending to the
first brace-close that is followed by optional whitespace and `-->`), and the
total match length. -/
def tryCardMetaAt (cs : List Char) : Option (String × String × Nat) :=
  if ("<!--".data).isPrefixOf cs then
    let r1 := cs.drop 4
    let w1 := (r1.takeWhile pyIsSpace).length
    let r2 := r1.drop w1
    if ("CARD_META".data).isPrefixOf r2 then
      let r3 := r2.drop 9
      let w2 := (r3.takeWhile pyIsSpace).length
      let r4 := r3.drop w2
      match r4 with
      | b :: r5 =>
          if b = '\x7b' then
            let w3 := (r5.takeWhile pyIsSpace).length
            let r6 := r5.drop w3
            match r6 with
            | hash :: r7 =>
                if hash = '#' then
                  match r7 with
                  | e :: r8 =>
                      if e.isAlphanum then
                        let idRest := r8.takeWhile isIdRestChar
                        let r9 := r8.drop idRest.length
                        let w4 := (r9.takeWhile pyIsSpace).length
                        let r10 := r9.drop w4
                        match findCardEnd (r10.length + 1) r10 0 with
                        | some (n, consumed) =>
                            some (String.mk (e :: idRest), String.mk (r10.take n),
                              4 + w1 + 9 + w2 + 1 + w3 + 1 + 1 + idRest.length + w4 + consumed)
                        | none => none
                      else none
                  | [] => none
                else none
            | [] => none
          else none
      | [] => none
    else none
  else none

/-- Non-overlapping scan of `CARD_META_INLINE_RE` over a text, yielding
(match offset, card id, raw attrs) in order. -/
def scanCardMetas : Nat → List Char → Nat → List (Nat × String × String)
  | 0, _, _ => []
  | _, [], _ => []
  | fuel + 1, cs@(_ :: rest), pos =>
      match tryCardMetaAt cs with
      | some (cid, attrs, len) =>
          (pos, cid, attrs) :: scanCardMetas fuel (cs.drop len) (pos + len)
      | none => scanCardMetas fuel rest (pos + 1)

/-- Embedding of `collect_root_card_lines` (converter.py lines 1373-1386):
first line of each parentless `CARD_META` card, keyed by id, first
occurrence wins. -/
def collect_root_card_lines (text : String) : List (String × Nat) :=
  (scanCardMetas (text.data.length + 1) text.data 0).foldl
    (fun m entry =>
      let commentId := pyStrip entry.2.1
      if commentId = "" then m
      else
        let meta := parse_card_meta_payload entry.2.2
        let parentId := pyStrip (dictGetD meta "parent")
        if parentId ≠ "" then m
        else if (dictGet m commentId).isSome then m
        else m ++ [(commentId, (line_col_for_offset text entry.1).1)])
    []


/-! ### Milestone core tokens and one-sided wrapper detection -/

/-- Case-insensitive literal prefix test (for the `START` / `END` edge
alternatives of `MILESTONE_CORE_TOKEN_RE`, whose pattern letters are
lowercase once case-folded). -/
def ciPrefix (pat : List Char) (cs : List Char) : Bool :=
  match pat, cs with
  | [], _ => true
  | _ :: _, [] => false
  | p :: ps, c :: rest => c.toLower = p && ciPrefix ps rest

/-- Match the edge group of `MILESTONE_CORE_TOKEN_RE`
(`[sSeE]|START|END`, case-insensitive) followed by `\s*` and the closing
`///`, trying the alternatives in the regex order.  Returns the raw edge text
and the consumed length including the closing slashes. -/
def tryMilestoneEdge (cs : List Char) : Option (String × Nat) :=
  let single :=
    match cs with
    | c :: rest =>
        if c = 's' ∨ c = 'S' ∨ c = 'e' ∨ c = 'E' then
          let w := (rest.takeWhile pyIsSpace).length
          if ("///".data).isPrefixOf (rest.drop w) then some (String.mk [c], 1 + w + 3)
          else none
        else none
    | [] => none
  match single with
  | some r => some r
  | none =>
      if ciPrefix ("start".data) cs then
        let rest := cs.drop 5
        let w := (rest.takeWhile pyIsSpace).length
        if ("///".data).isPrefixOf (rest.drop w) then
          some (String.mk (cs.take 5), 5 + w + 3)
        else none
      else if ciPrefix ("end".data) cs then
        let rest := cs.drop 3
        let w := (rest.takeWhile pyIsSpace).length
        if ("///".data).isPrefixOf (rest.drop w) then
          some (String.mk (cs.take 3), 3 + w + 3)
        else none
      else none

/-- Attempt to match `MILESTONE_CORE_TOKEN_RE` at the head of the text: the
`C`-prefixed digit-id branch first, then the plain-id branch.  Returns the id
group, the raw edge group and the total match length. -/
def tryMilestoneCoreAt (cs : List Char) : Option (String × String × Nat) :=
  if ("///".data).isPrefixOf cs then
    let r1 := cs.drop 3
    let w1 := (r1.takeWhile pyIsSpace).length
    let r2 := r1.drop w1
    let tail := fun (idChars : List Char) (r4 : List Char) (prefixLen : Nat) =>
      let idRest := r4.takeWhile isIdRestChar
      let r5 := r4.drop idRest.length
      let w2 := (r5.takeWhile pyIsSpace).length
      let r6 := r5.drop w2
      match r6 with
      | dot :: r7 =>
          if dot = '.' then
            let w3 := (r7.takeWhile pyIsSpace).length
            let r8 := r7.drop w3
            match tryMilestoneEdge r8 with
            | some (edge, consumed) =>
                some (String.mk (idChars ++ idRest), edge,
                  prefixLen + idRest.length + w2 + 1 + w3 + consumed)
            | none => none
          else none
      | [] => none
    let branch1 :=
      match r2 with
      | c :: r3 =>
          if c = 'C' then
            match r3 with
            | d :: r4 =>
                if d.isDigit then tail [d] r4 (3 + w1 + 1 + 1) else none
            | [] => none
          else none
      | [] => none
    match branch1 with
    | some r => some r
    | none =>
        match r2 with
        | c :: r3 =>
            if c.isAlphanum then tail [c] r3 (3 + w1 + 1) else none
        | [] => none
  else none

/-- Non-overlapping scan of `MILESTONE_CORE_TOKEN_RE`, yielding
(match offset, id group, raw edge group, match length) in order. -/
def scanMilestoneCore : Nat → List Char → Nat → List (Nat × String × String × Nat)
  | 0, _, _ => []
  | _, [], _ => []
  | fuel + 1, cs@(_ :: rest), pos =>
      match tryMilestoneCoreAt cs with
      | some (cid, edge, len) =>
          (pos, cid, edge, len) :: scanMilestoneCore fuel (cs.drop len) (pos + len)
      | none => scanMilestoneCore fuel rest (pos + 1)

/-- Embedding of `collect_one_sided_wrapper_issues` (converter.py lines
1395-1428): flag every milestone core token whose `==` highlight wrapper
appears on exactly one side. -/
def collect_one_sided_wrapper_issues (text : String) : List String :=
  let cs := text.data
  (scanMilestoneCore (cs.length + 1) cs 0).foldl
    (fun issues entry =>
      let pos := entry.1
      let commentId := entry.2.1
      let edge := normalize_milestone_edge entry.2.2.1
      let len := entry.2.2.2
      if commentId = "" ∨ (edge ≠ "s" ∧ edge ≠ "e") then issues
      else
        let pre := cs.take pos
        let spacesBack := (pre.reverse.takeWhile (fun c => c = ' ' ∨ c = '\t')).length
        let leftIdx := pos - spacesBack
        let hasLeft := 2 ≤ leftIdx ∧ cs.getD (leftIdx - 2) ' ' = '=' ∧ cs.getD (leftIdx - 1) ' ' = '='
        let after := cs.drop (pos + len)
        let spacesFwd := (after.takeWhile (fun c => c = ' ' ∨ c = '\t')).length
        let rightIdx := pos + len + spacesFwd
        let hasRight := rightIdx + 1 < cs.length ∧ cs.getD rightIdx ' ' = '=' ∧ cs.getD (rightIdx + 1) ' ' = '='
        if (hasLeft ↔ hasRight) then issues
        else
          let lc := line_col_for_offset text pos
          let excerpt := line_excerpt text lc.1
          let token := if edge = "s" then "START" else "END"
          let issue :=
            "Comment " ++ commentId ++ " has one-sided highlight wrapper around " ++ token
              ++ " marker at " ++ Nat.repr lc.1 ++ ":" ++ Nat.repr lc.2
              ++ ". Use either plain `///C" ++ commentId ++ "." ++ token
              ++ "///` or fully wrapped `==///C" ++ commentId ++ "." ++ token ++ "///==`."
          let issue1 :=
            if excerpt ≠ "" then
              issue ++ " Line " ++ Nat.repr lc.1 ++ ": `" ++ excerpt ++ "`"
            else issue
          issues ++ [issue1])
    []

/-! ## Marker-integrity validation (`validate_comment_marker_integrity`,
converter.py lines 1431-1508) -/

/-- Embedding of `format_marker_locations` (converter.py lines 1389-1392). -/
def format_marker_locations (locs : List MarkerLoc) : String :=
  if locs = [] then "(none)"
  else String.intercalate ", " (locs.map (fun l => Nat.repr l.line ++ ":" ++ Nat.repr l.col))

/-- A comment card as decoded from markdown: a Python dict of string
fields. -/
def Card : Type := List (String × String)

/-- The root-card line map extended with every parentless card of
`card_by_id` at line 0 (`root_line_by_id.setdefault(cid, 0)`, converter.py
lines 1433-1440). -/
def rootLinesWithCards (sourceText : String) (cardById : List (String × Card)) :
    List (String × Nat) :=
  cardById.foldl
    (fun m entry =>
      let cid := pyStrip entry.1
      if cid = "" then m
      else if pyStrip (dictGetD entry.2 "parent") ≠ "" then m
      else if (dictGet m cid).isSome then m
      else m ++ [(cid, 0)])
    (collect_root_card_lines sourceText)

/-- The sort key `lambda value: (len(value), value)` used for the id
iteration order (converter.py line 1444). -/
def idSortLe (a b : String) : Bool :=
  if a.length < b.length then true
  else if b.length < a.length then false
  else a ≤ b

/-- The issues collected for one id by the validation loop (converter.py
lines 1445-1489), in source order: the root-card exactly-one rule or the
balance rule, the duplicate rule, the order rule, and the two excerpt
notes. -/
def marker_issues_for_id (normalizedText : String)
    (startsBy endsBy : List (String × List MarkerLoc))
    (rootLines : List (String × Nat)) (commentId : String) : List String :=
  let starts := (dictGet startsBy commentId).getD []
  let ends := (dictGet endsBy commentId).getD []
  let startCount := starts.length
  let endCount := ends.length
  let isRootCard := (dictGet rootLines commentId).isSome
  let issuesA :=
    if isRootCard ∧ (startCount ≠ 1 ∨ endCount ≠ 1) then
      let cardLine := (dictGet rootLines commentId).getD 0
      let cardRef :=
        if cardLine ≠ 0 then "CARD_META line " ++ Nat.repr cardLine
        else "CARD_META line unknown"
      ["Root comment " ++ commentId ++ " (" ++ cardRef
        ++ ") must have exactly one START and one END marker; found START="
        ++ Nat.repr startCount ++ ", END=" ++ Nat.repr endCount ++ "."]
    else if startCount ≠ endCount then
      ["Comment " ++ commentId ++ " has unbalanced markers; START="
        ++ Nat.repr startCount ++ " at " ++ format_marker_locations starts
        ++ ", END=" ++ Nat.repr endCount ++ " at " ++ format_marker_locations ends ++ "."]
    else []
  let issuesB :=
    if 1 < startCount ∨ 1 < endCount then
      ["Comment " ++ commentId ++ " has duplicate markers; START lines "
        ++ format_marker_locations starts ++ ", END lines "
        ++ format_marker_locations ends ++ "."]
    else []
  let issuesC :=
    match starts.head?, ends.getLast? with
    | some s0, some eL =>
        if eL.offset < s0.offset then
          ["Comment " ++ commentId ++ " has END before START; first START at "
            ++ Nat.repr s0.line ++ ":" ++ Nat.repr s0.col ++ ", last END at "
            ++ Nat.repr eL.line ++ ":" ++ Nat.repr eL.col ++ "."]
        else []
    | _, _ => []
  let issuesD :=
    if startCount ≠ 0 ∧ endCount = 0 then
      match starts.head? with
      | some s0 =>
          let excerpt := line_excerpt normalizedText s0.line
          if excerpt ≠ "" then
            ["Comment " ++ commentId ++ " START marker line " ++ Nat.repr s0.line
              ++ ": `" ++ excerpt ++ "`"]
          else []
      | none => []
    else []
  let issuesE :=
    if endCount ≠ 0 ∧ startCount = 0 then
      match ends.head? with
      | some e0 =>
          let excerpt := line_excerpt normalizedText e0.line
          if excerpt ≠ "" then
            ["Comment " ++ commentId ++ " END marker line " ++ Nat.repr e0.line
              ++ ": `" ++ excerpt ++ "`"]
          else []
      | none => []
    else []
  issuesA ++ issuesB ++ issuesC ++ issuesD ++ issuesE

/-- The sorted union of the ids appearing among markers or root cards
(converter.py lines 1443-1444). -/
def markerAllIds (startsBy endsBy : List (String × List MarkerLoc))
    (rootLines : List (String × Nat)) : List String :=
  (dedupFirst (startsBy.map (·.1) ++ endsBy.map (·.1) ++ rootLines.map (·.1))).mergeSort
    idSortLe

/-- The full issue list of `validate_comment_marker_integrity`: the per-id
issues over the sorted id union, then the one-sided wrapper issues. -/
def marker_integrity_issues (sourceText normalizedText : String)
    (cardById : List (String × Card)) : List String :=
  let collected := collect_span_marker_positions normalizedText
  let rootLines := rootLinesWithCards sourceText cardById
  ((markerAllIds collected.1 collected.2 rootLines).flatMap
      (marker_issues_for_id normalizedText collected.1 collected.2 rootLines))
    ++ collect_one_sided_wrapper_issues sourceText

/-- The guidance line appended to the aggregated error (converter.py lines
1497-1501). -/
def marker_guidance : String :=
  "Fix markers by keeping one exact pair per root anchor in prose: "
    ++ "`///C<ID>.START/// ... ///C<ID>.END///` (optional wrapper: `==///C<ID>.START///==`). "
    ++ "Ensure each root `CARD_META` entry has a matching marker pair with the same ID."

/-- The aggregated `ValueError` message (converter.py lines 1495-1508). -/
def marker_error_message (sourceLabel : String) (issues : List String) : String :=
  let sourceHint := if sourceLabel ≠ "" then sourceLabel else "<markdown input>"
  "Comment marker validation failed before md->docx conversion.\n"
    ++ "Source: " ++ sourceHint ++ "\n"
    ++ String.intercalate "\n" (issues.map (fun i => "- " ++ i))
    ++ "\n- " ++ marker_guidance

/-- Embedding of `validate_comment_marker_integrity` (converter.py lines
1431-1508): collect every violation over the whole document and raise one
aggregated error, or return unit when no issue was found. -/
def validate_comment_marker_integrity (sourceText normalizedText : String)
    (cardById : List (String × Card)) (sourceLabel : String) :
    Except String Unit :=
  let issues := marker_integrity_issues sourceText normalizedText cardById
  if issues = [] then .ok ()
  else .error (marker_error_message sourceLabel issues)


/-! ## Marker repair (`repair_unbalanced_comment_markers`, converter.py
lines 1635-1694) -/

/-- One comment-start record of the repair scan: the raw `id` attribute, the
raw `parent` attribute (`attrs.get("parent", "")`), and the match end
offset. -/
structure RepairStart where
  id : String
  parent : String
  posEnd : Nat
deriving Repr, DecidableEq

/-- The start-marker scan of the repair pass (converter.py lines 1639-1650):
one record per `COMMENT_START_ATTR_BLOCK_RE` match carrying an `id`
attribute.  Attribute values are used raw (no stripping), as in the
source. -/
def repairStarts (text : String) : List RepairStart :=
  (commentStartBlocks text).foldr
    (fun mt acc =>
      let attrs := kvPairsToDict (scanKvPairs (mt.attrs.data.length + 1) mt.attrs.data)
      match dictGet attrs "id" with
      | none => acc
      | some cid =>
          if cid = "" then acc
          else { id := cid, parent := (dictGet attrs "parent").getD "", posEnd := mt.stop } :: acc)
    []

/-- The end-marker scan of the repair pass (converter.py lines 1652-1657):
match end offsets per raw id. -/
def repairEndPositions (text : String) : List (String × List Nat) :=
  (commentEndBlocks text).foldl
    (fun m mt =>
      let attrs := kvPairsToDict (scanKvPairs (mt.attrs.data.length + 1) mt.attrs.data)
      match dictGet attrs "id" with
      | none => m
      | some cid => if cid = "" then m else multiAppend m cid mt.stop)
    []

/-- The `children` adjacency of the repair pass (converter.py lines
1667-1671): parent id (stripped) to child start ids, in scan order. -/
def repairChildren (starts : List RepairStart) : List (String × List String) :=
  starts.foldl
    (fun m s =>
      let pid := pyStrip s.parent
      if pid ≠ "" then multiAppend m pid s.id else m)
    []

mutual

/-- The recursive `descendant_end_positions` (converter.py lines 1673-1681)
with its shared mutable `seen` set threaded explicitly.  Fuel bounds the
recursion depth, which the `seen` set bounds by the number of start ids in
the Python original. -/
def descendantEndPositions (children : List (String × List String))
    (endsBy : List (String × List Nat)) :
    Nat → String → List String → List Nat × List String
  | 0, _, seen => ([], seen)
  | fuel + 1, cid, seen =>
      if seen.contains cid then ([], seen)
      else
        descendantEndChildren children endsBy fuel ((dictGet children cid).getD [])
          (cid :: seen)

/-- The child loop of `descendant_end_positions`: direct end positions of
each child, then its recursive descendants, sharing the `seen` set across
siblings. -/
def descendantEndChildren (children : List (String × List String))
    (endsBy : List (String × List Nat)) :
    Nat → List String → List String → List Nat × List String
  | _, [], seen => ([], seen)
  | fuel, child :: rest, seen =>
      let direct := (dictGet endsBy child).getD []
      let sub := descendantEndPositions children endsBy fuel child seen
      let more := descendantEndChildren children endsBy fuel rest sub.2
      (direct ++ sub.1 ++ more.1, more.2)

end

/-- The synthetic end token inserted for an id (converter.py line 1688). -/
def repairToken (cid : String) : String :=
  "[]\x7b.comment-end id=\"" ++ cid ++ "\"\x7d"

/-- The insertion list of the repair pass (converter.py lines 1683-1688): one
entry per start occurrence whose id has no end marker, at the latest
descendant end position, or at the end of the id's own (last) start marker
when no descendant end exists. -/
def repairInsertions (text : String) : List (Nat × String) :=
  let starts := repairStarts text
  let endsBy := repairEndPositions text
  let startsBy := starts.foldl (fun m s => dictSet m s.id s) []
  let children := repairChildren starts
  let missing := (starts.map (·.id)).filter (fun cid => (dictGet endsBy cid).isNone)
  missing.map
    (fun cid =>
      let base := ((dictGet startsBy cid).map (·.posEnd)).getD 0
      let descEnds := (descendantEndPositions children endsBy (starts.length + 1) cid []).1
      let pos := match descEnds.max? with
        | some m => m
        | none => base
      (pos, repairToken cid))

/-- Splice a token into a character list at an absolute offset
(`updated[:pos] + token + updated[pos:]`). -/
def spliceAt (cs : List Char) (pos : Nat) (token : String) : List Char :=
  cs.take pos ++ token.data ++ cs.drop pos

/-- Embedding of `repair_unbalanced_comment_markers` (converter.py lines
1635-1694): insert a synthetic end marker for every start occurrence whose
id lacks an end marker, splicing right-to-left (stable descending sort over
insertion positions), and report the insertion count. -/
def repair_unbalanced_comment_markers (text : String) : String × Nat :=
  let starts := repairStarts text
  let endsBy := repairEndPositions text
  if starts.map (·.id) = [] then (text, 0)
  else
    let missing := (starts.map (·.id)).filter (fun cid => (dictGet endsBy cid).isNone)
    if missing = [] then (text, 0)
    else
      let insertions := repairInsertions text
      let sorted := insertions.mergeSort (fun a b => b.1 ≤ a.1)
      let updated := sorted.foldl (fun acc ins => spliceAt acc ins.1 ins.2) text.data
      (String.mk updated, insertions.length)


/-! ## Reply-anchor synthesis (`ensure_thread_reply_anchors`, converter.py
lines 2820-2896)

The XML story files and `synthesize_child_markers_in_story` are filesystem /
DOM operations; they enter the model as an abstract file count and an oracle
for the per-file insertion outcome, while the control flow, the marker-count
bookkeeping and the unresolved-issue aggregation are embedded from the
source. -/

/-- The story marker counts (`collect_story_marker_counts`): per comment id,
how many `commentRangeStart` / `commentRangeEnd` / `commentReference`
elements exist across the story parts. -/
structure MarkerCounts where
  starts : List (String × Nat)
  ends : List (String × Nat)
  refs : List (String × Nat)

/-- Count lookup with default 0 (`int(marker_counts[...].get(cid, 0))`). -/
def mcGet (m : List (String × Nat)) (cid : String) : Nat :=
  (dictGet m cid).getD 0

/-- Outcome oracle for one `synthesize_child_markers_in_story` call:
(file index, parent id, child id, need start, need end, need ref) to the
inserted (start, end, ref) flags. -/
def SynthOracle : Type :=
  Nat → String → String → Bool → Bool → Bool → Bool × Bool × Bool

/-- The per-story-file loop of `ensure_thread_reply_anchors` (converter.py
lines 2854-2876): try each story file while markers are still needed,
updating the counts and the changed-file counter after a successful
insertion. -/
def anchorFileLoop (synth : SynthOracle) (parentId childId : String) :
    List Nat → MarkerCounts → Nat → Bool → Bool → Bool →
      MarkerCounts × Nat × Bool × Bool × Bool
  | [], counts, changed, ns, ne, nr => (counts, changed, ns, ne, nr)
  | f :: rest, counts, changed, ns, ne, nr =>
      if ¬ (ns ∨ ne ∨ nr) then (counts, changed, ns, ne, nr)
      else
        let ins := synth f parentId childId ns ne nr
        if ins.1 ∨ ins.2.1 ∨ ins.2.2 then
          let counts1 : MarkerCounts :=
            { starts := dictSet counts.starts childId
                (mcGet counts.starts childId + (if ins.1 then 1 else 0)),
              ends := dictSet counts.ends childId
                (mcGet counts.ends childId + (if ins.2.1 then 1 else 0)),
              refs := dictSet counts.refs childId
                (mcGet counts.refs childId + (if ins.2.2 then 1 else 0)) }
          anchorFileLoop synth parentId childId rest counts1 (changed + 1)
            (mcGet counts1.starts childId < 1) (mcGet counts1.ends childId < 1)
            (mcGet counts1.refs childId < 1)
        else
          anchorFileLoop synth parentId childId rest counts changed ns ne nr

/-- The per-reply body of the main loop of `ensure_thread_reply_anchors`
(converter.py lines 2829-2888), threading (counts, changed files,
unresolved issues). -/
def anchorStep (storyCount : Nat) (synth : SynthOracle)
    (parentById : List (String × String))
    (acc : MarkerCounts × Nat × List String) (cid : String) :
    MarkerCounts × Nat × List String :=
  let counts := acc.1
  let changed := acc.2.1
  let unresolved := acc.2.2
  let parentId := pyStrip (dictGetD parentById cid)
  if parentId = "" then acc
  else
    let hasStart := 0 < mcGet counts.starts cid
    let hasEnd := 0 < mcGet counts.ends cid
    let hasRef := 0 < mcGet counts.refs cid
    if hasStart ∧ hasEnd ∧ hasRef then acc
    else if mcGet counts.starts parentId < 1 ∨ mcGet counts.ends parentId < 1
        ∨ mcGet counts.refs parentId < 1 then
      (counts, changed,
        unresolved ++ ["cannot synthesize anchors for reply " ++ cid ++ ": parent "
          ++ parentId ++ " has incomplete anchors"])
    else
      let out := anchorFileLoop synth parentId cid (List.range storyCount) counts changed
        (¬ hasStart) (¬ hasEnd) (¬ hasRef)
      let counts1 := out.1
      let changed1 := out.2.1
      let ns := out.2.2.1
      let ne := out.2.2.2.1
      let nr := out.2.2.2.2
      if ns ∨ ne ∨ nr then
        let missing :=
          (if ns then ["commentRangeStart"] else [])
            ++ (if ne then ["commentRangeEnd"] else [])
            ++ (if nr then ["commentReference"] else [])
        (counts1, changed1,
          unresolved ++ ["reply " ++ cid ++ " still missing: "
            ++ String.intercalate ", " missing ++ " (parent " ++ parentId ++ ")"])
      else (counts1, changed1, unresolved)

/-- The aggregated `ValueError` of `ensure_thread_reply_anchors` (converter.py
lines 2890-2895). -/
def anchor_error_message (unresolved : List String) : String :=
  "Unable to restore reply anchors required for threaded Word comments.\n"
    ++ String.intercalate "\n" (unresolved.map (fun i => "- " ++ i))
    ++ "\n- Fix malformed or missing parent anchors in markdown/converted DOCX and retry."

/-- Embedding of `ensure_thread_reply_anchors` (converter.py lines
2820-2896): walk replies in topological order, synthesize missing anchors
from the parent's, and raise one aggregated error when any reply remains
unresolved; otherwise return the changed-file count. -/
def ensure_thread_reply_anchors (storyCount : Nat) (synth : SynthOracle)
    (orderedIds : List String) (parentById : List (String × String))
    (counts0 : MarkerCounts) : Except String Nat :=
  let childIds := orderedIds.filter (fun cid => pyStrip (dictGetD parentById cid) ≠ "")
  if childIds = [] then .ok 0
  else
    let final := (topological_comment_order orderedIds parentById).foldl
      (anchorStep storyCount synth parentById) (counts0, 0, [])
    if final.2.2 ≠ [] then .error (anchor_error_message final.2.2)
    else .ok final.2.1

/-! ## The md-to-docx pipeline (`convert_md_to_docx`, converter.py lines
3398-3481)

The pipeline invokes the external converter (pandoc) and reads/writes the
filesystem; those effects enter the model as an oracle, while the stage
order, the validation calls and the point at which the destination file is
written are embedded from the source.  The destination file is modelled as
`Option String` (its contents, or `none` when absent); every written
destination state is tracked explicitly. -/

/-- The oracle for one `convert_md_to_docx` run: the results of every
pandoc-mediated or filesystem-derived intermediate, around which the
embedded control flow runs. -/
structure ConvOracle where
  /-- `strip_placeholder_shape_images` of the input markdown (line 3405). -/
  cleanedText : String
  /-- The card map recovered by `normalize_milestone_tokens_ast` (line 3407). -/
  cardById : List (String × Card)
  /-- The normalized markdown after milestone-token normalization and
  nested-end normalization (lines 3414-3416). -/
  normalizedText : String
  /-- The validation source label `str(in_md)` (line 3421). -/
  sourceLabel : String
  /-- The extracted `ordered_started_ids` of
  `extract_comment_texts_from_markdown` (line 2183). -/
  orderedStartedIds : List String
  /-- The raw parent candidates collected from cards and spans (lines
  1960-2181). -/
  parentCandidates : List (String × String)
  /-- Whether the external converter run of line 3440 exits zero. -/
  pandocOk : Bool
  /-- The destination state left behind by a failed converter run (external,
  unspecified). -/
  pandocFailureDest : Option String
  /-- The docx the converter writes to the destination on success. -/
  pandocOutput : String
  /-- Whether `word/comments.xml` exists in the converter output (line 2355). -/
  commentsXmlExists : Bool
  /-- `collect_story_marker_counts` of the unpacked converter output. -/
  markerCounts : MarkerCounts
  /-- The number of story XML candidates (`word_story_xml_candidates`). -/
  storyFileCount : Nat
  /-- Per-file anchor synthesis outcomes. -/
  synth : SynthOracle
  /-- Whether `rewrite_comments_extended_state` reports a change (line 3468). -/
  extendedStateChanged : Bool
  /-- The repacked patched archive (lines 3479-3481). -/
  patchedOutput : String

/-- Embedding of the control flow of `convert_md_to_docx` (converter.py
lines 3398-3481) over the destination-file state: marker validation and
comment extraction run before the converter writes the destination (line
3440); the comment rewrite, reply-anchor synthesis and extended-state
rewrite run afterwards on an unpacked temporary copy, which replaces the
destination only when something changed (lines 3477-3481).  Returns the
final destination state and the run's outcome. -/
def convert_md_to_docx (o : ConvOracle) (dest0 : Option String) :
    Option String × Except String Unit :=
  match validate_comment_marker_integrity o.cleanedText o.normalizedText
      o.cardById o.sourceLabel with
  | .error e => (dest0, .error e)
  | .ok _ =>
    match validate_thread_relationships o.orderedStartedIds o.parentCandidates with
    | .error e => (dest0, .error e)
    | .ok parentById =>
      if o.pandocOk = false then (o.pandocFailureDest, .error "pandoc exited non-zero")
      else
        let dest1 := some o.pandocOutput
        if o.orderedStartedIds = [] then (dest1, .ok ())
        else
          let changed := o.commentsXmlExists
          match ensure_thread_reply_anchors o.storyFileCount o.synth
              o.orderedStartedIds parentById o.markerCounts with
          | .error e => (dest1, .error e)
          | .ok anchorChanged =>
            let stateUpdated := o.extendedStateChanged
            if changed = false ∧ stateUpdated = false ∧ anchorChanged = 0 then
              (dest1, .ok ())
            else (some o.patchedOutput, .ok ())

/-! ## Proof-side helper definitions -/

/-- The ids a single pending-scan pass emits when every scanned id still
pending is emitted unconditionally (used to characterize
`topological_comment_order` under an empty parent map). -/
def sweep : List String → List String → List String
  | [], _ => []
  | c :: rest, pset =>
      if pset.contains c then c :: sweep rest (pset.erase c)
      else sweep rest pset

/-- Specification predicate: every id in the emitted list whose parent is
among the pending input ids has that parent strictly earlier in the emitted
list. -/
def ParentBefore (pb : List (String × String)) (pending : List String)
    (emitted : List String) : Prop :=
  ∀ (l1 : List String) (x : String) (l2 : List String),
    emitted = l1 ++ x :: l2 → topoParentOf pb x ∈ pending → topoParentOf pb x ∈ l1


/-! # Theorems -/

/-- Every hex digit character produced by `hexDigit` is one of the sixteen
uppercase hexadecimal digits. -/
theorem hexDigit_mem (m : Nat) : hexDigit m ∈ hexDigits := by
  unfold hexDigit
  rcases Nat.lt_or_ge m 16 with hlt | hge
  · interval_cases m <;> decide
  · have hlen : hexDigits.length ≤ m := by
      have : hexDigits.length = 16 := by decide
      omega
    simp [List.getD_eq_getElem?_getD, List.getElem?_eq_none hlen]
    decide

/-- The formatted candidate is always eight characters long. -/
theorem toHex8_length (n : Nat) : (toHex8 n).length = 8 := by
  simp [toHex8, String.length]

/-- Every character of the formatted candidate is an uppercase hex digit. -/
theorem toHex8_chars (n : Nat) : ∀ c ∈ (toHex8 n).data, c ∈ hexDigits := by
  intro c hc
  simp only [toHex8, String.mk, List.mem_map] at hc
  obtain ⟨i, _, rfl⟩ := hc
  exact hexDigit_mem _

/-- C9: for every seed and every used-id set, `generate_unique_para_id`
returns the eight-uppercase-hex-digit CRC-32 checksum of `"<seed>:<counter>"`
for the smallest counter whose checksum is neither `"00000000"` nor already
used, and records the returned value in the used set;
`generate_unique_durable_id` computes exactly the same function. -/
theorem C9_stable_id_generation (seed : String) (used : List String)
    (h : ∃ k, unique_id_ok seed used k = true) :
    ∃ k, unique_id_ok seed used k = true
      ∧ (∀ j, j < k → unique_id_ok seed used j = false)
      ∧ generate_unique_para_id seed used h
          = (unique_id_candidate seed k, unique_id_candidate seed k :: used)
      ∧ generate_unique_durable_id seed used h = generate_unique_para_id seed used h
      ∧ (unique_id_candidate seed k).length = 8
      ∧ (∀ c ∈ (unique_id_candidate seed k).data, c ∈ hexDigits) := by
  refine ⟨Nat.find h, Nat.find_spec h, ?_, rfl, rfl, toHex8_length _, toHex8_chars _⟩
  intro j hj
  have := Nat.find_min h hj
  simpa using this

set_option maxRecDepth 40000 in
/-- Witness for C9 at the concrete paragraph-id seed `"comment-1"` and a
one-element used set. -/
theorem C9_stable_id_generation_witness :
    ∃ k, unique_id_ok (para_id_seed "1") ["ABCD1234"] k = true
      ∧ (∀ j, j < k → unique_id_ok (para_id_seed "1") ["ABCD1234"] j = false)
      ∧ generate_unique_para_id (para_id_seed "1") ["ABCD1234"] ⟨0, by decide⟩
          = (unique_id_candidate (para_id_seed "1") k,
             unique_id_candidate (para_id_seed "1") k :: ["ABCD1234"])
      ∧ generate_unique_durable_id (para_id_seed "1") ["ABCD1234"] ⟨0, by decide⟩
          = generate_unique_para_id (para_id_seed "1") ["ABCD1234"] ⟨0, by decide⟩
      ∧ (unique_id_candidate (para_id_seed "1") k).length = 8
      ∧ (∀ c ∈ (unique_id_candidate (para_id_seed "1") k).data, c ∈ hexDigits) :=
  C9_stable_id_generation (para_id_seed "1") ["ABCD1234"] ⟨0, by decide⟩


/-! ## Lemmas on first-occurrence deduplication and the pending set -/

/-- Erasing a different element does not change a count. -/
theorem count_erase_of_ne {l : List String} {a b : String} (h : a ≠ b) :
    (l.erase b).count a = l.count a := by
  rw [List.count_erase]
  have hba : ¬ ((b == a) = true) := by simpa using Ne.symm h
  rw [if_neg hba]
  exact Nat.sub_zero _

/-- Membership in the first-occurrence dedup with a seen set. -/
theorem dedupFirstAux_mem (x : String) :
    ∀ (l seen : List String), x ∈ dedupFirstAux seen l ↔ x ∈ l ∧ ¬ x ∈ seen := by
  intro l
  induction l with
  | nil => intro seen; simp [dedupFirstAux]
  | cons c rest ih =>
      intro seen
      by_cases hc : c ∈ seen
      · simp only [dedupFirstAux, if_pos hc, ih seen, List.mem_cons]
        constructor
        · rintro ⟨h1, h2⟩
          exact ⟨Or.inr h1, h2⟩
        · rintro ⟨rfl | h1, h2⟩
          · exact absurd hc h2
          · exact ⟨h1, h2⟩
      · simp only [dedupFirstAux, if_neg hc, List.mem_cons, ih (c :: seen)]
        constructor
        · rintro (rfl | ⟨h1, h2⟩)
          · exact ⟨Or.inl rfl, hc⟩
          · refine ⟨Or.inr h1, fun hx => h2 (Or.inr hx)⟩
        · rintro ⟨rfl | h1, h2⟩
          · exact Or.inl rfl
          · by_cases hxc : x = c
            · exact Or.inl hxc
            · refine Or.inr ⟨h1, fun hx => ?_⟩
              rcases hx with h | h
              · exact hxc h
              · exact h2 h

/-- The first-occurrence dedup is duplicate-free. -/
theorem dedupFirstAux_nodup : ∀ (l seen : List String), (dedupFirstAux seen l).Nodup := by
  intro l
  induction l with
  | nil => intro seen; simp [dedupFirstAux]
  | cons c rest ih =>
      intro seen
      by_cases hc : c ∈ seen
      · simpa [dedupFirstAux, if_pos hc] using ih seen
      · rw [show dedupFirstAux seen (c :: rest) = c :: dedupFirstAux (c :: seen) rest from by
          simp [dedupFirstAux, if_neg hc]]
        refine List.nodup_cons.mpr ⟨fun hmem => ?_, ih (c :: seen)⟩
        exact ((dedupFirstAux_mem c rest (c :: seen)).mp hmem).2 (List.mem_cons_self c seen)

/-- The dedup is never longer than the original list. -/
theorem dedupFirstAux_length_le : ∀ (l seen : List String),
    (dedupFirstAux seen l).length ≤ l.length := by
  intro l
  induction l with
  | nil => intro seen; simp [dedupFirstAux]
  | cons c rest ih =>
      intro seen
      by_cases hc : c ∈ seen
      · rw [show dedupFirstAux seen (c :: rest) = dedupFirstAux seen rest from by
          simp [dedupFirstAux, if_pos hc]]
        exact Nat.le_succ_of_le (ih seen)
      · rw [show dedupFirstAux seen (c :: rest) = c :: dedupFirstAux (c :: seen) rest from by
          simp [dedupFirstAux, if_neg hc]]
        exact Nat.succ_le_succ (ih (c :: seen))

/-- Count in the full dedup: one per distinct member. -/
theorem dedupFirst_count (l : List String) (x : String) :
    (dedupFirst l).count x = if x ∈ l then 1 else 0 := by
  by_cases hx : x ∈ l
  · rw [if_pos hx]
    exact List.count_eq_one_of_mem (dedupFirstAux_nodup l [])
      ((dedupFirstAux_mem x l []).mpr ⟨hx, by simp⟩)
  · rw [if_neg hx]
    exact List.count_eq_zero_of_not_mem
      (fun hmem => hx ((dedupFirstAux_mem x l []).mp hmem).1)

/-- Membership in the full dedup. -/
theorem dedupFirst_mem (l : List String) (x : String) :
    x ∈ dedupFirst l ↔ x ∈ l := by
  rw [dedupFirst, dedupFirstAux_mem]
  simp

/-! ## Lemmas on `topoPass` / `topoFallback` / `topoLoop` -/

/-- Unfolding equation: a scanned id no longer pending is skipped. -/
theorem topoPass_cons_notmem {pb : List (String × String)} {cid : String}
    {rest pset emitted : List String} (h : pset.contains cid = false) :
    topoPass pb (cid :: rest) pset emitted = topoPass pb rest pset emitted := by
  have hm : cid ∉ pset := by simpa using h
  simp [topoPass, hm]

/-- Unfolding equation: a pending id whose parent is nonempty and still
pending is skipped. -/
theorem topoPass_cons_wait {pb : List (String × String)} {cid : String}
    {rest pset emitted : List String} (h : pset.contains cid = true)
    (h2 : topoParentOf pb cid ≠ "") (h3 : pset.contains (topoParentOf pb cid) = true) :
    topoPass pb (cid :: rest) pset emitted = topoPass pb rest pset emitted := by
  have hm : cid ∈ pset := by simpa using h
  have hpm : topoParentOf pb cid ∈ pset := by simpa using h3
  simp [topoPass, hm, h2, hpm]

/-- Unfolding equation: a pending id whose parent is empty or no longer
pending is emitted and removed. -/
theorem topoPass_cons_emit {pb : List (String × String)} {cid : String}
    {rest pset emitted : List String} (h : pset.contains cid = true)
    (h2 : topoParentOf pb cid = "" ∨ pset.contains (topoParentOf pb cid) = false) :
    topoPass pb (cid :: rest) pset emitted
      = ((topoPass pb rest (pset.erase cid) (emitted ++ [cid])).1,
         (topoPass pb rest (pset.erase cid) (emitted ++ [cid])).2.1, true) := by
  have hm : cid ∈ pset := by simpa using h
  rcases h2 with h2 | h2
  · simp [topoPass, hm, h2]
  · have hpm : topoParentOf pb cid ∉ pset := by simpa using h2
    by_cases hne : topoParentOf pb cid = ""
    · simp [topoPass, hm, hne]
    · simp [topoPass, hm, hne, hpm]

/-- Structural facts about one scanning pass: the remaining pending set is a
duplicate-free subset, emitted-plus-pending counts are preserved, a
progressing pass strictly shrinks the pending set, and a non-progressing
pass changes nothing. -/
theorem topoPass_spec (pb : List (String × String)) :
    ∀ (l pset emitted : List String), pset.Nodup →
      ((topoPass pb l pset emitted).1.Nodup
        ∧ (∀ x, (topoPass pb l pset emitted).2.1.count x
            + (topoPass pb l pset emitted).1.count x
            = emitted.count x + pset.count x)
        ∧ (∀ x, x ∈ (topoPass pb l pset emitted).1 → x ∈ pset)
        ∧ (topoPass pb l pset emitted).1.length ≤ pset.length
        ∧ ((topoPass pb l pset emitted).2.2 = true →
            (topoPass pb l pset emitted).1.length < pset.length)
        ∧ ((topoPass pb l pset emitted).2.2 = false →
            (topoPass pb l pset emitted).1 = pset
              ∧ (topoPass pb l pset emitted).2.1 = emitted)) := by
  intro l
  induction l with
  | nil =>
      intro pset emitted hnd
      simp [topoPass, hnd]
  | cons cid rest ih =>
      intro pset emitted hnd
      by_cases hc : pset.contains cid = true
      · have hcm : cid ∈ pset := by simpa [List.elem_iff] using hc
        by_cases hw : topoParentOf pb cid ≠ "" ∧ pset.contains (topoParentOf pb cid) = true
        · rw [topoPass_cons_wait hc hw.1 hw.2]
          exact ih pset emitted hnd
        · have h2 : topoParentOf pb cid = "" ∨ pset.contains (topoParentOf pb cid) = false := by
            by_cases hne : topoParentOf pb cid = ""
            · exact Or.inl hne
            · refine Or.inr ?_
              by_cases hcc : pset.contains (topoParentOf pb cid) = true
              · exact absurd ⟨hne, hcc⟩ hw
              · simpa using hcc
          rw [topoPass_cons_emit hc h2]
          obtain ⟨ihnd, ihcount, ihmem, ihlen, _, _⟩ :=
            ih (pset.erase cid) (emitted ++ [cid]) (hnd.erase cid)
          have herasedlen : (pset.erase cid).length = pset.length - 1 :=
            List.length_erase_of_mem hcm
          have hpos : 0 < pset.length := List.length_pos_of_mem hcm
          refine ⟨ihnd, ?_, ?_, ?_, ?_, ?_⟩
          · intro x
            have hx0 := ihcount x
            by_cases hx : x = cid
            · subst hx
              have hone : pset.count x = 1 := List.count_eq_one_of_mem hnd hcm
              have hcnt : (pset.erase x).count x = pset.count x - 1 := by
                rw [List.count_erase]; simp
              have happ : (emitted ++ [x]).count x = emitted.count x + 1 := by
                simp [List.count_append]
              rw [happ, hcnt, hone] at hx0
              rw [hone]
              exact hx0
            · have hcnt : (pset.erase cid).count x = pset.count x :=
                count_erase_of_ne hx
              have hxl : ([cid] : List String).count x = 0 :=
                List.count_eq_zero_of_not_mem (by simp [hx])
              have happ : (emitted ++ [cid]).count x = emitted.count x := by
                simp [List.count_append, hxl]
              rw [happ, hcnt] at hx0
              exact hx0
          · intro x hx
            exact List.mem_of_mem_erase (ihmem x hx)
          · dsimp only
            omega
          · intro _
            dsimp only
            omega
          · intro hfalse
            exact absurd hfalse (by simp)
      · have hcf : pset.contains cid = false := by simpa using hc
        rw [topoPass_cons_notmem hcf]
        exact ih pset emitted hnd


/-- The fallback pass empties the pending set (when it is a duplicate-free
subset of the scanned list) and preserves emitted-plus-pending counts. -/
theorem topoFallback_spec :
    ∀ (l pset emitted : List String), pset.Nodup → (∀ x ∈ pset, x ∈ l) →
      ((topoFallback l pset emitted).1 = []
        ∧ ∀ x, (topoFallback l pset emitted).2.count x
            = emitted.count x + pset.count x) := by
  intro l
  induction l with
  | nil =>
      intro pset emitted hnd hsub
      have : pset = [] := List.eq_nil_iff_forall_not_mem.mpr
        (fun x hx => by simpa using hsub x hx)
      subst this
      simp [topoFallback]
  | cons c rest ih =>
      intro pset emitted hnd hsub
      by_cases hc : c ∈ pset
      · have hcb : pset.contains c = true := by simpa using hc
        rw [show topoFallback (c :: rest) pset emitted
            = topoFallback rest (pset.erase c) (emitted ++ [c]) from by
          simp [topoFallback, hc]]
        have hsub2 : ∀ x ∈ pset.erase c, x ∈ rest := by
          intro x hx
          have hxp := List.mem_of_mem_erase hx
          have hxc : x ≠ c := (hnd.mem_erase_iff.mp hx).1
          rcases List.mem_cons.mp (hsub x hxp) with h | h
          · exact absurd h hxc
          · exact h
        obtain ⟨ih1, ih2⟩ := ih (pset.erase c) (emitted ++ [c]) (hnd.erase c) hsub2
        refine ⟨ih1, fun x => ?_⟩
        have hx0 := ih2 x
        by_cases hx : x = c
        · subst hx
          have hone : pset.count x = 1 := List.count_eq_one_of_mem hnd hc
          have hcnt : (pset.erase x).count x = pset.count x - 1 := by
            rw [List.count_erase]; simp
          have happ : (emitted ++ [x]).count x = emitted.count x + 1 := by
            simp [List.count_append]
          rw [happ, hcnt, hone] at hx0
          rw [hone]
          exact hx0
        · have hcnt : (pset.erase c).count x = pset.count x := count_erase_of_ne hx
          have hxl : ([c] : List String).count x = 0 :=
            List.count_eq_zero_of_not_mem (by simp [hx])
          have happ : (emitted ++ [c]).count x = emitted.count x := by
            simp [List.count_append, hxl]
          rw [happ, hcnt] at hx0
          exact hx0
      · rw [show topoFallback (c :: rest) pset emitted = topoFallback rest pset emitted from by
          simp [topoFallback, hc]]
        refine ih pset emitted hnd (fun x hx => ?_)
        rcases List.mem_cons.mp (hsub x hx) with h | h
        · exact absurd (h ▸ hx) hc
        · exact h

/-- The emission loop preserves counts: the final emitted list counts each id
exactly as often as emitted-so-far plus pending. -/
theorem topoLoop_count (pb : List (String × String)) (pending : List String) :
    ∀ (fuel : Nat) (pset emitted : List String), pset.Nodup →
      (∀ x ∈ pset, x ∈ pending) → pset.length + 1 ≤ fuel →
      ∀ x, (topoLoop pb pending fuel pset emitted).count x
        = emitted.count x + pset.count x := by
  intro fuel
  induction fuel with
  | zero => intro pset emitted _ _ hf; omega
  | succ fuel ih =>
      intro pset emitted hnd hsub hf x
      by_cases hempty : pset.isEmpty
      · have : pset = [] := List.isEmpty_iff.mp hempty
        subst this
        simp [topoLoop]
      · have hne : pset.isEmpty = false := by simpa using hempty
        obtain ⟨pnd, pcount, pmem, plen, pprog, pstay⟩ := topoPass_spec pb pending pset emitted hnd
        by_cases hprog : (topoPass pb pending pset emitted).2.2 = true
        · rw [show topoLoop pb pending (fuel + 1) pset emitted
              = topoLoop pb pending fuel (topoPass pb pending pset emitted).1
                  (topoPass pb pending pset emitted).2.1 from by
            simp [topoLoop, hne, hprog]]
          have hlt := pprog hprog
          have := ih (topoPass pb pending pset emitted).1
            (topoPass pb pending pset emitted).2.1 pnd
            (fun y hy => hsub y (pmem y hy)) (by omega) x
          rw [this, pcount x]
        · have hprogf : (topoPass pb pending pset emitted).2.2 = false := by
            simpa using hprog
          obtain ⟨hps, hem⟩ := pstay hprogf
          rw [show topoLoop pb pending (fuel + 1) pset emitted
              = (topoFallback pending (topoPass pb pending pset emitted).1
                  (topoPass pb pending pset emitted).2.1).2 from by
            simp [topoLoop, hne, hprogf]]
          rw [hps, hem]
          exact (topoFallback_spec pending pset emitted hnd hsub).2 x

/-- C10: for every input id list and every parent map, including cyclic or
dangling ones, `topological_comment_order` emits each distinct non-empty
input id exactly once — nothing is dropped or duplicated. -/
theorem C10_topological_order_exactly_once (orderedIds : List String)
    (parentById : List (String × String)) (x : String) :
    (topological_comment_order orderedIds parentById).count x
      = if x ≠ "" ∧ x ∈ orderedIds then 1 else 0 := by
  unfold topological_comment_order
  have hnd : (dedupFirst (orderedIds.filter (fun cid => cid ≠ ""))).Nodup :=
    dedupFirstAux_nodup _ []
  have hsub : ∀ y ∈ dedupFirst (orderedIds.filter (fun cid => cid ≠ "")),
      y ∈ orderedIds.filter (fun cid => cid ≠ "") :=
    fun y hy => (dedupFirst_mem _ y).mp hy
  have hfuel : (dedupFirst (orderedIds.filter (fun cid => cid ≠ ""))).length + 1
      ≤ (orderedIds.filter (fun cid => cid ≠ "")).length + 1 :=
    Nat.succ_le_succ (dedupFirstAux_length_le _ [])
  rw [topoLoop_count parentById (orderedIds.filter (fun cid => cid ≠ ""))
    ((orderedIds.filter (fun cid => cid ≠ "")).length + 1)
    (dedupFirst (orderedIds.filter (fun cid => cid ≠ ""))) [] hnd hsub hfuel x]
  rw [dedupFirst_count]
  have hmemiff : x ∈ orderedIds.filter (fun cid => cid ≠ "") ↔ (x ≠ "" ∧ x ∈ orderedIds) := by
    rw [List.mem_filter]
    simp [and_comm]
  by_cases hx : x ∈ orderedIds.filter (fun cid => cid ≠ "")
  · rw [if_pos hx, if_pos (hmemiff.mp hx)]
    simp
  · rw [if_neg hx, if_neg (fun hc => hx (hmemiff.mpr hc))]
    simp


/-! ## Order lemmas for `topological_comment_order` (claim C7) -/

/-- Appending one id preserves `ParentBefore` when the new id's parent is
already emitted. -/
theorem ParentBefore_snoc {pb : List (String × String)} {pending emitted : List String}
    {x : String} (h : ParentBefore pb pending emitted)
    (hx : topoParentOf pb x ∈ pending → topoParentOf pb x ∈ emitted) :
    ParentBefore pb pending (emitted ++ [x]) := by
  intro l1 y l2 heq hp
  rcases List.eq_nil_or_concat l2 with rfl | ⟨l2a, z, rfl⟩
  · obtain ⟨rfl, hxy⟩ := List.append_inj' heq rfl
    obtain rfl : x = y := by simpa using hxy
    exact hx hp
  · have heq2 : emitted ++ [x] = (l1 ++ y :: l2a) ++ [z] := by
      simpa [List.append_assoc] using heq
    obtain ⟨h3, _⟩ := List.append_inj' heq2 rfl
    exact h l1 y l2a h3 hp

/-- One scanning pass preserves the emitted/pending membership partition and
the `ParentBefore` invariant. -/
theorem topoPass_order (pb : List (String × String)) (pending : List String)
    (hpe : ¬ "" ∈ pending) :
    ∀ (l pset emitted : List String), pset.Nodup →
      (∀ y, y ∈ pending ↔ (y ∈ emitted ∨ y ∈ pset)) →
      ParentBefore pb pending emitted →
      ((∀ y, y ∈ pending ↔ (y ∈ (topoPass pb l pset emitted).2.1
          ∨ y ∈ (topoPass pb l pset emitted).1))
        ∧ ParentBefore pb pending (topoPass pb l pset emitted).2.1) := by
  intro l
  induction l with
  | nil =>
      intro pset emitted hnd hiff hpb
      simpa [topoPass] using ⟨hiff, hpb⟩
  | cons cid rest ih =>
      intro pset emitted hnd hiff hpb
      by_cases hc : cid ∈ pset
      · have hcb : pset.contains cid = true := by simpa using hc
        by_cases hw : topoParentOf pb cid ≠ "" ∧ pset.contains (topoParentOf pb cid) = true
        · rw [topoPass_cons_wait hcb hw.1 hw.2]
          exact ih pset emitted hnd hiff hpb
        · have h2 : topoParentOf pb cid = ""
              ∨ pset.contains (topoParentOf pb cid) = false := by
            by_cases hne : topoParentOf pb cid = ""
            · exact Or.inl hne
            · refine Or.inr ?_
              by_cases hcc : pset.contains (topoParentOf pb cid) = true
              · exact absurd ⟨hne, hcc⟩ hw
              · simpa using hcc
          rw [topoPass_cons_emit hcb h2]
          have hiff2 : ∀ y, y ∈ pending ↔ (y ∈ emitted ++ [cid] ∨ y ∈ pset.erase cid) := by
            intro y
            rw [hiff y]
            constructor
            · rintro (hy | hy)
              · exact Or.inl (List.mem_append_left _ hy)
              · by_cases hyc : y = cid
                · exact Or.inl (List.mem_append_right _ (by simp [hyc]))
                · exact Or.inr (hnd.mem_erase_iff.mpr ⟨hyc, hy⟩)
            · rintro (hy | hy)
              · rcases List.mem_append.mp hy with hy | hy
                · exact Or.inl hy
                · obtain rfl : y = cid := by simpa using hy
                  exact Or.inr hc
              · exact Or.inr (List.mem_of_mem_erase hy)
          have hpb2 : ParentBefore pb pending (emitted ++ [cid]) := by
            refine ParentBefore_snoc hpb (fun hp => ?_)
            rcases h2 with h2 | h2
            · exact absurd (h2 ▸ hp) hpe
            · have hnp : ¬ topoParentOf pb cid ∈ pset := by simpa using h2
              rcases (hiff _).mp hp with hy | hy
              · exact hy
              · exact absurd hy hnp
          exact ih (pset.erase cid) (emitted ++ [cid]) (hnd.erase cid) hiff2 hpb2
      · have hcb : pset.contains cid = false := by simpa using hc
        rw [topoPass_cons_notmem hcb]
        exact ih pset emitted hnd hiff hpb

/-- A pass over a scan list containing some pending id whose parent is empty
or not pending always progresses. -/
theorem topoPass_progress (pb : List (String × String)) :
    ∀ (l pset emitted : List String) (y : String), y ∈ pset → y ∈ l →
      (topoParentOf pb y = "" ∨ ¬ topoParentOf pb y ∈ pset) →
      (topoPass pb l pset emitted).2.2 = true := by
  intro l
  induction l with
  | nil => intro pset emitted y _ hl _; cases hl
  | cons c rest ih =>
      intro pset emitted y hy hl hcond
      by_cases hc : c ∈ pset
      · have hcb : pset.contains c = true := by simpa using hc
        by_cases hw : topoParentOf pb c ≠ "" ∧ pset.contains (topoParentOf pb c) = true
        · rw [topoPass_cons_wait hcb hw.1 hw.2]
          have hyne : y ≠ c := by
            rintro rfl
            rcases hcond with h | h
            · exact hw.1 h
            · exact h (by simpa using hw.2)
          have hyr : y ∈ rest := by
            rcases List.mem_cons.mp hl with h | h
            · exact absurd h hyne
            · exact h
          exact ih pset emitted y hy hyr hcond
        · have h2 : topoParentOf pb c = ""
              ∨ pset.contains (topoParentOf pb c) = false := by
            by_cases hne : topoParentOf pb c = ""
            · exact Or.inl hne
            · refine Or.inr ?_
              by_cases hcc : pset.contains (topoParentOf pb c) = true
              · exact absurd ⟨hne, hcc⟩ hw
              · simpa using hcc
          rw [topoPass_cons_emit hcb h2]
      · have hcb : pset.contains c = false := by simpa using hc
        rw [topoPass_cons_notmem hcb]
        have hyne : y ≠ c := fun hh => hc (hh ▸ hy)
        have hyr : y ∈ rest := by
          rcases List.mem_cons.mp hl with h | h
          · exact absurd h hyne
          · exact h
        exact ih pset emitted y hy hyr hcond

/-- The emission loop preserves `ParentBefore` when the parent relation on
the pending ids admits no cycle (every nonempty pending subset has an id
whose parent leaves it). -/
theorem topoLoop_order (pb : List (String × String)) (pending : List String)
    (hpe : ¬ "" ∈ pending)
    (hacyc : ∀ s : List String, s ≠ [] → (∀ y ∈ s, y ∈ pending) →
      ∃ y ∈ s, topoParentOf pb y = "" ∨ ¬ topoParentOf pb y ∈ s) :
    ∀ (fuel : Nat) (pset emitted : List String), pset.Nodup →
      (∀ y, y ∈ pending ↔ (y ∈ emitted ∨ y ∈ pset)) →
      pset.length + 1 ≤ fuel →
      ParentBefore pb pending emitted →
      ParentBefore pb pending (topoLoop pb pending fuel pset emitted) := by
  intro fuel
  induction fuel with
  | zero => intro pset emitted _ _ hf _; exact absurd hf (by omega)
  | succ fuel ih =>
      intro pset emitted hnd hiff hf hpb
      by_cases hempty : pset.isEmpty
      · rw [show topoLoop pb pending (fuel + 1) pset emitted = emitted from by
          simp [topoLoop, hempty]]
        exact hpb
      · have hne : pset.isEmpty = false := by simpa using hempty
        have hprog : (topoPass pb pending pset emitted).2.2 = true := by
          have hpsne : pset ≠ [] := fun hh => by simp [hh] at hempty
          have hsub : ∀ y ∈ pset, y ∈ pending := fun y hy => (hiff y).mpr (Or.inr hy)
          obtain ⟨y, hy, hcond⟩ := hacyc pset hpsne hsub
          exact topoPass_progress pb pending pset emitted y hy (hsub y hy) hcond
        obtain ⟨pnd, _, _, _, pprog, _⟩ := topoPass_spec pb pending pset emitted hnd
        obtain ⟨piff, ppb⟩ := topoPass_order pb pending hpe pending pset emitted hnd hiff hpb
        rw [show topoLoop pb pending (fuel + 1) pset emitted
            = topoLoop pb pending fuel (topoPass pb pending pset emitted).1
                (topoPass pb pending pset emitted).2.1 from by
          simp [topoLoop, hne, hprog]]
        have hlt := pprog hprog
        exact ih (topoPass pb pending pset emitted).1
          (topoPass pb pending pset emitted).2.1 pnd piff (by omega) ppb


/-- With an empty parent map the parent of every id is empty. -/
theorem topoParentOf_nil (c : String) : topoParentOf [] c = "" := rfl

/-- A pass under the empty parent map emits, in scan order, exactly the
pending first occurrences, and removes all scanned ids from the pending
set. -/
theorem topoPass_nil_pm :
    ∀ (l pset emitted : List String), pset.Nodup →
      topoPass [] l pset emitted
        = (pset.filter (fun x => !(l.contains x)), emitted ++ sweep l pset,
           !(sweep l pset).isEmpty) := by
  intro l
  induction l with
  | nil =>
      intro pset emitted hnd
      simp [topoPass, sweep, List.filter_eq_self.mpr]
  | cons c rest ih =>
      intro pset emitted hnd
      by_cases hc : c ∈ pset
      · have hcb : pset.contains c = true := by simpa using hc
        rw [topoPass_cons_emit hcb (Or.inl (topoParentOf_nil c))]
        rw [ih (pset.erase c) (emitted ++ [c]) (hnd.erase c)]
        have hfilter : (pset.erase c).filter (fun x => !(rest.contains x))
            = pset.filter (fun x => !((c :: rest).contains x)) := by
          rw [hnd.erase_eq_filter]
          rw [List.filter_filter]
          apply List.filter_congr
          intro x _
          by_cases hxc : x = c
          · simp [hxc]
          · simp [hxc, Ne.symm hxc]
        have hsweep : sweep (c :: rest) pset = c :: sweep rest (pset.erase c) := by
          simp [sweep, hc]
        rw [hfilter, hsweep]
        simp [List.append_assoc]
      · have hcb : pset.contains c = false := by simpa using hc
        rw [topoPass_cons_notmem hcb]
        rw [ih pset emitted hnd]
        have hsweep : sweep (c :: rest) pset = sweep rest pset := by
          simp [sweep, hc]
        have hfilter : pset.filter (fun x => !(rest.contains x))
            = pset.filter (fun x => !((c :: rest).contains x)) := by
          apply List.filter_congr
          intro x hx
          have hxc : x ≠ c := fun hh => hc (hh ▸ hx)
          simp [Ne.symm hxc]
          exact fun _ => hxc
        rw [hsweep, hfilter]

/-- The loop with an empty pending set returns the emitted list unchanged. -/
theorem topoLoop_empty_pset (pb : List (String × String)) (pending : List String) :
    ∀ (fuel : Nat) (emitted : List String),
      topoLoop pb pending fuel [] emitted = emitted := by
  intro fuel emitted
  cases fuel <;> simp [topoLoop]

/-- The fallback with an empty pending set emits nothing. -/
theorem topoFallback_empty_pset :
    ∀ (l emitted : List String), topoFallback l [] emitted = ([], emitted) := by
  intro l
  induction l with
  | nil => intro emitted; simp [topoFallback]
  | cons c rest ih => intro emitted; simp [topoFallback, ih]

/-- Sweeping a list against its own first-occurrence dedup returns the
dedup. -/
theorem sweep_dedupFirstAux :
    ∀ (l seen : List String), sweep l (dedupFirstAux seen l) = dedupFirstAux seen l := by
  intro l
  induction l with
  | nil => intro seen; simp [sweep, dedupFirstAux]
  | cons c rest ih =>
      intro seen
      by_cases hc : c ∈ seen
      · rw [show dedupFirstAux seen (c :: rest) = dedupFirstAux seen rest from by
          simp [dedupFirstAux, if_pos hc]]
        have hnc : ¬ c ∈ dedupFirstAux seen rest :=
          fun hm => ((dedupFirstAux_mem c rest seen).mp hm).2 hc
        rw [show sweep (c :: rest) (dedupFirstAux seen rest)
            = sweep rest (dedupFirstAux seen rest) from by simp [sweep, hnc]]
        exact ih seen
      · rw [show dedupFirstAux seen (c :: rest) = c :: dedupFirstAux (c :: seen) rest from by
          simp [dedupFirstAux, if_neg hc]]
        rw [show sweep (c :: rest) (c :: dedupFirstAux (c :: seen) rest)
            = c :: sweep rest ((c :: dedupFirstAux (c :: seen) rest).erase c) from by
          simp [sweep]]
        rw [List.erase_cons_head]
        rw [ih (c :: seen)]


/-- A bounded parent-chain escape (every pending id's parent chain leaves the
pending set within the obvious bound) yields the subset form of acyclicity
used by the loop lemmas. -/
theorem escape_subset (pb : List (String × String)) (pending : List String)
    (hiter : ∀ x ∈ pending, ∃ n ∈ List.range (pending.length + 1),
      ¬ (topoParentOf pb)^[n] x ∈ pending) :
    ∀ s : List String, s ≠ [] → (∀ y ∈ s, y ∈ pending) →
      ∃ y ∈ s, topoParentOf pb y = "" ∨ ¬ topoParentOf pb y ∈ s := by
  intro s hs hsub
  obtain ⟨x, hx⟩ : ∃ x, x ∈ s := by
    cases s with
    | nil => exact absurd rfl hs
    | cons a t => exact ⟨a, List.mem_cons_self a t⟩
  obtain ⟨n, _, hesc⟩ := hiter x (hsub x hx)
  have hex : ∃ k, ¬ (topoParentOf pb)^[k] x ∈ s :=
    ⟨n, fun hmem => hesc (hsub _ hmem)⟩
  have hk0 : Nat.find hex ≠ 0 := by
    intro h0
    have := Nat.find_spec hex
    rw [h0] at this
    exact this (by simpa using hx)
  refine ⟨(topoParentOf pb)^[Nat.find hex - 1] x, ?_, Or.inr ?_⟩
  · have := Nat.find_min hex (show Nat.find hex - 1 < Nat.find hex by omega)
    simpa using this
  · have hstep : topoParentOf pb ((topoParentOf pb)^[Nat.find hex - 1] x)
        = (topoParentOf pb)^[Nat.find hex] x := by
      conv_rhs => rw [show Nat.find hex = (Nat.find hex - 1) + 1 from by omega]
      rw [Function.iterate_succ_apply']
    rw [hstep]
    exact Nat.find_spec hex

/-- Under the empty parent map the emission order is exactly the first
occurrence of each nonempty input id. -/
theorem topo_nil_pm (ids : List String) :
    topological_comment_order ids [] = dedupFirst (ids.filter (fun cid => cid ≠ "")) := by
  show topoLoop [] (ids.filter (fun cid => cid ≠ ""))
      ((ids.filter (fun cid => cid ≠ "")).length + 1)
      (dedupFirst (ids.filter (fun cid => cid ≠ ""))) []
    = dedupFirst (ids.filter (fun cid => cid ≠ ""))
  by_cases hd : (dedupFirst (ids.filter (fun cid => cid ≠ ""))).isEmpty
  · rw [List.isEmpty_iff.mp hd, topoLoop_empty_pset]
  · have hne : (dedupFirst (ids.filter (fun cid => cid ≠ ""))).isEmpty = false := by
      simpa using hd
    have hnd := dedupFirstAux_nodup (ids.filter (fun cid => cid ≠ "")) ([] : List String)
    have hpass := topoPass_nil_pm (ids.filter (fun cid => cid ≠ ""))
      (dedupFirst (ids.filter (fun cid => cid ≠ ""))) [] hnd
    have hfilnil : (dedupFirst (ids.filter (fun cid => cid ≠ ""))).filter
        (fun x => !((ids.filter (fun cid => cid ≠ "")).contains x)) = [] := by
      rw [List.filter_eq_nil_iff]
      intro a ha
      have ham : a ∈ ids.filter (fun cid => cid ≠ "") :=
        (dedupFirst_mem (ids.filter (fun cid => cid ≠ "")) a).mp ha
      simpa using ham
    have hsw := sweep_dedupFirstAux (ids.filter (fun cid => cid ≠ "")) []
    conv_lhs => rw [topoLoop]
    rw [hne]
    rw [if_neg (by simp)]
    dsimp only
    rw [hpass]
    dsimp only
    rw [hfilnil, List.nil_append]
    by_cases hflag : (sweep (ids.filter (fun cid => cid ≠ ""))
        (dedupFirst (ids.filter (fun cid => cid ≠ "")))).isEmpty = true
    · rw [hflag]
      rw [if_neg (by simp)]
      rw [topoFallback_empty_pset]
      exact hsw
    · have hft : (sweep (ids.filter (fun cid => cid ≠ ""))
          (dedupFirst (ids.filter (fun cid => cid ≠ "")))).isEmpty = false := by
        simpa using hflag
      rw [hft]
      rw [if_pos (by simp)]
      rw [topoLoop_empty_pset]
      exact hsw

/-- C7: for every acyclic parent map `topological_comment_order` emits every
comment after its parent (the acyclicity hypothesis says each pending id's
parent chain escapes the pending set within the trivial bound); the chain
`C.parent = B`, `B.parent = A` is emitted `A, B, C` regardless of the input
order of the three ids; and with no parent constraints the input order of
first occurrences is preserved verbatim (stability of ties). -/
theorem C7_topological_emission_order (orderedIds : List String)
    (parentById : List (String × String)) :
    ((∀ x ∈ orderedIds.filter (fun cid => cid ≠ ""),
        ∃ n ∈ List.range ((orderedIds.filter (fun cid => cid ≠ "")).length + 1),
          ¬ (topoParentOf parentById)^[n] x ∈ orderedIds.filter (fun cid => cid ≠ "")) →
      ∀ (l1 : List String) (x : String) (l2 : List String),
        topological_comment_order orderedIds parentById = l1 ++ x :: l2 →
        topoParentOf parentById x ∈ orderedIds.filter (fun cid => cid ≠ "") →
        topoParentOf parentById x ∈ l1)
    ∧ (∀ l ∈ [["A","B","C"], ["A","C","B"], ["B","A","C"],
          ["B","C","A"], ["C","A","B"], ["C","B","A"]],
        topological_comment_order l [("C","B"), ("B","A")] = ["A", "B", "C"])
    ∧ topological_comment_order orderedIds []
        = dedupFirst (orderedIds.filter (fun cid => cid ≠ "")) := by
  refine ⟨?_, by decide, topo_nil_pm orderedIds⟩
  intro hiter l1 x l2 heq hp
  have hpe : ¬ "" ∈ orderedIds.filter (fun cid => cid ≠ "") := by
    intro h
    have := (List.mem_filter.mp h).2
    simp at this
  have hacyc := escape_subset parentById (orderedIds.filter (fun cid => cid ≠ "")) hiter
  have hpbres : ParentBefore parentById (orderedIds.filter (fun cid => cid ≠ ""))
      (topological_comment_order orderedIds parentById) := by
    unfold topological_comment_order
    refine topoLoop_order parentById _ hpe hacyc _ _ _ (dedupFirstAux_nodup _ [])
      (fun y => ?_) (Nat.succ_le_succ (dedupFirstAux_length_le _ [])) ?_
    · simp [dedupFirst_mem]
    · intro l1a y l2a heqa _
      exact absurd heqa (by simp)
  exact hpbres l1 x l2 heq hp

/-- Witness for C7 at the two-id thread `c.parent = r`: in the emitted order
`["r", "c"]` the reply's parent occurs in the prefix before it. -/
theorem C7_topological_emission_order_witness :
    topoParentOf [("c", "r")] "c" ∈ (["r"] : List String) :=
  (C7_topological_emission_order ["r", "c"] [("c", "r")]).1 (by decide)
    ["r"] "c" [] (by decide) (by decide)


/-! ## Lemmas for thread-relationship validation (claim C4) -/

/-- Lookup after a dict assignment. -/
theorem dictGet_dictSet {α : Type} (m : List (String × α)) (k k2 : String) (v : α) :
    dictGet (dictSet m k v) k2 = if k2 = k then some v else dictGet m k2 := by
  induction m with
  | nil =>
      by_cases h : k2 = k
      · subst h; simp [dictSet, dictGet]
      · have hk : (k = k2) = False := eq_false (fun hh => h hh.symm)
        simp [dictSet, dictGet, hk, h]
  | cons kv rest ih =>
      obtain ⟨k0, v0⟩ := kv
      by_cases h0 : k0 = k
      · subst h0
        rw [show dictSet ((k0, v0) :: rest) k0 v = (k0, v) :: rest from by simp [dictSet]]
        by_cases h2 : k2 = k0
        · subst h2; simp [dictGet]
        · have hk : (k0 = k2) = False := eq_false (fun hh => h2 hh.symm)
          simp [dictGet, hk, h2]
      · rw [show dictSet ((k0, v0) :: rest) k v = (k0, v0) :: dictSet rest k v from by
          simp [dictSet, h0]]
        by_cases h2 : k2 = k0
        · subst h2
          simp [dictGet, h0]
        · have hk : (k0 = k2) = False := eq_false (fun hh => h2 hh.symm)
          rw [show dictGet ((k0, v0) :: dictSet rest k v) k2 = dictGet (dictSet rest k v) k2 from by
            simp [dictGet, hk]]
          rw [show dictGet ((k0, v0) :: rest) k2 = dictGet rest k2 from by
            simp [dictGet, hk]]
          exact ih

/-- The issue list of the parent-link loop only grows. -/
theorem collectParentLinks_mono (S : List String) (pb : List (String × String)) :
    ∀ (l issues : List String) (valid : List (String × String)),
      ∃ ext, (collectParentLinks S pb l issues valid).1 = issues ++ ext := by
  intro l
  induction l with
  | nil => intro issues valid; exact ⟨[], by simp [collectParentLinks]⟩
  | cons child rest ih =>
      intro issues valid
      simp only [collectParentLinks]
      by_cases h1 : pyStrip (dictGetD pb child) = ""
      · rw [if_pos h1]; exact ih issues valid
      · rw [if_neg h1]
        by_cases h2 : pyStrip (dictGetD pb child) = child
        · rw [if_pos h2]
          obtain ⟨ext, hext⟩ := ih (issues ++ ["comment " ++ child ++ " cannot be its own parent"]) valid
          exact ⟨("comment " ++ child ++ " cannot be its own parent") :: ext, by
            simpa using hext⟩
        · rw [if_neg h2]
          by_cases h3 : S.contains (pyStrip (dictGetD pb child)) = true
          · rw [if_neg (by rw [h3]; simp)]
            exact ih issues (dictSet valid child (pyStrip (dictGetD pb child)))
          · have h3f : S.contains (pyStrip (dictGetD pb child)) = false := by simpa using h3
            rw [if_pos (by rw [h3f]; rfl)]
            obtain ⟨ext, hext⟩ := ih (issues ++ ["comment " ++ child
              ++ " references unknown parent " ++ pyStrip (dictGetD pb child)]) valid
            exact ⟨("comment " ++ child ++ " references unknown parent "
              ++ pyStrip (dictGetD pb child)) :: ext, by simpa using hext⟩

/-- Accepted links always point to a distinct, known id. -/
theorem collectParentLinks_valid (S : List String) (pb : List (String × String)) :
    ∀ (l issues : List String) (valid : List (String × String)),
      (∀ c p, dictGet valid c = some p → p ∈ S ∧ p ≠ c) →
      ∀ c p, dictGet (collectParentLinks S pb l issues valid).2 c = some p →
        p ∈ S ∧ p ≠ c := by
  intro l
  induction l with
  | nil => intro issues valid hv; simpa [collectParentLinks] using hv
  | cons child rest ih =>
      intro issues valid hv
      simp only [collectParentLinks]
      by_cases h1 : pyStrip (dictGetD pb child) = ""
      · rw [if_pos h1]; exact ih _ _ hv
      · rw [if_neg h1]
        by_cases h2 : pyStrip (dictGetD pb child) = child
        · rw [if_pos h2]; exact ih _ _ hv
        · rw [if_neg h2]
          by_cases h3 : S.contains (pyStrip (dictGetD pb child)) = true
          · rw [if_neg (by rw [h3]; simp)]
            refine ih _ _ (fun c p hcp => ?_)
            rw [dictGet_dictSet] at hcp
            by_cases hc : c = child
            · rw [if_pos hc] at hcp
              obtain rfl : pyStrip (dictGetD pb child) = p := by simpa using hcp
              exact ⟨by simpa [List.elem_iff] using h3, hc ▸ h2⟩
            · rw [if_neg hc] at hcp
              exact hv c p hcp
          · have h3f : S.contains (pyStrip (dictGetD pb child)) = false := by simpa using h3
            rw [if_pos (by rw [h3f]; rfl)]
            exact ih _ _ hv

/-- A child with a nonempty parent that is itself or unknown always leaves an
issue behind. -/
theorem collectParentLinks_hit (S : List String) (pb : List (String × String)) :
    ∀ (l issues : List String) (valid : List (String × String)) (c : String),
      c ∈ l → pyStrip (dictGetD pb c) ≠ "" →
      (pyStrip (dictGetD pb c) = c ∨ ¬ pyStrip (dictGetD pb c) ∈ S) →
      (collectParentLinks S pb l issues valid).1 ≠ [] := by
  intro l
  induction l with
  | nil => intro issues valid c hc; cases hc
  | cons child rest ih =>
      intro issues valid c hc hne hbad
      rcases List.mem_cons.mp hc with rfl | hcr
      · simp only [collectParentLinks]
        rw [if_neg hne]
        by_cases hself : pyStrip (dictGetD pb c) = c
        · rw [if_pos hself]
          obtain ⟨ext, hext⟩ := collectParentLinks_mono S pb rest
            (issues ++ ["comment " ++ c ++ " cannot be its own parent"]) valid
          rw [hext]
          simp
        · have hunk : ¬ pyStrip (dictGetD pb c) ∈ S := by
            rcases hbad with h | h
            · exact absurd h hself
            · exact h
          have h3f : S.contains (pyStrip (dictGetD pb c)) = false := by
            simpa [List.elem_iff] using hunk
          rw [if_neg hself, if_pos (by rw [h3f]; rfl)]
          obtain ⟨ext, hext⟩ := collectParentLinks_mono S pb rest
            (issues ++ ["comment " ++ c ++ " references unknown parent "
              ++ pyStrip (dictGetD pb c)]) valid
          rw [hext]
          simp
      · simp only [collectParentLinks]
        by_cases h1 : pyStrip (dictGetD pb child) = ""
        · rw [if_pos h1]; exact ih _ _ c hcr hne hbad
        · rw [if_neg h1]
          by_cases h2 : pyStrip (dictGetD pb child) = child
          · rw [if_pos h2]; exact ih _ _ c hcr hne hbad
          · rw [if_neg h2]
            by_cases h3 : S.contains (pyStrip (dictGetD pb child)) = true
            · rw [if_neg (by rw [h3]; simp)]
              exact ih _ _ c hcr hne hbad
            · have h3f : S.contains (pyStrip (dictGetD pb child)) = false := by simpa using h3
              rw [if_pos (by rw [h3f]; rfl)]
              exact ih _ _ c hcr hne hbad



/-- The parent chain of the accepted parent map: `pchain m n x` follows the
`valid_parent_by_id` link `n` times, `none` once an id has no accepted
parent. -/
def pchain (m : List (String × String)) : Nat → String → Option String
  | 0, x => some x
  | n + 1, x =>
      match dictGet m x with
      | none => none
      | some p => pchain m n p

/-- An id whose accepted-parent chain terminates. -/
def ThreadSafe (m : List (String × String)) (x : String) : Prop :=
  ∃ n, pchain m n x = none

/-- Chain splitting. -/
theorem pchain_add (m : List (String × String)) :
    ∀ (a b : Nat) (x : String),
      pchain m (a + b) x
        = match pchain m a x with
          | none => none
          | some y => pchain m b y := by
  intro a
  induction a with
  | zero => intro b x; simp [pchain]
  | succ a iha =>
      intro b x
      rw [show a + 1 + b = (a + b) + 1 from by omega]
      simp only [pchain]
      cases hd : dictGet m x with
      | none => rfl
      | some p =>
          dsimp only
          exact iha b p

/-- One chain step through an accepted link. -/
theorem pchain_succ (m : List (String × String)) (x p : String) (n : Nat)
    (h : dictGet m x = some p) : pchain m (n + 1) x = pchain m n p := by
  rw [show n + 1 = 1 + n from by omega, pchain_add]
  simp [pchain, h]

/-- An id on a directed cycle of the accepted parent map is not safe: its
chain never terminates. -/
theorem cycle_not_safe (m : List (String × String)) (c : String) (k : Nat)
    (hk : 0 < k) (hc : pchain m k c = some c) : ¬ ThreadSafe m c := by
  rintro ⟨n, hn⟩
  have hmul : ∀ q, pchain m (q * k) c = some c := by
    intro q
    induction q with
    | zero => simp [pchain]
    | succ q ihq =>
        rw [show (q + 1) * k = q * k + k from by ring, pchain_add, ihq]
        dsimp only
        exact hc
  have habs : ∀ r, pchain m (n + r) c = none := by
    intro r
    rw [pchain_add, hn]
  have hge : n + 1 ≤ (n + 1) * k := Nat.le_mul_of_pos_right _ hk
  have h1 := hmul (n + 1)
  have h2 := habs ((n + 1) * k - n)
  rw [show n + ((n + 1) * k - n) = (n + 1) * k from by omega] at h2
  rw [h1] at h2
  exact Option.some_ne_none _ h2

/-- State lookup after a visit-state update. -/
theorem getD0_dictSet (vs : List (String × Nat)) (c : String) (k : Nat)
    (x : String) :
    (dictGet (dictSet vs c k) x).getD 0
      = if x = c then k else (dictGet vs x).getD 0 := by
  rw [dictGet_dictSet]
  split
  · rfl
  · rfl

/-- Flipping one listed element out of a filter shrinks its length by
exactly one. -/
theorem filter_flip_count (p q : String → Bool) :
    ∀ (U : List String), U.Nodup → ∀ cid, cid ∈ U → p cid = true →
      q cid = false → (∀ x, x ≠ cid → q x = p x) →
      (U.filter q).length + 1 = (U.filter p).length := by
  intro U
  induction U with
  | nil => intro _ cid hc; cases hc
  | cons u rest ih =>
      intro hnd cid hc hp hq hagree
      have hnd' := hnd
      rw [List.nodup_cons] at hnd'
      rcases List.mem_cons.mp hc with rfl | hcr
      · rw [List.filter_cons_of_pos hp, List.filter_cons_of_neg (by rw [hq]; simp)]
        have hrest : rest.filter q = rest.filter p := by
          refine List.filter_congr (fun x hx => ?_)
          exact hagree x (fun hh => hnd'.1 (hh ▸ hx))
        rw [hrest]
        simp
      · have hu : u ≠ cid := fun hh => hnd'.1 (hh ▸ hcr)
        have hqu : q u = p u := hagree u hu
        by_cases hpu : p u = true
        · rw [List.filter_cons_of_pos hpu, List.filter_cons_of_pos (by rw [hqu]; exact hpu)]
          have := ih hnd'.2 cid hcr hp hq hagree
          simp only [List.length_cons]
          omega
        · have hpu' : p u = false := by simpa using hpu
          rw [List.filter_cons_of_neg (by rw [hqu, hpu']; simp),
            List.filter_cons_of_neg (by rw [hpu']; simp)]
          exact ih hnd'.2 cid hcr hp hq hagree


/-- Accepted parent links are nonempty strings (the scan skips empty
candidates). -/
theorem collectParentLinks_valid_ne (S : List String) (pb : List (String × String)) :
    ∀ (l issues : List String) (valid : List (String × String)),
      (∀ c p, dictGet valid c = some p → p ≠ "") →
      ∀ c p, dictGet (collectParentLinks S pb l issues valid).2 c = some p →
        p ≠ "" := by
  intro l
  induction l with
  | nil => intro issues valid hv; simpa [collectParentLinks] using hv
  | cons child rest ih =>
      intro issues valid hv
      simp only [collectParentLinks]
      by_cases h1 : pyStrip (dictGetD pb child) = ""
      · rw [if_pos h1]; exact ih _ _ hv
      · rw [if_neg h1]
        by_cases h2 : pyStrip (dictGetD pb child) = child
        · rw [if_pos h2]; exact ih _ _ hv
        · rw [if_neg h2]
          by_cases h3 : S.contains (pyStrip (dictGetD pb child)) = true
          · rw [if_neg (by rw [h3]; simp)]
            refine ih _ _ (fun c p hcp => ?_)
            rw [dictGet_dictSet] at hcp
            by_cases hc : c = child
            · rw [if_pos hc] at hcp
              obtain rfl : pyStrip (dictGetD pb child) = p := by simpa using hcp
              exact h1
            · rw [if_neg hc] at hcp
              exact hv c p hcp
          · have h3f : S.contains (pyStrip (dictGetD pb child)) = false := by simpa using h3
            rw [if_pos (by rw [h3f]; rfl)]
            exact ih _ _ hv

/-- Ids not in the scanned child list keep their accepted-map binding. -/
theorem collectParentLinks_preserve (S : List String) (pb : List (String × String)) :
    ∀ (l issues : List String) (valid : List (String × String)) (c : String),
      c ∉ l →
      dictGet (collectParentLinks S pb l issues valid).2 c = dictGet valid c := by
  intro l
  induction l with
  | nil => intro issues valid c _; rfl
  | cons child rest ih =>
      intro issues valid c hc
      have hc1 : c ≠ child := fun hh => hc (hh ▸ List.mem_cons_self child rest)
      have hc2 : c ∉ rest := fun hh => hc (List.mem_cons_of_mem child hh)
      simp only [collectParentLinks]
      by_cases h1 : pyStrip (dictGetD pb child) = ""
      · rw [if_pos h1]; exact ih _ _ c hc2
      · rw [if_neg h1]
        by_cases h2 : pyStrip (dictGetD pb child) = child
        · rw [if_pos h2]; exact ih _ _ c hc2
        · rw [if_neg h2]
          by_cases h3 : S.contains (pyStrip (dictGetD pb child)) = true
          · rw [if_neg (by rw [h3]; simp)]
            rw [ih _ _ c hc2, dictGet_dictSet, if_neg hc1]
          · have h3f : S.contains (pyStrip (dictGetD pb child)) = false := by simpa using h3
            rw [if_pos (by rw [h3f]; rfl)]
            exact ih _ _ c hc2

/-- When the scan produces no issue, every scanned child with a nonempty
candidate parent ends up bound to that parent in the accepted map. -/
theorem collectParentLinks_complete (S : List String) (pb : List (String × String)) :
    ∀ (l issues : List String) (valid : List (String × String)) (c : String),
      c ∈ l →
      pyStrip (dictGetD pb c) ≠ "" →
      (collectParentLinks S pb l issues valid).1 = issues →
      dictGet (collectParentLinks S pb l issues valid).2 c
        = some (pyStrip (dictGetD pb c)) := by
  intro l
  induction l with
  | nil => intro issues valid c hc; cases hc
  | cons child rest ih =>
      intro issues valid c hc hne hno
      simp only [collectParentLinks] at hno ⊢
      rcases List.mem_cons.mp hc with rfl | hcr
      · rw [if_neg hne] at hno ⊢
        by_cases hself : pyStrip (dictGetD pb c) = c
        · rw [if_pos hself] at hno
          obtain ⟨ext, hext⟩ := collectParentLinks_mono S pb rest
            (issues ++ ["comment " ++ c ++ " cannot be its own parent"]) valid
          rw [hext] at hno
          have := congrArg List.length hno
          simp at this
        · rw [if_neg hself] at hno ⊢
          by_cases h3 : S.contains (pyStrip (dictGetD pb c)) = true
          · rw [if_neg (by rw [h3]; simp)] at hno ⊢
            by_cases hcr2 : c ∈ rest
            · exact ih _ _ c hcr2 hne hno
            · rw [collectParentLinks_preserve S pb rest _ _ c hcr2,
                dictGet_dictSet, if_pos rfl]
          · have h3f : S.contains (pyStrip (dictGetD pb c)) = false := by simpa using h3
            rw [if_pos (by rw [h3f]; rfl)] at hno
            obtain ⟨ext, hext⟩ := collectParentLinks_mono S pb rest
              (issues ++ ["comment " ++ c ++ " references unknown parent "
                ++ pyStrip (dictGetD pb c)]) valid
            rw [hext] at hno
            have := congrArg List.length hno
            simp at this
      · by_cases h1 : pyStrip (dictGetD pb child) = ""
        · rw [if_pos h1] at hno ⊢; exact ih _ _ c hcr hne hno
        · rw [if_neg h1] at hno ⊢
          by_cases h2 : pyStrip (dictGetD pb child) = child
          · rw [if_pos h2] at hno
            obtain ⟨ext, hext⟩ := collectParentLinks_mono S pb rest
              (issues ++ ["comment " ++ child ++ " cannot be its own parent"]) valid
            rw [hext] at hno
            have := congrArg List.length hno
            simp at this
          · rw [if_neg h2] at hno ⊢
            by_cases h3 : S.contains (pyStrip (dictGetD pb child)) = true
            · rw [if_neg (by rw [h3]; simp)] at hno ⊢
              exact ih _ _ c hcr hne hno
            · have h3f : S.contains (pyStrip (dictGetD pb child)) = false := by
                simpa using h3
              rw [if_pos (by rw [h3f]; rfl)] at hno
              obtain ⟨ext, hext⟩ := collectParentLinks_mono S pb rest
                (issues ++ ["comment " ++ child ++ " references unknown parent "
                  ++ pyStrip (dictGetD pb child)]) valid
              rw [hext] at hno
              have := congrArg List.length hno
              simp at this

/-- The cycle walk only appends issues. -/
theorem detectCycle_issues_mono (m : List (String × String)) :
    ∀ (fuel : Nat) (cid : String) (vs : List (String × Nat))
      (stack issues : List String),
      ∃ ext, (detectCycle m fuel cid vs stack issues).2 = issues ++ ext := by
  intro fuel
  induction fuel with
  | zero => intro cid vs stack issues; exact ⟨[], by simp [detectCycle]⟩
  | succ fuel ih =>
      intro cid vs stack issues
      simp only [detectCycle]
      by_cases h1 : (dictGet vs cid).getD 0 = 1
      · rw [if_pos h1]
        exact ⟨_, rfl⟩
      · rw [if_neg h1]
        by_cases h2 : (dictGet vs cid).getD 0 = 2
        · rw [if_pos h2]
          exact ⟨[], by simp⟩
        · rw [if_neg h2]
          dsimp only
          by_cases hp : ((dictGet m cid).getD "") ≠ ""
          · rw [if_pos hp]
            exact ih _ _ _ _
          · rw [if_neg hp]
            exact ⟨[], by simp⟩

/-- The cycle-walk driver only appends issues. -/
theorem runCycleDetection_issues_mono (m : List (String × String)) (F : Nat) :
    ∀ (ids : List String) (vs : List (String × Nat)) (issues : List String),
      ∃ ext, (runCycleDetection m F ids vs issues).2 = issues ++ ext := by
  intro ids
  induction ids with
  | nil => intro vs issues; exact ⟨[], by simp [runCycleDetection]⟩
  | cons cid rest ih =>
      intro vs issues
      simp only [runCycleDetection]
      by_cases hc : ((dictGet m cid).isSome && ((dictGet vs cid).getD 0 == 0)) = true
      · rw [if_pos hc]
        obtain ⟨e1, he1⟩ := detectCycle_issues_mono m F cid vs [] issues
        obtain ⟨e2, he2⟩ := ih (detectCycle m F cid vs [] issues).1
          (detectCycle m F cid vs [] issues).2
        exact ⟨e1 ++ e2, by rw [he2, he1, List.append_assoc]⟩
      · rw [if_neg hc]
        exact ih vs issues


/-- Completeness core of the cycle walk: a call that reports no issue leaves
its start id in the done state, keeps every done id safe, and only moves
states forward (whites and greys shrink, blacks persist, states stay
well-formed). -/
theorem detectCycle_no_issue (m : List (String × String)) (U : List String)
    (hU : U.Nodup)
    (hmU : ∀ c p, dictGet m c = some p → p ∈ U)
    (hmne : ∀ c p, dictGet m c = some p → p ≠ "") :
    ∀ (fuel : Nat) (cid : String) (vs : List (String × Nat))
      (stack issues : List String),
      cid ∈ U →
      (U.filter (fun x => (dictGet vs x).getD 0 = 0)).length + 1 ≤ fuel →
      (∀ x : String, (dictGet vs x).getD 0 = 0 ∨ (dictGet vs x).getD 0 = 1
        ∨ (dictGet vs x).getD 0 = 2) →
      (∀ x : String, (dictGet vs x).getD 0 = 2 → ThreadSafe m x) →
      (detectCycle m fuel cid vs stack issues).2 = issues →
      ((dictGet (detectCycle m fuel cid vs stack issues).1 cid).getD 0 = 2
        ∧ (∀ x, (dictGet (detectCycle m fuel cid vs stack issues).1 x).getD 0 = 2 →
            ThreadSafe m x)
        ∧ (∀ x, (dictGet vs x).getD 0 = 2 →
            (dictGet (detectCycle m fuel cid vs stack issues).1 x).getD 0 = 2)
        ∧ (∀ x, (dictGet (detectCycle m fuel cid vs stack issues).1 x).getD 0 = 0 →
            (dictGet vs x).getD 0 = 0)
        ∧ (∀ x, (dictGet (detectCycle m fuel cid vs stack issues).1 x).getD 0 = 1 →
            (dictGet vs x).getD 0 = 1)
        ∧ (∀ x, (dictGet (detectCycle m fuel cid vs stack issues).1 x).getD 0 = 0
            ∨ (dictGet (detectCycle m fuel cid vs stack issues).1 x).getD 0 = 1
            ∨ (dictGet (detectCycle m fuel cid vs stack issues).1 x).getD 0 = 2)) := by
  intro fuel
  induction fuel with
  | zero =>
      intro cid vs stack issues hcid hfuel hwf hsafe hno
      exact absurd hfuel (by omega)
  | succ fuel ih =>
      intro cid vs stack issues hcid hfuel hwf hsafe hno
      by_cases h1 : (dictGet vs cid).getD 0 = 1
      · exfalso
        have h2 : (detectCycle m (fuel + 1) cid vs stack issues).2
            = issues ++ [String.intercalate " -> "
                (if stack.contains cid then stack.drop (stack.indexOf cid) ++ [cid]
                 else stack ++ [cid])] := by
          simp only [detectCycle]
          rw [if_pos h1]
        rw [h2] at hno
        have := congrArg List.length hno
        simp at this
      · by_cases h2 : (dictGet vs cid).getD 0 = 2
        · have heq : detectCycle m (fuel + 1) cid vs stack issues = (vs, issues) := by
            simp only [detectCycle]
            rw [if_neg h1, if_pos h2]
          rw [heq]
          exact ⟨h2, hsafe, fun x h => h, fun x h => h, fun x h => h, hwf⟩
        · have h0 : (dictGet vs cid).getD 0 = 0 := by
            rcases hwf cid with h | h | h
            · exact h
            · exact absurd h h1
            · exact absurd h h2
          by_cases hp : ((dictGet m cid).getD "") ≠ ""
          · -- recursive case through the accepted parent
            obtain ⟨p, hpeq⟩ : ∃ p, dictGet m cid = some p := by
              cases hd : dictGet m cid with
              | none => rw [hd] at hp; simp at hp
              | some p => exact ⟨p, rfl⟩
            have hpd : (dictGet m cid).getD "" = p := by rw [hpeq]; rfl
            have hpU : p ∈ U := hmU cid p hpeq
            have heq : detectCycle m (fuel + 1) cid vs stack issues
                = (dictSet (detectCycle m fuel p (dictSet vs cid 1)
                      (stack ++ [cid]) issues).1 cid 2,
                   (detectCycle m fuel p (dictSet vs cid 1)
                      (stack ++ [cid]) issues).2) := by
              simp only [detectCycle]
              rw [if_neg h1, if_neg h2]
              rw [hpd, if_pos (hmne cid p hpeq)]
            rw [heq] at hno ⊢
            have hno' : (detectCycle m fuel p (dictSet vs cid 1)
                (stack ++ [cid]) issues).2 = issues := hno
            have hfuel' : (U.filter
                (fun x => (dictGet (dictSet vs cid 1) x).getD 0 = 0)).length + 1 ≤ fuel := by
              have hflip := filter_flip_count
                (fun x => decide ((dictGet vs x).getD 0 = 0))
                (fun x => decide ((dictGet (dictSet vs cid 1) x).getD 0 = 0))
                U hU cid hcid (by simpa using h0)
                (by simp [getD0_dictSet])
                (fun x hx => by simp [getD0_dictSet, hx])
              have hle : (U.filter
                  (fun x => decide ((dictGet (dictSet vs cid 1) x).getD 0 = 0))).length + 1
                  = (U.filter (fun x => decide ((dictGet vs x).getD 0 = 0))).length := hflip
              omega
            have hwf1 : ∀ x : String, (dictGet (dictSet vs cid 1) x).getD 0 = 0
                ∨ (dictGet (dictSet vs cid 1) x).getD 0 = 1
                ∨ (dictGet (dictSet vs cid 1) x).getD 0 = 2 := by
              intro x
              rw [getD0_dictSet]
              by_cases hx : x = cid
              · rw [if_pos hx]; right; left; rfl
              · rw [if_neg hx]; exact hwf x
            have hsafe1 : ∀ x : String, (dictGet (dictSet vs cid 1) x).getD 0 = 2 →
                ThreadSafe m x := by
              intro x hx
              rw [getD0_dictSet] at hx
              by_cases hxc : x = cid
              · rw [if_pos hxc] at hx; exact absurd hx (by decide)
              · rw [if_neg hxc] at hx; exact hsafe x hx
            obtain ⟨ih1, ih2, ih3, ih4, ih5, ih6⟩ :=
              ih p (dictSet vs cid 1) (stack ++ [cid]) issues hpU hfuel' hwf1 hsafe1 hno'
            refine ⟨?_, ?_, ?_, ?_, ?_, ?_⟩
            · rw [getD0_dictSet, if_pos rfl]
            · intro x hx
              rw [getD0_dictSet] at hx
              by_cases hxc : x = cid
              · subst hxc
                exact ⟨_, by rw [pchain_succ m x p _ hpeq]; exact (ih2 p ih1).choose_spec⟩
              · rw [if_neg hxc] at hx
                exact ih2 x hx
            · intro x hx
              rw [getD0_dictSet]
              by_cases hxc : x = cid
              · rw [if_pos hxc]
              · rw [if_neg hxc]
                refine ih3 x ?_
                rw [getD0_dictSet, if_neg hxc]
                exact hx
            · intro x hx
              rw [getD0_dictSet] at hx
              by_cases hxc : x = cid
              · rw [if_pos hxc] at hx; exact absurd hx (by decide)
              · rw [if_neg hxc] at hx
                have := ih4 x hx
                rw [getD0_dictSet, if_neg hxc] at this
                exact this
            · intro x hx
              rw [getD0_dictSet] at hx
              by_cases hxc : x = cid
              · rw [if_pos hxc] at hx; exact absurd hx (by decide)
              · rw [if_neg hxc] at hx
                have := ih5 x hx
                rw [getD0_dictSet] at this
                rw [if_neg hxc] at this
                exact this
            · intro x
              rw [getD0_dictSet]
              by_cases hxc : x = cid
              · rw [if_pos hxc]; right; right; rfl
              · rw [if_neg hxc]; exact ih6 x
          · -- no accepted parent: the id is done immediately
            have hpeq : dictGet m cid = none := by
              cases hd : dictGet m cid with
              | none => rfl
              | some p =>
                  exfalso
                  have hne := hmne cid p hd
                  rw [hd] at hp
                  simp at hp
                  exact hne hp
            have heq : detectCycle m (fuel + 1) cid vs stack issues
                = (dictSet (dictSet vs cid 1) cid 2, issues) := by
              simp only [detectCycle]
              rw [if_neg h1, if_neg h2]
              rw [show (dictGet m cid).getD "" = "" from by rw [hpeq]; rfl]
              rw [if_neg (by simp)]
            rw [heq]
            have hsafecid : ThreadSafe m cid := ⟨1, by simp [pchain, hpeq]⟩
            refine ⟨?_, ?_, ?_, ?_, ?_, ?_⟩
            · rw [getD0_dictSet, if_pos rfl]
            · intro x hx
              rw [getD0_dictSet] at hx
              by_cases hxc : x = cid
              · subst hxc; exact hsafecid
              · rw [if_neg hxc, getD0_dictSet, if_neg hxc] at hx
                exact hsafe x hx
            · intro x hx
              rw [getD0_dictSet]
              by_cases hxc : x = cid
              · rw [if_pos hxc]
              · rw [if_neg hxc, getD0_dictSet, if_neg hxc]
                exact hx
            · intro x hx
              rw [getD0_dictSet] at hx
              by_cases hxc : x = cid
              · rw [if_pos hxc] at hx; exact absurd hx (by decide)
              · rw [if_neg hxc, getD0_dictSet, if_neg hxc] at hx
                exact hx
            · intro x hx
              rw [getD0_dictSet] at hx
              by_cases hxc : x = cid
              · rw [if_pos hxc] at hx; exact absurd hx (by decide)
              · rw [if_neg hxc, getD0_dictSet, if_neg hxc] at hx
                exact hx
            · intro x
              rw [getD0_dictSet]
              by_cases hxc : x = cid
              · rw [if_pos hxc]; right; right; rfl
              · rw [if_neg hxc, getD0_dictSet, if_neg hxc]
                exact hwf x


/-- Completeness of the cycle-walk driver: when it reports no issue, every
listed id carrying an accepted parent link ends done, and every done id has
a terminating parent chain. -/
theorem runCycleDetection_no_issue (m : List (String × String)) (U : List String)
    (hU : U.Nodup)
    (hmU : ∀ c p, dictGet m c = some p → p ∈ U)
    (hmne : ∀ c p, dictGet m c = some p → p ≠ "") (F : Nat) :
    ∀ (ids : List String) (vs : List (String × Nat)) (issues : List String),
      (∀ x, x ∈ ids → x ∈ U) →
      (U.filter (fun x => (dictGet vs x).getD 0 = 0)).length + 1 ≤ F →
      (∀ x : String, (dictGet vs x).getD 0 = 0 ∨ (dictGet vs x).getD 0 = 1
        ∨ (dictGet vs x).getD 0 = 2) →
      (∀ x : String, (dictGet vs x).getD 0 = 2 → ThreadSafe m x) →
      (∀ x : String, (dictGet vs x).getD 0 ≠ 1) →
      (runCycleDetection m F ids vs issues).2 = issues →
      ((∀ cid, cid ∈ ids → (dictGet m cid).isSome = true →
          (dictGet (runCycleDetection m F ids vs issues).1 cid).getD 0 = 2)
        ∧ (∀ x, (dictGet (runCycleDetection m F ids vs issues).1 x).getD 0 = 2 →
            ThreadSafe m x)
        ∧ (∀ x, (dictGet vs x).getD 0 = 2 →
            (dictGet (runCycleDetection m F ids vs issues).1 x).getD 0 = 2)) := by
  intro ids
  induction ids with
  | nil =>
      intro vs issues _ _ _ hsafe _ _
      exact ⟨fun cid hcid => absurd hcid (List.not_mem_nil cid), hsafe, fun x h => h⟩
  | cons cid rest ih =>
      intro vs issues hids hfuel hwf hsafe hng hno
      simp only [runCycleDetection] at hno ⊢
      by_cases hc : ((dictGet m cid).isSome && ((dictGet vs cid).getD 0 == 0)) = true
      · rw [if_pos hc] at hno ⊢
        obtain ⟨e1, he1⟩ := detectCycle_issues_mono m F cid vs [] issues
        obtain ⟨e2, he2⟩ := runCycleDetection_issues_mono m F rest
          (detectCycle m F cid vs [] issues).1 (detectCycle m F cid vs [] issues).2
        have hlen := congrArg List.length (he2.symm.trans hno)
        rw [he1] at hlen
        simp only [List.length_append] at hlen
        have he1nil : e1 = [] := List.length_eq_zero.mp (by omega)
        have he2nil : e2 = [] := List.length_eq_zero.mp (by omega)
        have hno1 : (detectCycle m F cid vs [] issues).2 = issues := by
          rw [he1, he1nil, List.append_nil]
        obtain ⟨dc1, dc2, dc3, dc4, dc5, dc6⟩ :=
          detectCycle_no_issue m U hU hmU hmne F cid vs [] issues
            (hids cid (List.mem_cons_self cid rest)) hfuel hwf hsafe hno1
        have hfuel' : (U.filter
            (fun x => (dictGet (detectCycle m F cid vs [] issues).1 x).getD 0 = 0)).length
              + 1 ≤ F := by
          have hmono : (U.filter
              (fun x => decide ((dictGet (detectCycle m F cid vs [] issues).1 x).getD 0 = 0))).length
              ≤ (U.filter (fun x => decide ((dictGet vs x).getD 0 = 0))).length := by
            refine List.Sublist.length_le (List.monotone_filter_right U (fun a ha => ?_))
            simp only [decide_eq_true_eq] at ha ⊢
            exact dc4 a ha
          omega
        have hng' : ∀ x : String,
            (dictGet (detectCycle m F cid vs [] issues).1 x).getD 0 ≠ 1 :=
          fun x hx => hng x (dc5 x hx)
        have hno2 : (runCycleDetection m F rest (detectCycle m F cid vs [] issues).1
            (detectCycle m F cid vs [] issues).2).2
            = (detectCycle m F cid vs [] issues).2 := by
          rw [he2, he2nil, List.append_nil]
        obtain ⟨r1, r2, r3⟩ := ih (detectCycle m F cid vs [] issues).1
          (detectCycle m F cid vs [] issues).2
          (fun x hx => hids x (List.mem_cons_of_mem cid hx)) hfuel' dc6 dc2 hng' hno2
        refine ⟨?_, r2, ?_⟩
        · intro c hcmem hcs
          rcases List.mem_cons.mp hcmem with rfl | hcr
          · exact r3 c dc1
          · exact r1 c hcr hcs
        · intro x hx
          exact r3 x (dc3 x hx)
      · rw [if_neg hc] at hno ⊢
        obtain ⟨r1, r2, r3⟩ := ih vs issues
          (fun x hx => hids x (List.mem_cons_of_mem cid hx)) hfuel hwf hsafe hng hno
        refine ⟨?_, r2, r3⟩
        intro c hcmem hcs
        rcases List.mem_cons.mp hcmem with rfl | hcr
        · refine r3 c ?_
          have hb : ((dictGet vs c).getD 0 == 0) = false := by
            cases hbe : ((dictGet vs c).getD 0 == 0) with
            | false => rfl
            | true =>
                exfalso
                apply hc
                rw [hcs, hbe]
                rfl
          have h0 : (dictGet vs c).getD 0 ≠ 0 := by
            intro hh
            rw [hh] at hb
            simp at hb
          rcases hwf c with h | h | h
          · exact absurd h h0
          · exact absurd h (hng c)
          · exact h
        · exact r1 c hcr hcs


/-- Any directed cycle of candidate parent links among the extracted ids
forces the aggregated thread-validation error, whatever the cycle's
length. -/
theorem C4aux_cycle (startedIds : List String) (parentById : List (String × String))
    (c : String) (k : Nat) (hc : c ∈ startedIds) (hk : 0 < k)
    (hnodes : ∀ j, j < k →
      (fun x => pyStrip (dictGetD parentById x))^[j] c ∈ startedIds ∧ (fun x => pyStrip (dictGetD parentById x))^[j] c ≠ "")
    (hcyc : (fun x => pyStrip (dictGetD parentById x))^[k] c = c) :
    ∃ msg, validate_thread_relationships startedIds parentById = .error msg := by
  unfold validate_thread_relationships
  dsimp only
  by_cases herr : (collectParentLinks startedIds parentById startedIds [] []).1 ≠ []
      ∨ (runCycleDetection (collectParentLinks startedIds parentById startedIds [] []).2
          (startedIds.length + 1) startedIds [] []).2 ≠ []
  · rw [if_pos herr]
    exact ⟨_, rfl⟩
  · exfalso
    push_neg at herr
    obtain ⟨hinv, hcycles⟩ := herr
    have hlink : ∀ j, j < k →
        dictGet (collectParentLinks startedIds parentById startedIds [] []).2 ((fun x => pyStrip (dictGetD parentById x))^[j] c)
          = some ((fun x => pyStrip (dictGetD parentById x))^[j + 1] c) := by
      intro j hj
      have hmem := (hnodes j hj).1
      have hnext_ne : (fun x => pyStrip (dictGetD parentById x))^[j + 1] c ≠ "" := by
        by_cases hjk : j + 1 < k
        · exact (hnodes (j + 1) hjk).2
        · have hjeq : j + 1 = k := by omega
          rw [hjeq, hcyc]
          exact (hnodes 0 hk).2
      have hstep : pyStrip (dictGetD parentById ((fun x => pyStrip (dictGetD parentById x))^[j] c))
          = (fun x => pyStrip (dictGetD parentById x))^[j + 1] c := by
        rw [Function.iterate_succ_apply']
      have hne : pyStrip (dictGetD parentById ((fun x => pyStrip (dictGetD parentById x))^[j] c)) ≠ "" := by
        rw [hstep]
        exact hnext_ne
      have hcompl := collectParentLinks_complete startedIds parentById startedIds [] []
        ((fun x => pyStrip (dictGetD parentById x))^[j] c) hmem hne hinv
      rw [hstep] at hcompl
      exact hcompl
    have hch : ∀ j, j ≤ k →
        pchain (collectParentLinks startedIds parentById startedIds [] []).2 j c = some ((fun x => pyStrip (dictGetD parentById x))^[j] c) := by
      intro j
      induction j with
      | zero => intro _; rfl
      | succ j ihj =>
          intro hj
          have hj' : j < k := by omega
          have hstep := hlink j hj'
          have hadd := pchain_add (collectParentLinks startedIds parentById startedIds [] []).2 j 1 c
          rw [hadd, ihj (by omega)]
          dsimp only
          simp [pchain, hstep]
    have hcy : pchain (collectParentLinks startedIds parentById startedIds [] []).2 k c = some c := by
      have hck := hch k le_rfl
      rw [hcyc] at hck
      exact hck
    have hmvalid0 : ∀ c0 p0, dictGet ([] : List (String × String)) c0 = some p0 →
        p0 ∈ startedIds ∧ p0 ≠ c0 := by simp [dictGet]
    have hmne0 : ∀ c0 p0, dictGet ([] : List (String × String)) c0 = some p0 →
        p0 ≠ "" := by simp [dictGet]
    have hmU : ∀ c0 p0, dictGet (collectParentLinks startedIds parentById startedIds [] []).2 c0 = some p0 →
        p0 ∈ dedupFirst startedIds := by
      intro c0 p0 h0
      exact (dedupFirst_mem startedIds p0).2
        (collectParentLinks_valid startedIds parentById startedIds [] []
          hmvalid0 c0 p0 h0).1
    have hmne : ∀ c0 p0, dictGet (collectParentLinks startedIds parentById startedIds [] []).2 c0 = some p0 → p0 ≠ "" :=
      fun c0 p0 h0 =>
        collectParentLinks_valid_ne startedIds parentById startedIds [] [] hmne0 c0 p0 h0
    have hUnodup : (dedupFirst startedIds).Nodup := dedupFirstAux_nodup startedIds []
    have hfuel0 : ((dedupFirst startedIds).filter
        (fun x => (dictGet ([] : List (String × Nat)) x).getD 0 = 0)).length + 1
        ≤ startedIds.length + 1 := by
      have h1 : (dedupFirst startedIds).filter
          (fun x => decide ((dictGet ([] : List (String × Nat)) x).getD 0 = 0))
          = dedupFirst startedIds := by
        refine List.filter_eq_self.2 (fun a _ => ?_)
        simp [dictGet]
      rw [h1]
      have h2 : (dedupFirst startedIds).length ≤ startedIds.length :=
        dedupFirstAux_length_le startedIds []
      omega
    obtain ⟨hblack, hsafeF, _⟩ := runCycleDetection_no_issue (collectParentLinks startedIds parentById startedIds [] []).2
      (dedupFirst startedIds) hUnodup hmU hmne (startedIds.length + 1) startedIds [] []
      (fun x hx => (dedupFirst_mem startedIds x).2 hx) hfuel0
      (fun x => Or.inl (by simp [dictGet]))
      (fun x hx => absurd hx (by simp [dictGet]))
      (fun x => by simp [dictGet]) hcycles
    have hcs : (dictGet (collectParentLinks startedIds parentById startedIds [] []).2 c).isSome = true := by
      have h0 := hlink 0 hk
      rw [show (fun x => pyStrip (dictGetD parentById x))^[0] c = c from rfl] at h0
      rw [h0]
      rfl
    exact cycle_not_safe (collectParentLinks startedIds parentById startedIds [] []).2 c k hk hcy (hsafeF c (hblack c hc hcs))


/-- C4: a candidate parent link is accepted only when the parent id exists
among the extracted ids and differs from the child; a nonempty link to a
missing id or to the child itself forces the aggregated error (no partially
applied map is returned); any directed cycle of candidate parent links among
the extracted ids, of any length, forces the aggregated error; and the
two-comment mutual-parent configuration is rejected with an error naming
both ids. -/
theorem C4_thread_validation (startedIds : List String)
    (parentById : List (String × String)) :
    ((∀ m, validate_thread_relationships startedIds parentById = .ok m →
        ∀ c p, dictGet m c = some p → p ∈ startedIds ∧ p ≠ c)
    ∧ (∀ c, c ∈ startedIds →
        pyStrip (dictGetD parentById c) ≠ "" →
        (pyStrip (dictGetD parentById c) = c
          ∨ ¬ pyStrip (dictGetD parentById c) ∈ startedIds) →
        ∃ msg, validate_thread_relationships startedIds parentById = .error msg))
    ∧ (∀ (c : String) (k : Nat), c ∈ startedIds → 0 < k →
        (∀ j, j < k →
          (fun x => pyStrip (dictGetD parentById x))^[j] c ∈ startedIds
          ∧ (fun x => pyStrip (dictGetD parentById x))^[j] c ≠ "") →
        (fun x => pyStrip (dictGetD parentById x))^[k] c = c →
        ∃ msg, validate_thread_relationships startedIds parentById = .error msg)
    ∧ (∀ a b : String, a ≠ b → a ≠ "" → b ≠ "" → pyStrip a = a → pyStrip b = b →
        validate_thread_relationships [a, b] [(a, b), (b, a)]
          = .error (thread_error_message
              ["thread cycle detected: " ++ String.intercalate " -> " [a, b, a]])) := by
  refine ⟨⟨?_, ?_⟩, ?_, ?_⟩
  · intro m hok c p hcp
    unfold validate_thread_relationships at hok
    dsimp only at hok
    split at hok
    · exact absurd hok (by simp)
    · have hm : (collectParentLinks startedIds parentById startedIds [] []).2 = m := by
        simpa using hok
      refine collectParentLinks_valid startedIds parentById startedIds [] []
        (fun c0 p0 h0 => ?_) c p (hm ▸ hcp)
      simp [dictGet] at h0
  · intro c hc hne hbad
    have hinv := collectParentLinks_hit startedIds parentById startedIds [] [] c hc hne hbad
    unfold validate_thread_relationships
    dsimp only
    rw [if_pos (Or.inl hinv)]
    exact ⟨_, rfl⟩
  · intro c k hc hk hnodes hcyc
    exact C4aux_cycle startedIds parentById c k hc hk hnodes hcyc
  · intro a b hab ha hb hsa hsb
    have hfa : dictGetD [(a, b), (b, a)] a = b := by
      unfold dictGetD dictGet
      rw [List.find?_cons_of_pos _ (by simp)]
      rfl
    have hfb : dictGetD [(a, b), (b, a)] b = a := by
      unfold dictGetD dictGet
      rw [List.find?_cons_of_neg _ (by simp [hab]), List.find?_cons_of_pos _ (by simp)]
      rfl
    have hcol : collectParentLinks [a, b] [(a, b), (b, a)] [a, b] [] []
        = ([], [(a, b), (b, a)]) := by
      simp only [collectParentLinks, hfa, hfb, hsa, hsb]
      rw [if_neg hb, if_neg (fun hh => hab hh.symm)]
      rw [if_neg (by simp)]
      rw [show dictSet ([] : List (String × String)) a b = [(a, b)] from rfl]
      rw [if_neg ha, if_neg hab]
      rw [if_neg (by simp)]
      rw [show dictSet [(a, b)] b a = [(a, b), (b, a)] from by
        simp [dictSet, fun hh : a = b => hab hh]]
    have hveq : dictGet [(a, b), (b, a)] a = some b := by
      unfold dictGet
      rw [List.find?_cons_of_pos _ (by simp)]
      rfl
    have hvb : dictGet [(a, b), (b, a)] b = some a := by
      unfold dictGet
      rw [List.find?_cons_of_neg _ (by simp [hab]), List.find?_cons_of_pos _ (by simp)]
      rfl
    have hcyc : (runCycleDetection [(a, b), (b, a)] 3 [a, b] [] []).2
        = [String.intercalate " -> " [a, b, a]] := by
      simp only [runCycleDetection, detectCycle, hveq, hvb]
      simp [dictGet, dictSet, hab, Ne.symm hab, hb, ha, List.indexOf_cons_self]
    unfold validate_thread_relationships
    dsimp only
    rw [hcol]
    simp only [List.length_cons, List.length_nil]
    rw [hcyc]
    rw [if_pos (Or.inr (by simp))]
    simp


/-- Witness for C4: the concrete mutual-parent pair `x.parent = y`,
`y.parent = x` is rejected with the cycle error naming both ids, and the
concrete three-comment cycle `a -> b -> c -> a` is rejected as well. -/
theorem C4_thread_validation_witness :
    (validate_thread_relationships ["x", "y"] [("x", "y"), ("y", "x")]
      = .error (thread_error_message
          ["thread cycle detected: " ++ String.intercalate " -> " ["x", "y", "x"]]))
    ∧ (∃ msg, validate_thread_relationships ["a", "b", "c"]
        [("a", "b"), ("b", "c"), ("c", "a")] = .error msg) :=
  ⟨(C4_thread_validation [] []).2.2 "x" "y" (by decide) (by decide) (by decide)
    (by decide) (by decide),
   (C4_thread_validation ["a", "b", "c"] [("a", "b"), ("b", "c"), ("c", "a")]).2.1
    "a" 3 (by decide) (by decide) (by decide) (by decide)⟩


/-! ## Lemmas for the milestone rewriter (claim C6) -/

/-- Recording a start id never touches the changed counter. -/
theorem msRecordStart_changed (st : MilestoneState) (cid : String) :
    (msRecordStart st cid).changed = st.changed := by
  unfold msRecordStart
  split <;> rfl

/-- The rewriter on an inline list distributes over append. -/
theorem rwInlines_append (childIds : List String) :
    ∀ (xs ys : List Inline) (st : MilestoneState),
      rwInlines childIds (xs ++ ys) st
        = ((rwInlines childIds xs st).1
            ++ (rwInlines childIds ys (rwInlines childIds xs st).2).1,
          (rwInlines childIds ys (rwInlines childIds xs st).2).2) := by
  intro xs
  induction xs with
  | nil => intro ys st; simp [rwInlines]
  | cons x rest ih =>
      intro ys st
      simp [rwInlines, ih, List.append_assoc]

/-- C6: a comment-start or comment-end span with a nonempty id is replaced by
the matching milestone token exactly when its id is not a reply id, is
removed from the stream entirely when it is, and both cases raise the
changed count by one; the walk distributes over inline concatenation, and at
document level a single comment span yields changed count one. -/
theorem C6_milestone_encoding :
    (∀ (childIds : List String) (attr : Attr) (nested : List Inline) (st : MilestoneState),
        comment_id_from_attr attr ≠ "" →
        attr.classes.contains "comment-start" = true →
        rwInline childIds (.Span attr nested) st =
          (if childIds.contains (comment_id_from_attr attr) then ([], msBump st)
           else ([milestone_marker_inline (comment_id_from_attr attr) "s"],
             msBump (msRecordStart st (comment_id_from_attr attr)))))
  ∧ (∀ (childIds : List String) (attr : Attr) (nested : List Inline) (st : MilestoneState),
        comment_id_from_attr attr ≠ "" →
        attr.classes.contains "comment-start" = false →
        attr.classes.contains "comment-end" = true →
        rwInline childIds (.Span attr nested) st =
          (if childIds.contains (comment_id_from_attr attr) then ([], msBump st)
           else ([milestone_marker_inline (comment_id_from_attr attr) "e"], msBump st)))
  ∧ (∀ (childIds : List String) (xs ys : List Inline) (st : MilestoneState),
        rwInlines childIds (xs ++ ys) st
          = ((rwInlines childIds xs st).1
              ++ (rwInlines childIds ys (rwInlines childIds xs st).2).1,
            (rwInlines childIds ys (rwInlines childIds xs st).2).2))
  ∧ (∀ (childIds : List String) (attr : Attr) (nested : List Inline),
        comment_id_from_attr attr ≠ "" →
        (attr.classes.contains "comment-start" = true
          ∨ attr.classes.contains "comment-end" = true) →
        (rewrite_comment_spans_to_milestones_in_doc
            ⟨[Block.Para [Inline.Span attr nested]]⟩ childIds).2.changed = 1) := by
  refine ⟨?_, ?_, rwInlines_append, ?_⟩
  · intro childIds attr nested st h1 h2
    have h2m : "comment-start" ∈ attr.classes := by simpa using h2
    by_cases hc : childIds.contains (comment_id_from_attr attr) = true
    · have hcm : comment_id_from_attr attr ∈ childIds := by simpa using hc
      simp [rwInline, h1, h2m, hcm, hc]
    · have hcm : ¬ comment_id_from_attr attr ∈ childIds := by simpa using hc
      simp [rwInline, h1, h2m, hcm]
  · intro childIds attr nested st h1 h2 h3
    have h2m : ¬ "comment-start" ∈ attr.classes := by simpa using h2
    have h3m : "comment-end" ∈ attr.classes := by simpa using h3
    by_cases hc : childIds.contains (comment_id_from_attr attr) = true
    · have hcm : comment_id_from_attr attr ∈ childIds := by simpa using hc
      simp [rwInline, h1, h2m, h3m, hcm, hc]
    · have hcm : ¬ comment_id_from_attr attr ∈ childIds := by simpa using hc
      simp [rwInline, h1, h2m, h3m, hcm]
  · intro childIds attr nested h1 hor
    unfold rewrite_comment_spans_to_milestones_in_doc rwBlocks rwBlock rwInlines
    rcases hor with h2 | h2
    · have h2m : "comment-start" ∈ attr.classes := by simpa using h2
      by_cases hc : comment_id_from_attr attr ∈ childIds
      · simp [rwInline, rwInlines, h1, h2m, hc, msBump, rwBlocks]
      · simp [rwInline, rwInlines, h1, h2m, hc, msBump, msRecordStart_changed, rwBlocks,
          msRecordStart]
    · by_cases h2s : "comment-start" ∈ attr.classes
      · by_cases hc : comment_id_from_attr attr ∈ childIds
        · simp [rwInline, rwInlines, h1, h2s, hc, msBump, rwBlocks]
        · simp [rwInline, rwInlines, h1, h2s, hc, msBump, rwBlocks, msRecordStart]
      · have h3m : "comment-end" ∈ attr.classes := by simpa using h2
        by_cases hc : comment_id_from_attr attr ∈ childIds
        · simp [rwInline, rwInlines, h1, h2s, h3m, hc, msBump, rwBlocks]
        · simp [rwInline, rwInlines, h1, h2s, h3m, hc, msBump, rwBlocks]

/-- Witness for C6: one root start span becomes its START milestone token and
bumps the changed count. -/
theorem C6_milestone_encoding_witness :
    rwInline ["9"] (.Span ⟨"7", ["comment-start"], []⟩ [])
        ⟨0, [], []⟩ =
      (if (["9"] : List String).contains
          (comment_id_from_attr ⟨"7", ["comment-start"], []⟩) then
        ([], msBump ⟨0, [], []⟩)
       else ([milestone_marker_inline
            (comment_id_from_attr ⟨"7", ["comment-start"], []⟩) "s"],
          msBump (msRecordStart ⟨0, [], []⟩
            (comment_id_from_attr ⟨"7", ["comment-start"], []⟩)))) :=
  C6_milestone_encoding.1 ["9"] ⟨"7", ["comment-start"], []⟩ [] ⟨0, [], []⟩
    (by decide) (by decide)


/-! ## Lemmas for the attribute annotator (claim C8) -/

/-- Last-binding lookup through a cons cell. -/
theorem kvLast_cons (k0 v0 : String) (rest : List (String × String)) (k2 : String) :
    kvLast ((k0, v0) :: rest) k2
      = match kvLast rest k2 with
        | some w => some w
        | none => if k0 = k2 then some v0 else none := by
  unfold kvLast
  rw [show ((k0, v0) :: rest).reverse = rest.reverse ++ [(k0, v0)] from by simp]
  rw [List.find?_append]
  cases hfind : List.find? (fun p => p.1 = k2) rest.reverse with
  | none =>
      by_cases hk : k0 = k2
      · simp [hfind, List.find?, hk]
      · simp [hfind, List.find?, hk]
  | some w => simp [hfind]

/-- An ensure call is a no-op when the first binding of the key is already
nonempty. -/
theorem ensure_attr_pair_of_first_nonempty :
    ∀ (kvs : List (String × String)) (k v w : String),
      dictGet kvs k = some w → w ≠ "" → ensure_attr_pair kvs k v = (kvs, false) := by
  intro kvs
  induction kvs with
  | nil => intro k v w hw _; simp [dictGet] at hw
  | cons kv rest ih =>
      intro k v w hw hne
      obtain ⟨k0, v0⟩ := kv
      by_cases hk : k0 = k
      · subst hk
        have : v0 = w := by simpa [dictGet, List.find?] using hw
        subst this
        simp [ensure_attr_pair, hne]
      · have hw2 : dictGet rest k = some w := by
          have hk0 : (k0 = k) = False := eq_false hk
          simpa [dictGet, List.find?, hk0] using hw
        simp [ensure_attr_pair, hk, ih k v w hw2 hne]

/-- After an ensure call with a nonempty value, the first binding of the key
is nonempty. -/
theorem ensure_attr_pair_first_nonempty_after :
    ∀ (kvs : List (String × String)) (k v : String), v ≠ "" →
      ∃ w, dictGet (ensure_attr_pair kvs k v).1 k = some w ∧ w ≠ "" := by
  intro kvs
  induction kvs with
  | nil =>
      intro k v hv
      exact ⟨v, by simp [ensure_attr_pair, dictGet, List.find?], hv⟩
  | cons kv rest ih =>
      intro k v hv
      obtain ⟨k0, v0⟩ := kv
      by_cases hk : k0 = k
      · subst hk
        by_cases hv0 : v0 = ""
        · subst hv0
          refine ⟨v, ?_, hv⟩
          simp [ensure_attr_pair, dictGet, List.find?]
        · refine ⟨v0, ?_, hv0⟩
          simp [ensure_attr_pair, hv0, dictGet, List.find?]
      · obtain ⟨w, hw, hwne⟩ := ih k v hv
        refine ⟨w, ?_, hwne⟩
        have hk0 : (k0 = k) = False := eq_false hk
        simp [ensure_attr_pair, hk, dictGet, List.find?, hk0]
        simpa [dictGet] using hw

/-- An ensure call leaves first-binding lookups of other keys unchanged. -/
theorem ensure_attr_pair_dictGet_ne :
    ∀ (kvs : List (String × String)) (k v k2 : String), k2 ≠ k →
      dictGet (ensure_attr_pair kvs k v).1 k2 = dictGet kvs k2 := by
  intro kvs
  induction kvs with
  | nil =>
      intro k v k2 hne
      have hk : (k = k2) = False := eq_false (fun hh => hne hh.symm)
      simp [ensure_attr_pair, dictGet, List.find?, hk]
  | cons kv rest ih =>
      intro k v k2 hne
      obtain ⟨k0, v0⟩ := kv
      by_cases hk : k0 = k
      · subst hk
        by_cases hv0 : v0 = ""
        · subst hv0
          have hk2 : (k0 = k2) = False := eq_false (fun hh => hne hh.symm)
          simp [ensure_attr_pair, dictGet, List.find?, hk2]
        · simp [ensure_attr_pair, hv0]
      · simp only [ensure_attr_pair, if_neg hk]
        by_cases hk2 : k0 = k2
        · subst hk2
          simp [dictGet, List.find?]
        · have hk2f : (k0 = k2) = False := eq_false hk2
          simp [dictGet, List.find?, hk2f]
          simpa [dictGet] using ih k v k2 hne

/-- An ensure call leaves last-binding lookups of other keys unchanged. -/
theorem ensure_attr_pair_kvLast_ne :
    ∀ (kvs : List (String × String)) (k v k2 : String), k2 ≠ k →
      kvLast (ensure_attr_pair kvs k v).1 k2 = kvLast kvs k2 := by
  intro kvs
  induction kvs with
  | nil =>
      intro k v k2 hne
      rw [show (ensure_attr_pair [] k v).1 = [(k, v)] from rfl]
      rw [kvLast_cons]
      have hk : (k = k2) = False := eq_false (fun hh => hne hh.symm)
      simp [kvLast, hk]
  | cons kv rest ih =>
      intro k v k2 hne
      obtain ⟨k0, v0⟩ := kv
      by_cases hk : k0 = k
      · subst hk
        by_cases hv0 : v0 = ""
        · subst hv0
          rw [show (ensure_attr_pair ((k0, "") :: rest) k0 v).1 = (k0, v) :: rest from by
            simp [ensure_attr_pair]]
          rw [kvLast_cons, kvLast_cons]
          have hk2 : (k0 = k2) = False := eq_false (fun hh => hne hh.symm)
          simp [hk2]
        · simp [ensure_attr_pair, hv0]
      · rw [show (ensure_attr_pair ((k0, v0) :: rest) k v).1
            = (k0, v0) :: (ensure_attr_pair rest k v).1 from by
          simp [ensure_attr_pair, hk]]
        rw [kvLast_cons, kvLast_cons, ih k v k2 hne]


/-- Normalization never changes the class list. -/
theorem normalize_classes (a : Attr) :
    (normalize_comment_span_id_attr a).1.classes = a.classes := by
  unfold normalize_comment_span_id_attr
  split
  · rfl
  · dsimp only
    split
    · rfl
    · rfl

/-- Normalization of a comment span leaves a blank (whitespace-only)
identifier slot. -/
theorem normalize_id_blank (a : Attr)
    (h : a.classes.contains "comment-start" = true
      ∨ a.classes.contains "comment-end" = true) :
    pyStrip (normalize_comment_span_id_attr a).1.id = "" := by
  unfold normalize_comment_span_id_attr
  split
  · rename_i hng
    exfalso
    rcases h with h | h
    · exact hng (Or.inl (by simpa using h))
    · exact hng (Or.inr (by simpa using h))
  · dsimp only
    split
    · rename_i hident
      simpa using hident
    · dsimp only
      by_cases hid : a.id ≠ ""
      · simp [hid]
        rfl
      · rename_i hident
        have : a.id = "" := by simpa using hid
        simp [this] at hident
        exact absurd rfl hident

/-- Normalization is the identity on an attribute whose identifier slot is
blank. -/
theorem normalize_of_id_blank (a : Attr) (h : pyStrip a.id = "") :
    normalize_comment_span_id_attr a = (a, false) := by
  unfold normalize_comment_span_id_attr
  split
  · rfl
  · simp [h]

/-- A conditional ensure step leaves first-binding lookups of other keys
unchanged. -/
theorem cond_ensure_dictGet_ne (K : List (String × String)) (g : Prop) [Decidable g]
    (k v k2 : String) (h : k2 ≠ k) :
    dictGet (if g then ensure_attr_pair K k v else (K, false)).1 k2 = dictGet K k2 := by
  split
  · exact ensure_attr_pair_dictGet_ne K k v k2 h
  · rfl

/-- A conditional ensure step leaves last-binding lookups of other keys
unchanged. -/
theorem cond_ensure_kvLast_ne (K : List (String × String)) (g : Prop) [Decidable g]
    (k v k2 : String) (h : k2 ≠ k) :
    kvLast (if g then ensure_attr_pair K k v else (K, false)).1 k2 = kvLast K k2 := by
  split
  · exact ensure_attr_pair_kvLast_ne K k v k2 h
  · rfl


/-- `parse_state_token` never returns the empty string. -/
theorem parse_state_token_ne (s : String) : parse_state_token s ≠ "" := by
  unfold parse_state_token
  dsimp only
  split
  · decide
  · decide

/-- A conditional ensure step, given in pair-equation form, preserves the
first- and last-binding lookups of every other key. -/
theorem cond_ensure_preserve (Kp : List (String × String)) (g : Prop) [Decidable g]
    (k v : String) (L : List (String × String)) (b : Bool)
    (h : (if g then ensure_attr_pair Kp k v else (Kp, false)) = (L, b))
    (k2 : String) (hk2 : k2 ≠ k) :
    dictGet L k2 = dictGet Kp k2 ∧ kvLast L k2 = kvLast Kp k2 := by
  have hL : L = (if g then ensure_attr_pair Kp k v else (Kp, false)).1 := by rw [h]
  constructor
  · rw [hL]
    exact cond_ensure_dictGet_ne Kp g k v k2 hk2
  · rw [hL]
    exact cond_ensure_kvLast_ne Kp g k v k2 hk2

/-- A conditional ensure step whose guard fired leaves a nonempty first
binding at its key. -/
theorem cond_ensure_establish (Kp : List (String × String)) (g : Prop) [Decidable g]
    (k v : String) (L : List (String × String)) (b : Bool)
    (h : (if g then ensure_attr_pair Kp k v else (Kp, false)) = (L, b))
    (hv : v ≠ "") (hg : g) :
    ∃ w, dictGet L k = some w ∧ w ≠ "" := by
  rw [if_pos hg] at h
  obtain ⟨w, hw, hwne⟩ := ensure_attr_pair_first_nonempty_after Kp k v hv
  rw [h] at hw
  exact ⟨w, hw, hwne⟩

/-- A conditional ensure step whose guard did not fire returns its input. -/
theorem cond_ensure_skip (Kp : List (String × String)) (g : Prop) [Decidable g]
    (k v : String) (L : List (String × String)) (b : Bool)
    (h : (if g then ensure_attr_pair Kp k v else (Kp, false)) = (L, b))
    (hg : ¬ g) : L = Kp := by
  rw [if_neg hg] at h
  have h1 := congrArg Prod.fst h
  exact h1.symm

/-- A conditional ensure step is inert when its key already has a nonempty
first binding. -/
theorem cond_ensure_noop (Kp : List (String × String)) (g : Prop) [Decidable g]
    (k v w : String) (hw : dictGet Kp k = some w) (hwne : w ≠ "") :
    (if g then ensure_attr_pair Kp k v else (Kp, false)) = (Kp, false) := by
  split
  · exact ensure_attr_pair_of_first_nonempty Kp k v w hw hwne
  · rfl

/-- The six ensure stages of the annotator, re-run against the key/value
list they produced (with the guard snapshot also re-taken there), are all
inert: each stage returns its input with a `false` changed flag. -/
theorem annotate_steps_idem (K0 L1 L2 L3 L4 L5 L6 : List (String × String))
    (b1 b2 b3 b4 b5 b6 : Bool) (pid st pId dId pv us : String) (hst : st ≠ "")
    (h1 : (if pid ≠ "" ∧ kvLastD K0 "parent" = "" then ensure_attr_pair K0 "parent" pid else (K0, false)) = (L1, b1))
    (h2 : (if kvLastD K0 "state" = "" then ensure_attr_pair L1 "state" st else (L1, false)) = (L2, b2))
    (h3 : (if pId ≠ "" ∧ kvLastD K0 "paraId" = "" then ensure_attr_pair L2 "paraId" pId else (L2, false)) = (L3, b3))
    (h4 : (if dId ≠ "" ∧ kvLastD K0 "durableId" = "" then ensure_attr_pair L3 "durableId" dId else (L3, false)) = (L4, b4))
    (h5 : (if pv ≠ "" ∧ kvLastD K0 "presenceProvider" = "" then ensure_attr_pair L4 "presenceProvider" pv else (L4, false)) = (L5, b5))
    (h6 : (if us ≠ "" ∧ kvLastD K0 "presenceUserId" = "" then ensure_attr_pair L5 "presenceUserId" us else (L5, false)) = (L6, b6)) :
    (if pid ≠ "" ∧ kvLastD L6 "parent" = "" then ensure_attr_pair L6 "parent" pid else (L6, false)) = (L6, false) ∧
    (if kvLastD L6 "state" = "" then ensure_attr_pair L6 "state" st else (L6, false)) = (L6, false) ∧
    (if pId ≠ "" ∧ kvLastD L6 "paraId" = "" then ensure_attr_pair L6 "paraId" pId else (L6, false)) = (L6, false) ∧
    (if dId ≠ "" ∧ kvLastD L6 "durableId" = "" then ensure_attr_pair L6 "durableId" dId else (L6, false)) = (L6, false) ∧
    (if pv ≠ "" ∧ kvLastD L6 "presenceProvider" = "" then ensure_attr_pair L6 "presenceProvider" pv else (L6, false)) = (L6, false) ∧
    (if us ≠ "" ∧ kvLastD L6 "presenceUserId" = "" then ensure_attr_pair L6 "presenceUserId" us else (L6, false)) = (L6, false) := by
  refine ⟨?_, ?_, ?_, ?_, ?_, ?_⟩
  · by_cases G : pid ≠ "" ∧ kvLastD K0 "parent" = ""
    case pos =>
      obtain ⟨w, hw, hwne⟩ := cond_ensure_establish K0 _ "parent" pid L1 b1 h1 G.1 G
      have p2 := (cond_ensure_preserve L1 _ "state" st L2 b2 h2 "parent" (by decide)).1
      have p3 := (cond_ensure_preserve L2 _ "paraId" pId L3 b3 h3 "parent" (by decide)).1
      have p4 := (cond_ensure_preserve L3 _ "durableId" dId L4 b4 h4 "parent" (by decide)).1
      have p5 := (cond_ensure_preserve L4 _ "presenceProvider" pv L5 b5 h5 "parent" (by decide)).1
      have p6 := (cond_ensure_preserve L5 _ "presenceUserId" us L6 b6 h6 "parent" (by decide)).1
      exact cond_ensure_noop L6 _ "parent" pid w (by rw [p6, p5, p4, p3, p2]; exact hw) hwne
    case neg =>
      have q2 := (cond_ensure_preserve L1 _ "state" st L2 b2 h2 "parent" (by decide)).2
      have q3 := (cond_ensure_preserve L2 _ "paraId" pId L3 b3 h3 "parent" (by decide)).2
      have q4 := (cond_ensure_preserve L3 _ "durableId" dId L4 b4 h4 "parent" (by decide)).2
      have q5 := (cond_ensure_preserve L4 _ "presenceProvider" pv L5 b5 h5 "parent" (by decide)).2
      have q6 := (cond_ensure_preserve L5 _ "presenceUserId" us L6 b6 h6 "parent" (by decide)).2
      have hsk : L1 = K0 := cond_ensure_skip K0 _ "parent" pid L1 b1 h1 G
      have hkl : kvLastD L6 "parent" = kvLastD K0 "parent" := by
        unfold kvLastD
        rw [q6, q5, q4, q3, q2, hsk]
      rw [if_neg (fun hc => G ⟨hc.1, by rw [← hkl]; exact hc.2⟩)]
  · by_cases G : kvLastD K0 "state" = ""
    case pos =>
      obtain ⟨w, hw, hwne⟩ := cond_ensure_establish L1 _ "state" st L2 b2 h2 hst G
      have p3 := (cond_ensure_preserve L2 _ "paraId" pId L3 b3 h3 "state" (by decide)).1
      have p4 := (cond_ensure_preserve L3 _ "durableId" dId L4 b4 h4 "state" (by decide)).1
      have p5 := (cond_ensure_preserve L4 _ "presenceProvider" pv L5 b5 h5 "state" (by decide)).1
      have p6 := (cond_ensure_preserve L5 _ "presenceUserId" us L6 b6 h6 "state" (by decide)).1
      exact cond_ensure_noop L6 _ "state" st w (by rw [p6, p5, p4, p3]; exact hw) hwne
    case neg =>
      have q1 := (cond_ensure_preserve K0 _ "parent" pid L1 b1 h1 "state" (by decide)).2
      have q3 := (cond_ensure_preserve L2 _ "paraId" pId L3 b3 h3 "state" (by decide)).2
      have q4 := (cond_ensure_preserve L3 _ "durableId" dId L4 b4 h4 "state" (by decide)).2
      have q5 := (cond_ensure_preserve L4 _ "presenceProvider" pv L5 b5 h5 "state" (by decide)).2
      have q6 := (cond_ensure_preserve L5 _ "presenceUserId" us L6 b6 h6 "state" (by decide)).2
      have hsk : L2 = L1 := cond_ensure_skip L1 _ "state" st L2 b2 h2 G
      have hkl : kvLastD L6 "state" = kvLastD K0 "state" := by
        unfold kvLastD
        rw [q6, q5, q4, q3, hsk, q1]
      rw [if_neg (fun hc => G (by rw [← hkl]; exact hc))]
  · by_cases G : pId ≠ "" ∧ kvLastD K0 "paraId" = ""
    case pos =>
      obtain ⟨w, hw, hwne⟩ := cond_ensure_establish L2 _ "paraId" pId L3 b3 h3 G.1 G
      have p4 := (cond_ensure_preserve L3 _ "durableId" dId L4 b4 h4 "paraId" (by decide)).1
      have p5 := (cond_ensure_preserve L4 _ "presenceProvider" pv L5 b5 h5 "paraId" (by decide)).1
      have p6 := (cond_ensure_preserve L5 _ "presenceUserId" us L6 b6 h6 "paraId" (by decide)).1
      exact cond_ensure_noop L6 _ "paraId" pId w (by rw [p6, p5, p4]; exact hw) hwne
    case neg =>
      have q1 := (cond_ensure_preserve K0 _ "parent" pid L1 b1 h1 "paraId" (by decide)).2
      have q2 := (cond_ensure_preserve L1 _ "state" st L2 b2 h2 "paraId" (by decide)).2
      have q4 := (cond_ensure_preserve L3 _ "durableId" dId L4 b4 h4 "paraId" (by decide)).2
      have q5 := (cond_ensure_preserve L4 _ "presenceProvider" pv L5 b5 h5 "paraId" (by decide)).2
      have q6 := (cond_ensure_preserve L5 _ "presenceUserId" us L6 b6 h6 "paraId" (by decide)).2
      have hsk : L3 = L2 := cond_ensure_skip L2 _ "paraId" pId L3 b3 h3 G
      have hkl : kvLastD L6 "paraId" = kvLastD K0 "paraId" := by
        unfold kvLastD
        rw [q6, q5, q4, hsk, q2, q1]
      rw [if_neg (fun hc => G ⟨hc.1, by rw [← hkl]; exact hc.2⟩)]
  · by_cases G : dId ≠ "" ∧ kvLastD K0 "durableId" = ""
    case pos =>
      obtain ⟨w, hw, hwne⟩ := cond_ensure_establish L3 _ "durableId" dId L4 b4 h4 G.1 G
      have p5 := (cond_ensure_preserve L4 _ "presenceProvider" pv L5 b5 h5 "durableId" (by decide)).1
      have p6 := (cond_ensure_preserve L5 _ "presenceUserId" us L6 b6 h6 "durableId" (by decide)).1
      exact cond_ensure_noop L6 _ "durableId" dId w (by rw [p6, p5]; exact hw) hwne
    case neg =>
      have q1 := (cond_ensure_preserve K0 _ "parent" pid L1 b1 h1 "durableId" (by decide)).2
      have q2 := (cond_ensure_preserve L1 _ "state" st L2 b2 h2 "durableId" (by decide)).2
      have q3 := (cond_ensure_preserve L2 _ "paraId" pId L3 b3 h3 "durableId" (by decide)).2
      have q5 := (cond_ensure_preserve L4 _ "presenceProvider" pv L5 b5 h5 "durableId" (by decide)).2
      have q6 := (cond_ensure_preserve L5 _ "presenceUserId" us L6 b6 h6 "durableId" (by decide)).2
      have hsk : L4 = L3 := cond_ensure_skip L3 _ "durableId" dId L4 b4 h4 G
      have hkl : kvLastD L6 "durableId" = kvLastD K0 "durableId" := by
        unfold kvLastD
        rw [q6, q5, hsk, q3, q2, q1]
      rw [if_neg (fun hc => G ⟨hc.1, by rw [← hkl]; exact hc.2⟩)]
  · by_cases G : pv ≠ "" ∧ kvLastD K0 "presenceProvider" = ""
    case pos =>
      obtain ⟨w, hw, hwne⟩ := cond_ensure_establish L4 _ "presenceProvider" pv L5 b5 h5 G.1 G
      have p6 := (cond_ensure_preserve L5 _ "presenceUserId" us L6 b6 h6 "presenceProvider" (by decide)).1
      exact cond_ensure_noop L6 _ "presenceProvider" pv w (by rw [p6]; exact hw) hwne
    case neg =>
      have q1 := (cond_ensure_preserve K0 _ "parent" pid L1 b1 h1 "presenceProvider" (by decide)).2
      have q2 := (cond_ensure_preserve L1 _ "state" st L2 b2 h2 "presenceProvider" (by decide)).2
      have q3 := (cond_ensure_preserve L2 _ "paraId" pId L3 b3 h3 "presenceProvider" (by decide)).2
      have q4 := (cond_ensure_preserve L3 _ "durableId" dId L4 b4 h4 "presenceProvider" (by decide)).2
      have q6 := (cond_ensure_preserve L5 _ "presenceUserId" us L6 b6 h6 "presenceProvider" (by decide)).2
      have hsk : L5 = L4 := cond_ensure_skip L4 _ "presenceProvider" pv L5 b5 h5 G
      have hkl : kvLastD L6 "presenceProvider" = kvLastD K0 "presenceProvider" := by
        unfold kvLastD
        rw [q6, hsk, q4, q3, q2, q1]
      rw [if_neg (fun hc => G ⟨hc.1, by rw [← hkl]; exact hc.2⟩)]
  · by_cases G : us ≠ "" ∧ kvLastD K0 "presenceUserId" = ""
    case pos =>
      obtain ⟨w, hw, hwne⟩ := cond_ensure_establish L5 _ "presenceUserId" us L6 b6 h6 G.1 G
      exact cond_ensure_noop L6 _ "presenceUserId" us w hw hwne
    case neg =>
      have q1 := (cond_ensure_preserve K0 _ "parent" pid L1 b1 h1 "presenceUserId" (by decide)).2
      have q2 := (cond_ensure_preserve L1 _ "state" st L2 b2 h2 "presenceUserId" (by decide)).2
      have q3 := (cond_ensure_preserve L2 _ "paraId" pId L3 b3 h3 "presenceUserId" (by decide)).2
      have q4 := (cond_ensure_preserve L3 _ "durableId" dId L4 b4 h4 "presenceUserId" (by decide)).2
      have q5 := (cond_ensure_preserve L4 _ "presenceProvider" pv L5 b5 h5 "presenceUserId" (by decide)).2
      have hsk : L6 = L5 := cond_ensure_skip L5 _ "presenceUserId" us L6 b6 h6 G
      have hkl : kvLastD L6 "presenceUserId" = kvLastD K0 "presenceUserId" := by
        unfold kvLastD
        rw [hsk, q5, q4, q3, q2, q1]
      rw [if_neg (fun hc => G ⟨hc.1, by rw [← hkl]; exact hc.2⟩)]


/-- The annotator span handler is idempotent: applied to its own output it
returns that output with a `false` changed flag. -/
theorem annotate_on_span_idem (g : AnnotateInputs) (attr : Attr) :
    annotate_on_span g (annotate_on_span g attr).1
      = ((annotate_on_span g attr).1, false) := by
  by_cases hcls : attr.classes.contains "comment-start" = true
      ∨ attr.classes.contains "comment-end" = true
  case neg =>
    have hnorm : normalize_comment_span_id_attr attr = (attr, false) := by
      unfold normalize_comment_span_id_attr
      rw [if_pos hcls]
    have hnostart : ¬ (attr.classes.contains "comment-start" = true) :=
      fun h => hcls (Or.inl h)
    have hp1 : annotate_on_span g attr = (attr, false) := by
      unfold annotate_on_span
      rw [hnorm]
      dsimp only
      rw [if_pos hnostart]
    rw [hp1]
    exact hp1
  case pos =>
    have hid1 := normalize_id_blank attr hcls
    obtain ⟨attr1, c0, hnorm⟩ : ∃ a c, normalize_comment_span_id_attr attr = (a, c) :=
      ⟨_, _, rfl⟩
    rw [hnorm] at hid1
    have hid1' : pyStrip attr1.id = "" := hid1
    have hnorm1 : normalize_comment_span_id_attr attr1 = (attr1, false) :=
      normalize_of_id_blank attr1 hid1'
    by_cases hstart : attr1.classes.contains "comment-start" = true
    case neg =>
      have hp1 : annotate_on_span g attr = (attr1, c0) := by
        unfold annotate_on_span
        rw [hnorm]
        dsimp only
        rw [if_pos hstart]
      have hp2 : annotate_on_span g attr1 = (attr1, false) := by
        unfold annotate_on_span
        rw [hnorm1]
        dsimp only
        rw [if_pos hstart]
      rw [hp1]
      exact hp2
    case pos =>
      have hnots : ¬ ¬ (attr1.classes.contains "comment-start" = true) :=
        fun hh => hh hstart
      have hnotid : ¬ (pyStrip attr1.id ≠ "") := fun hh => hh hid1'
      by_cases hcid : pyStrip (kvLastD attr1.kvs "id") = ""
      case pos =>
        have hp1 : annotate_on_span g attr = (attr1, c0) := by
          unfold annotate_on_span
          rw [hnorm]
          dsimp only
          rw [if_neg hnots, if_neg hnotid, if_pos hcid]
        have hp2 : annotate_on_span g attr1 = (attr1, false) := by
          unfold annotate_on_span
          rw [hnorm1]
          dsimp only
          rw [if_neg hnots, if_neg hnotid, if_pos hcid]
        rw [hp1]
        exact hp2
      case neg =>
        obtain ⟨L1, b1, h1⟩ :
            ∃ L b,
              (if dictGetD g.parentMap (pyStrip (kvLastD attr1.kvs "id")) ≠ "" ∧ kvLastD attr1.kvs "parent" = "" then
                  ensure_attr_pair attr1.kvs "parent" (dictGetD g.parentMap (pyStrip (kvLastD attr1.kvs "id")))
                else (attr1.kvs, false)) = (L, b) := ⟨_, _, rfl⟩
        obtain ⟨L2, b2, h2⟩ :
            ∃ L b,
              (if kvLastD attr1.kvs "state" = "" then
                  ensure_attr_pair L1 "state" (parse_state_token (dictGetD g.stateById (pyStrip (kvLastD attr1.kvs "id"))))
                else (L1, false)) = (L, b) := ⟨_, _, rfl⟩
        obtain ⟨L3, b3, h3⟩ :
            ∃ L b,
              (if dictGetD g.paraById (pyStrip (kvLastD attr1.kvs "id")) ≠ "" ∧ kvLastD attr1.kvs "paraId" = "" then
                  ensure_attr_pair L2 "paraId" (dictGetD g.paraById (pyStrip (kvLastD attr1.kvs "id")))
                else (L2, false)) = (L, b) := ⟨_, _, rfl⟩
        obtain ⟨L4, b4, h4⟩ :
            ∃ L b,
              (if dictGetD g.durableById (pyStrip (kvLastD attr1.kvs "id")) ≠ "" ∧ kvLastD attr1.kvs "durableId" = "" then
                  ensure_attr_pair L3 "durableId" (dictGetD g.durableById (pyStrip (kvLastD attr1.kvs "id")))
                else (L3, false)) = (L, b) := ⟨_, _, rfl⟩
        obtain ⟨L5, b5, h5⟩ :
            ∃ L b,
              (if dictGetD g.presenceProviderById (pyStrip (kvLastD attr1.kvs "id")) ≠ "" ∧ kvLastD attr1.kvs "presenceProvider" = "" then
                  ensure_attr_pair L4 "presenceProvider" (dictGetD g.presenceProviderById (pyStrip (kvLastD attr1.kvs "id")))
                else (L4, false)) = (L, b) := ⟨_, _, rfl⟩
        obtain ⟨L6, b6, h6⟩ :
            ∃ L b,
              (if dictGetD g.presenceUserById (pyStrip (kvLastD attr1.kvs "id")) ≠ "" ∧ kvLastD attr1.kvs "presenceUserId" = "" then
                  ensure_attr_pair L5 "presenceUserId" (dictGetD g.presenceUserById (pyStrip (kvLastD attr1.kvs "id")))
                else (L5, false)) = (L, b) := ⟨_, _, rfl⟩
        have hp1 : annotate_on_span g attr
            = ({ attr1 with kvs := L6 }, c0 || b1 || b2 || b3 || b4 || b5 || b6) := by
          unfold annotate_on_span
          rw [hnorm]
          dsimp only
          rw [if_neg hnots, if_neg hnotid, if_neg hcid]
          rw [h1]
          dsimp only
          rw [h2]
          dsimp only
          rw [h3]
          dsimp only
          rw [h4]
          dsimp only
          rw [h5]
          dsimp only
          rw [h6]
        have hkvid : kvLast L6 "id" = kvLast attr1.kvs "id" := by
          rw [(cond_ensure_preserve L5 _ "presenceUserId" _ L6 b6 h6 "id" (by decide)).2,
            (cond_ensure_preserve L4 _ "presenceProvider" _ L5 b5 h5 "id" (by decide)).2,
            (cond_ensure_preserve L3 _ "durableId" _ L4 b4 h4 "id" (by decide)).2,
            (cond_ensure_preserve L2 _ "paraId" _ L3 b3 h3 "id" (by decide)).2,
            (cond_ensure_preserve L1 _ "state" _ L2 b2 h2 "id" (by decide)).2,
            (cond_ensure_preserve attr1.kvs _ "parent" _ L1 b1 h1 "id" (by decide)).2]
        have hcid6 : pyStrip (kvLastD L6 "id") = pyStrip (kvLastD attr1.kvs "id") := by
          unfold kvLastD
          rw [hkvid]
        obtain ⟨c1, c2, c3, c4, c5, c6⟩ :=
          annotate_steps_idem attr1.kvs L1 L2 L3 L4 L5 L6 b1 b2 b3 b4 b5 b6
            (dictGetD g.parentMap (pyStrip (kvLastD attr1.kvs "id")))
            (parse_state_token (dictGetD g.stateById (pyStrip (kvLastD attr1.kvs "id"))))
            (dictGetD g.paraById (pyStrip (kvLastD attr1.kvs "id")))
            (dictGetD g.durableById (pyStrip (kvLastD attr1.kvs "id")))
            (dictGetD g.presenceProviderById (pyStrip (kvLastD attr1.kvs "id")))
            (dictGetD g.presenceUserById (pyStrip (kvLastD attr1.kvs "id")))
            (parse_state_token_ne _) h1 h2 h3 h4 h5 h6
        rw [hp1]
        show annotate_on_span g { attr1 with kvs := L6 }
          = ({ attr1 with kvs := L6 }, false)
        unfold annotate_on_span
        rw [normalize_of_id_blank { attr1 with kvs := L6 } hid1']
        dsimp only
        rw [if_neg hnots, if_neg hnotid]
        rw [hcid6]
        rw [if_neg hcid]
        rw [c1]
        dsimp only
        rw [c2]
        dsimp only
        rw [c3]
        dsimp only
        rw [c4]
        dsimp only
        rw [c5]
        dsimp only
        rw [c6]
        rfl


mutual

/-- Under an idempotent span handler, re-walking a walked inline is inert
and passes the counter through. -/
theorem spInline_idem (h : Attr → Attr × Bool)
    (hidem : ∀ a, h (h a).1 = ((h a).1, false)) :
    ∀ (i : Inline) (n m : Nat),
      spInline h (spInline h i n).1 m = ((spInline h i n).1, m)
  | .Span attr nested, n, m => by
      have ha := hidem attr
      have ih := spInlines_idem h hidem nested (if (h attr).2 then n + 1 else n) m
      simp only [spInline]
      rw [ha]
      simp [ih]
  | .Quoted q l, n, m => by
      have ih := spInlines_idem h hidem l n m
      simp [spInline, ih]
  | .Cite l, n, m => by
      have ih := spInlines_idem h hidem l n m
      simp [spInline, ih]
  | .Link a l t, n, m => by
      have ih := spInlines_idem h hidem l n m
      simp [spInline, ih]
  | .Image a l t, n, m => by
      have ih := spInlines_idem h hidem l n m
      simp [spInline, ih]
  | .Str s, n, m => rfl
  | .Emph l, n, m => rfl
  | .Strong l, n, m => rfl
  | .Strikeout l, n, m => rfl
  | .Superscript l, n, m => rfl
  | .Subscript l, n, m => rfl
  | .SmallCaps l, n, m => rfl
  | .Underline l, n, m => rfl
  | .Space, n, m => rfl
  | .SoftBreak, n, m => rfl
  | .LineBreak, n, m => rfl
  | .Code a s, n, m => rfl
  | .RawInline f s, n, m => rfl
  | .MathInline s, n, m => rfl

/-- Under an idempotent span handler, re-walking a walked inline list is
inert. -/
theorem spInlines_idem (h : Attr → Attr × Bool)
    (hidem : ∀ a, h (h a).1 = ((h a).1, false)) :
    ∀ (l : List Inline) (n m : Nat),
      spInlines h (spInlines h l n).1 m = ((spInlines h l n).1, m)
  | [], n, m => rfl
  | i :: rest, n, m => by
      have ih1 := spInline_idem h hidem i n m
      have ih2 := spInlines_idem h hidem rest (spInline h i n).2 m
      simp [spInlines, ih1, ih2]

end

mutual

/-- Under an idempotent span handler, re-walking a walked block is inert. -/
theorem spBlock_idem (h : Attr → Attr × Bool)
    (hidem : ∀ a, h (h a).1 = ((h a).1, false)) :
    ∀ (b : Block) (n m : Nat),
      spBlock h (spBlock h b n).1 m = ((spBlock h b n).1, m)
  | .Para l, n, m => by
      have ih := spInlines_idem h hidem l n m
      simp [spBlock, ih]
  | .Plain l, n, m => by
      have ih := spInlines_idem h hidem l n m
      simp [spBlock, ih]
  | .Header k a l, n, m => by
      have ih := spInlines_idem h hidem l n m
      simp [spBlock, ih]
  | .BlockQuote bs, n, m => by
      have ih := spBlocks_idem h hidem bs n m
      simp [spBlock, ih]
  | .Div a bs, n, m => by
      have ih := spBlocks_idem h hidem bs n m
      simp [spBlock, ih]
  | .BulletList items, n, m => by
      have ih := spBlockLists_idem h hidem items n m
      simp [spBlock, ih]
  | .OrderedList items, n, m => by
      have ih := spBlockLists_idem h hidem items n m
      simp [spBlock, ih]
  | .Table cells, n, m => by
      have ih := spBlockLists_idem h hidem cells n m
      simp [spBlock, ih]
  | .RawBlock f s, n, m => rfl
  | .HorizontalRule, n, m => rfl

/-- Under an idempotent span handler, re-walking a walked block list is
inert. -/
theorem spBlocks_idem (h : Attr → Attr × Bool)
    (hidem : ∀ a, h (h a).1 = ((h a).1, false)) :
    ∀ (l : List Block) (n m : Nat),
      spBlocks h (spBlocks h l n).1 m = ((spBlocks h l n).1, m)
  | [], n, m => rfl
  | b :: rest, n, m => by
      have ih1 := spBlock_idem h hidem b n m
      have ih2 := spBlocks_idem h hidem rest (spBlock h b n).2 m
      simp [spBlocks, ih1, ih2]

/-- Under an idempotent span handler, re-walking walked nested block lists
is inert. -/
theorem spBlockLists_idem (h : Attr → Attr × Bool)
    (hidem : ∀ a, h (h a).1 = ((h a).1, false)) :
    ∀ (l : List (List Block)) (n m : Nat),
      spBlockLists h (spBlockLists h l n).1 m = ((spBlockLists h l n).1, m)
  | [], n, m => rfl
  | item :: rest, n, m => by
      have ih1 := spBlocks_idem h hidem item n m
      have ih2 := spBlockLists_idem h hidem rest (spBlocks h item n).2 m
      simp [spBlockLists, ih1, ih2]

end

/-- Under an idempotent span handler, the whole-document walk is idempotent
with a zero change count on the second run. -/
theorem walk_pandoc_spans_idem (doc : PDoc) (h : Attr → Attr × Bool)
    (hidem : ∀ a, h (h a).1 = ((h a).1, false)) :
    walk_pandoc_spans (walk_pandoc_spans doc h).1 h
      = ((walk_pandoc_spans doc h).1, 0) := by
  have hb := spBlocks_idem h hidem doc.blocks 0 0
  simp [walk_pandoc_spans, hb]

/-- C8: annotation is idempotent.  Running `annotate_markdown_comment_attrs`
a second time, with the same graph inputs, on the document produced by the
first run returns that document unchanged and reports a changed count of 0:
every attribute gained in the first pass (`parent`, `state`, `paraId`,
`durableId`, `presenceProvider`, `presenceUserId`, and the id moved into the
key/value table) is left untouched by the second pass. -/
theorem C8_idempotent_annotate (g : AnnotateInputs) (doc : PDoc) :
    annotate_markdown_comment_attrs g (annotate_markdown_comment_attrs g doc).1
      = ((annotate_markdown_comment_attrs g doc).1, 0) := by
  unfold annotate_markdown_comment_attrs
  by_cases hemp : annotateInputsEmpty g = true
  · simp [hemp]
  · simp only [hemp, if_false, Bool.false_eq_true]
    exact walk_pandoc_spans_idem doc (annotate_on_span g) (annotate_on_span_idem g)


/-- A successful first-binding lookup shows the key occurs in the dict's key
list. -/
theorem dictGet_some_mem_keys {α : Type} (m : List (String × α)) (k : String)
    (v : α) (h : dictGet m k = some v) : k ∈ m.map (·.1) := by
  unfold dictGet at h
  cases hf : m.find? (fun p => p.1 = k) with
  | none => rw [hf] at h; simp at h
  | some p =>
      have hmem := List.mem_of_find?_eq_some hf
      have hp : p.1 = k := by
        have hs := List.find?_some hf
        simpa using hs
      rw [← hp]
      exact List.mem_map_of_mem (·.1) hmem

/-- The per-id validation loop reports nothing for an id whose markers are
balanced, unduplicated, correctly ordered and, for root-card ids, exactly
one pair. -/
theorem marker_issues_for_id_nil (norm : String)
    (sBy eBy : List (String × List MarkerLoc)) (rootLines : List (String × Nat))
    (cid : String)
    (hbal : ((dictGet sBy cid).getD []).length = ((dictGet eBy cid).getD []).length)
    (hdup : ((dictGet sBy cid).getD []).length ≤ 1)
    (hroot : (dictGet rootLines cid).isSome = true →
      ((dictGet sBy cid).getD []).length = 1)
    (horder : ∀ s0 eL, ((dictGet sBy cid).getD []).head? = some s0 →
      ((dictGet eBy cid).getD []).getLast? = some eL → ¬ eL.offset < s0.offset) :
    marker_issues_for_id norm sBy eBy rootLines cid = [] := by
  unfold marker_issues_for_id
  dsimp only
  rw [if_neg (fun hc => by
    have h1 := hroot hc.1
    have h2 : ((dictGet eBy cid).getD []).length = 1 := by rw [← hbal]; exact h1
    rcases hc.2 with ho | ho
    · exact ho h1
    · exact ho h2)]
  rw [if_neg (fun hc => hc hbal)]
  rw [if_neg (fun hc => by
    have h2 : ((dictGet eBy cid).getD []).length ≤ 1 := by rw [← hbal]; exact hdup
    rcases hc with ho | ho
    · omega
    · omega)]
  rw [if_neg (fun hc => hc.1 (hbal.trans hc.2))]
  rw [if_neg (fun hc => hc.1 (hbal.symm.trans hc.2))]
  rcases hs : ((dictGet sBy cid).getD []).head? with _ | s0
  · rfl
  · rcases he : ((dictGet eBy cid).getD []).getLast? with _ | eL
    · rfl
    · dsimp only
      rw [if_neg (horder s0 eL hs he)]
      rfl


/-- Error direction of the marker validator: a root-card id with exactly one
START and no END in the normalized text forces the aggregated error, whose
issue list names that id and its card line. -/
theorem C3aux_error_direction (src norm : String) (cards : List (String × Card))
    (label cid : String) (ln : Nat)
    (hroot : dictGet (rootLinesWithCards src cards) cid = some ln)
    (hsc : ((dictGet (collect_span_marker_positions norm).1 cid).getD []).length = 1)
    (hec : ((dictGet (collect_span_marker_positions norm).2 cid).getD []).length = 0) :
    ∃ issues,
      validate_comment_marker_integrity src norm cards label
        = .error (marker_error_message label issues)
      ∧ ("Root comment " ++ cid ++ " ("
          ++ (if ln ≠ 0 then "CARD_META line " ++ Nat.repr ln
              else "CARD_META line unknown")
          ++ ") must have exactly one START and one END marker; found START="
          ++ "1" ++ ", END=" ++ "0" ++ ".") ∈ issues := by
  have hmem : ("Root comment " ++ cid ++ " ("
          ++ (if ln ≠ 0 then "CARD_META line " ++ Nat.repr ln
              else "CARD_META line unknown")
          ++ ") must have exactly one START and one END marker; found START="
          ++ "1" ++ ", END=" ++ "0" ++ ".")
      ∈ marker_issues_for_id norm (collect_span_marker_positions norm).1
          (collect_span_marker_positions norm).2 (rootLinesWithCards src cards) cid := by
    unfold marker_issues_for_id
    dsimp only
    rw [hsc, hec, hroot]
    rw [if_pos ⟨rfl, Or.inr (by decide)⟩]
    exact List.mem_append_left _ (List.mem_append_left _ (List.mem_append_left _
      (List.mem_append_left _ (List.mem_singleton.2 rfl))))
  have hcid : cid ∈ markerAllIds (collect_span_marker_positions norm).1
      (collect_span_marker_positions norm).2 (rootLinesWithCards src cards) := by
    unfold markerAllIds
    rw [List.mem_mergeSort, dedupFirst_mem]
    have hk := dictGet_some_mem_keys (rootLinesWithCards src cards) cid ln hroot
    simp only [List.mem_append]
    exact Or.inr hk
  have hissmem : ("Root comment " ++ cid ++ " ("
          ++ (if ln ≠ 0 then "CARD_META line " ++ Nat.repr ln
              else "CARD_META line unknown")
          ++ ") must have exactly one START and one END marker; found START="
          ++ "1" ++ ", END=" ++ "0" ++ ".") ∈ marker_integrity_issues src norm cards := by
    unfold marker_integrity_issues
    dsimp only
    refine List.mem_append.2 (Or.inl ?_)
    exact List.mem_flatMap.2 ⟨cid, hcid, hmem⟩
  refine ⟨marker_integrity_issues src norm cards, ?_, hissmem⟩
  unfold validate_comment_marker_integrity
  dsimp only
  rw [if_neg (List.ne_nil_of_mem hissmem)]

/-- Pass direction of the marker validator, with the premises the source
actually requires: balance, no duplicates, order, exactly one pair for every
root-card id, and no one-sided highlight wrapper. -/
theorem C3aux_pass_direction (src norm : String) (cards : List (String × Card))
    (label : String)
    (hbal : ∀ cid : String,
      ((dictGet (collect_span_marker_positions norm).1 cid).getD []).length
        = ((dictGet (collect_span_marker_positions norm).2 cid).getD []).length)
    (hdup : ∀ cid : String,
      ((dictGet (collect_span_marker_positions norm).1 cid).getD []).length ≤ 1)
    (hroot : ∀ cid : String,
      (dictGet (rootLinesWithCards src cards) cid).isSome = true →
      ((dictGet (collect_span_marker_positions norm).1 cid).getD []).length = 1)
    (horder : ∀ (cid : String) (s0 eL : MarkerLoc),
      ((dictGet (collect_span_marker_positions norm).1 cid).getD []).head? = some s0 →
      ((dictGet (collect_span_marker_positions norm).2 cid).getD []).getLast? = some eL →
      ¬ eL.offset < s0.offset)
    (hwrap : collect_one_sided_wrapper_issues src = []) :
    validate_comment_marker_integrity src norm cards label = .ok () := by
  have hflat : (markerAllIds (collect_span_marker_positions norm).1
      (collect_span_marker_positions norm).2 (rootLinesWithCards src cards)).flatMap
        (marker_issues_for_id norm (collect_span_marker_positions norm).1
          (collect_span_marker_positions norm).2 (rootLinesWithCards src cards)) = [] := by
    refine List.flatMap_eq_nil_iff.2 (fun cid _ => ?_)
    exact marker_issues_for_id_nil norm _ _ _ cid (hbal cid) (hdup cid) (hroot cid)
      (horder cid)
  have hiss : marker_integrity_issues src norm cards = [] := by
    unfold marker_integrity_issues
    dsimp only
    rw [hflat, hwrap]
    rfl
  unfold validate_comment_marker_integrity
  dsimp only
  rw [hiss]
  rfl

/-- Reported positions are 1-based. -/
theorem C3aux_line_col_one_based (text : String) (off : Nat) :
    1 ≤ (line_col_for_offset text off).1 ∧ 1 ≤ (line_col_for_offset text off).2 := by
  unfold line_col_for_offset
  dsimp only
  omega


/-- C3: marker-integrity validation (amended).  (1) Error direction, as
claimed: when a root-card id has exactly one START and zero END markers in
the normalized text, `validate_comment_marker_integrity` raises the
aggregated error and its issue list names that id and its card line.
(2) Pass direction, amended: balance and non-duplication alone do not
suffice — the validator returns without raising when additionally every
last END sits at or after the first START and every root-card id has
exactly one START and one END, and there is no one-sided highlight wrapper.
(3) All reported marker positions are 1-based line/column pairs. -/
theorem C3_marker_integrity :
    (∀ (src norm : String) (cards : List (String × Card)) (label cid : String)
        (ln : Nat),
      dictGet (rootLinesWithCards src cards) cid = some ln →
      ((dictGet (collect_span_marker_positions norm).1 cid).getD []).length = 1 →
      ((dictGet (collect_span_marker_positions norm).2 cid).getD []).length = 0 →
      ∃ issues,
        validate_comment_marker_integrity src norm cards label
          = .error (marker_error_message label issues)
        ∧ ("Root comment " ++ cid ++ " ("
            ++ (if ln ≠ 0 then "CARD_META line " ++ Nat.repr ln
                else "CARD_META line unknown")
            ++ ") must have exactly one START and one END marker; found START="
            ++ "1" ++ ", END=" ++ "0" ++ ".") ∈ issues)
    ∧ (∀ (src norm : String) (cards : List (String × Card)) (label : String),
      (∀ cid : String,
        ((dictGet (collect_span_marker_positions norm).1 cid).getD []).length
          = ((dictGet (collect_span_marker_positions norm).2 cid).getD []).length) →
      (∀ cid : String,
        ((dictGet (collect_span_marker_positions norm).1 cid).getD []).length ≤ 1) →
      (∀ cid : String,
        (dictGet (rootLinesWithCards src cards) cid).isSome = true →
        ((dictGet (collect_span_marker_positions norm).1 cid).getD []).length = 1) →
      (∀ (cid : String) (s0 eL : MarkerLoc),
        ((dictGet (collect_span_marker_positions norm).1 cid).getD []).head? = some s0 →
        ((dictGet (collect_span_marker_positions norm).2 cid).getD []).getLast? = some eL →
        ¬ eL.offset < s0.offset) →
      collect_one_sided_wrapper_issues src = [] →
      validate_comment_marker_integrity src norm cards label = .ok ())
    ∧ (∀ (text : String) (off : Nat),
      1 ≤ (line_col_for_offset text off).1 ∧ 1 ≤ (line_col_for_offset text off).2) :=
  ⟨C3aux_error_direction, C3aux_pass_direction, C3aux_line_col_one_based⟩

/-- C3 counterexample to the claimed pass direction: a document whose
normalized text has no comment markers at all (so every id trivially has
balanced, non-duplicated START/END markers and there is no one-sided
wrapper), but whose source declares a parentless `CARD_META` card `a`;
the validator still raises, through the root-card exactly-one rule, with
START=0, END=0. -/
theorem C3_marker_integrity_counterexample :
    collect_span_marker_positions "" = ([], [])
    ∧ collect_one_sided_wrapper_issues "<!-- CARD_META \x7b#a\x7d -->" = []
    ∧ validate_comment_marker_integrity "<!-- CARD_META \x7b#a\x7d -->" "" [] "doc.md"
      = .error (marker_error_message "doc.md" ["Root comment a (CARD_META line 1) must have exactly one START and one END marker; found START=0, END=0."]) := by
  refine ⟨rfl, rfl, ?_⟩
  have h2 : rootLinesWithCards "<!-- CARD_META \x7b#a\x7d -->" [] = [("a", 1)] := rfl
  have h3 : markerAllIds [] [] [("a", 1)] = ["a"] := by
    show (dedupFirst ([] ++ [] ++ ["a"])).mergeSort idSortLe = ["a"]
    rw [show dedupFirst ([] ++ [] ++ ["a"]) = ["a"] from rfl]
    exact List.mergeSort_singleton "a"
  have hiss : marker_integrity_issues "<!-- CARD_META \x7b#a\x7d -->" "" [] = ["Root comment a (CARD_META line 1) must have exactly one START and one END marker; found START=0, END=0."] := by
    unfold marker_integrity_issues
    dsimp only
    rw [show collect_span_marker_positions "" = ([], []) from rfl]
    dsimp only
    rw [h2, h3]
    rfl
  unfold validate_comment_marker_integrity
  rw [hiss]
  rfl


/-- The insertion position the repair pass computes for one id (the loop
body of converter.py lines 1684-1687): the maximum descendant end position,
or the (last) recorded start match end. -/
def repairPos (text : String) (cid : String) : Nat :=
  let starts := repairStarts text
  let endsBy := repairEndPositions text
  let startsBy := starts.foldl (fun m s => dictSet m s.id s) []
  let children := repairChildren starts
  let base := ((dictGet startsBy cid).map (·.posEnd)).getD 0
  let descEnds := (descendantEndPositions children endsBy (starts.length + 1) cid []).1
  match descEnds.max? with
  | some m => m
  | none => base

/-- `repairInsertions` in terms of `repairPos`. -/
theorem repairInsertions_eq (text : String) :
    repairInsertions text
      = (((repairStarts text).map (·.id)).filter
          (fun cid => (dictGet (repairEndPositions text) cid).isNone)).map
          (fun cid => (repairPos text cid, repairToken cid)) := by
  unfold repairInsertions repairPos
  rfl

/-- The synthetic end token is injective in the id. -/
theorem repairToken_injective : Function.Injective repairToken := by
  intro a b h
  unfold repairToken at h
  have hd : "[]\x7b.comment-end id=\"".data ++ (a.data ++ "\"\x7d".data)
      = "[]\x7b.comment-end id=\"".data ++ (b.data ++ "\"\x7d".data) := by
    have hj := congrArg String.data h
    simpa [String.data_append, List.append_assoc] using hj
  have h2 := List.append_cancel_right (List.append_cancel_left hd)
  cases a
  cases b
  exact congrArg String.mk h2

/-- The reported insertion count is always the length of the insertion
list. -/
theorem C5aux_count (text : String) :
    (repair_unbalanced_comment_markers text).2 = (repairInsertions text).length := by
  unfold repair_unbalanced_comment_markers
  dsimp only
  by_cases h0 : (repairStarts text).map (fun s => s.id) = []
  · rw [if_pos h0]
    have hnil : repairInsertions text = [] := by
      rw [repairInsertions_eq, h0]
      rfl
    rw [hnil]
    rfl
  · rw [if_neg h0]
    by_cases hm : ((repairStarts text).map (fun s => s.id)).filter
        (fun cid => (dictGet (repairEndPositions text) cid).isNone) = []
    · rw [if_pos hm]
      have hnil : repairInsertions text = [] := by
        rw [repairInsertions_eq, hm]
        rfl
      rw [hnil]
      rfl
    · rw [if_neg hm]

/-- Per-id token count: an id with a start and no end gets one token per
start occurrence. -/
theorem C5aux_token_count (text : String) (cid : String)
    (hend : dictGet (repairEndPositions text) cid = none) :
    ((repairInsertions text).map (·.2)).count (repairToken cid)
      = ((repairStarts text).map (·.id)).count cid := by
  rw [repairInsertions_eq, List.map_map]
  have hcomp : ((fun p => Prod.snd p) ∘ fun c => (repairPos text c, repairToken c))
      = repairToken := rfl
  rw [hcomp]
  rw [List.count_map_of_injective _ repairToken repairToken_injective]
  exact List.count_filter (by rw [hend]; rfl)

/-- A start id map built by repeated `dictSet` answers with the last record
of that id, as a Python dict comprehension does. -/
theorem foldl_dictSet_find (l : List RepairStart)
    (m0 : List (String × RepairStart)) (cid : String) :
    dictGet (l.foldl (fun m s => dictSet m s.id s) m0) cid
      = match l.reverse.find? (fun s => s.id = cid) with
        | some s => some s
        | none => dictGet m0 cid := by
  induction l generalizing m0 with
  | nil => rfl
  | cons s rest ih =>
      rw [List.foldl_cons, ih]
      rw [show (s :: rest).reverse = rest.reverse ++ [s] from by simp]
      rw [List.find?_append]
      cases hf : rest.reverse.find? (fun t => t.id = cid) with
      | some t => rfl
      | none =>
          dsimp only [Option.or]
          by_cases hq : s.id = cid
          · rw [show [s].find? (fun t => t.id = cid) = some s from by
              simp [List.find?, hq]]
            dsimp only
            rw [hq] at *
            rw [dictGet_dictSet m0 cid cid s]
            rw [if_pos rfl]
          · rw [show [s].find? (fun t => t.id = cid) = none from by
              simp [List.find?, hq]]
            dsimp only
            rw [dictGet_dictSet m0 s.id cid s]
            rw [if_neg (fun hh => hq hh.symm)]


/-- C5: marker repair (amended).  For an id with at least one START and no
END marker the repair pass inserts one synthetic end token per START
occurrence of that id (not one per id), every insertion carrying that id's
policy position: the maximum descendant end position when one exists,
otherwise the match end of the id's last START record; the reported count is
always the number of insertions, and a text with no such ids is returned
unchanged with count 0. -/
theorem C5_marker_repair :
    (∀ text : String,
      (repair_unbalanced_comment_markers text).2 = (repairInsertions text).length)
    ∧ (∀ text cid : String,
      dictGet (repairEndPositions text) cid = none →
      ((repairInsertions text).map (·.2)).count (repairToken cid)
        = ((repairStarts text).map (·.id)).count cid)
    ∧ (∀ text : String,
      repairInsertions text
        = (((repairStarts text).map (·.id)).filter
            (fun cid => (dictGet (repairEndPositions text) cid).isNone)).map
            (fun cid => (repairPos text cid, repairToken cid)))
    ∧ (∀ (text cid : String) (m : Nat),
      ((descendantEndPositions (repairChildren (repairStarts text))
        (repairEndPositions text) ((repairStarts text).length + 1) cid []).1).max? = some m →
      repairPos text cid = m)
    ∧ (∀ text cid : String,
      ((descendantEndPositions (repairChildren (repairStarts text))
        (repairEndPositions text) ((repairStarts text).length + 1) cid []).1).max? = none →
      repairPos text cid
        = (((repairStarts text).reverse.find? (fun s => s.id = cid)).map
            (·.posEnd)).getD 0)
    ∧ (∀ text : String,
      ((repairStarts text).map (·.id)).filter
          (fun cid => (dictGet (repairEndPositions text) cid).isNone) = [] →
      repair_unbalanced_comment_markers text = (text, 0)) := by
  refine ⟨C5aux_count, C5aux_token_count, repairInsertions_eq, ?_, ?_, ?_⟩
  · intro text cid m h
    unfold repairPos
    dsimp only
    rw [h]
  · intro text cid h
    unfold repairPos
    dsimp only
    rw [h, foldl_dictSet_find (repairStarts text) [] cid]
    dsimp only
    cases hf : (repairStarts text).reverse.find? (fun s => s.id = cid) with
    | none => simp [dictGet]
    | some s => rfl
  · intro text hm
    unfold repair_unbalanced_comment_markers
    dsimp only
    by_cases h0 : (repairStarts text).map (fun s => s.id) = []
    · rw [if_pos h0]
    · rw [if_neg h0, if_pos hm]

/-- C5 counterexample to "exactly one synthetic end marker for that id": a
text whose single distinct id `a` has two START markers and no END gets two
identical synthetic end insertions and an insertion count of 2. -/
theorem C5_marker_repair_counterexample :
    dedupFirst ((repairStarts "x[]\x7b.comment-start id=\"a\"\x7dy[]\x7b.comment-start id=\"a\"\x7dz").map (·.id)) = ["a"]
    ∧ repairInsertions "x[]\x7b.comment-start id=\"a\"\x7dy[]\x7b.comment-start id=\"a\"\x7dz"
      = [(repairPos "x[]\x7b.comment-start id=\"a\"\x7dy[]\x7b.comment-start id=\"a\"\x7dz" "a", repairToken "a"),
         (repairPos "x[]\x7b.comment-start id=\"a\"\x7dy[]\x7b.comment-start id=\"a\"\x7dz" "a", repairToken "a")]
    ∧ (repair_unbalanced_comment_markers "x[]\x7b.comment-start id=\"a\"\x7dy[]\x7b.comment-start id=\"a\"\x7dz").2 = 2 := by
  refine ⟨rfl, ?_, ?_⟩
  · rw [repairInsertions_eq]
    rfl
  · rw [C5aux_count]
    rfl



/-- `convert_md_to_docx` once both markdown-side validations pass: the
remaining run depends only on the converter outcome, the extracted ids and
the patching stages. -/
theorem convert_after_validations (o : ConvOracle) (dest0 : Option String)
    (pm : List (String × String))
    (h1 : validate_comment_marker_integrity o.cleanedText o.normalizedText
      o.cardById o.sourceLabel = .ok ())
    (h2 : validate_thread_relationships o.orderedStartedIds o.parentCandidates
      = .ok pm) :
    convert_md_to_docx o dest0
      = (if o.pandocOk = false then
          (o.pandocFailureDest, .error "pandoc exited non-zero")
        else if o.orderedStartedIds = [] then (some o.pandocOutput, .ok ())
        else
          match ensure_thread_reply_anchors o.storyFileCount o.synth
              o.orderedStartedIds pm o.markerCounts with
          | .error e => (some o.pandocOutput, .error e)
          | .ok anchorChanged =>
              if o.commentsXmlExists = false ∧ o.extendedStateChanged = false
                  ∧ anchorChanged = 0 then
                (some o.pandocOutput, .ok ())
              else (some o.patchedOutput, .ok ())) := by
  unfold convert_md_to_docx
  rw [h1, h2]

/-- C2: error-before-write (amended).  The two markdown-side validations
(marker integrity, thread relationships) abort with the destination state
untouched.  But an anchor-synthesis failure is raised only after the
external converter has already written the destination: the run ends in an
error with the destination holding the converter's output.  A failed
external-converter call leaves the destination in whatever state the
external tool produced. -/
theorem C2_error_before_write :
    (∀ (o : ConvOracle) (dest0 : Option String) (e : String),
      validate_comment_marker_integrity o.cleanedText o.normalizedText o.cardById
          o.sourceLabel = .error e →
      convert_md_to_docx o dest0 = (dest0, .error e))
    ∧ (∀ (o : ConvOracle) (dest0 : Option String) (e : String),
      validate_comment_marker_integrity o.cleanedText o.normalizedText o.cardById
          o.sourceLabel = .ok () →
      validate_thread_relationships o.orderedStartedIds o.parentCandidates
          = .error e →
      convert_md_to_docx o dest0 = (dest0, .error e))
    ∧ (∀ (o : ConvOracle) (dest0 : Option String) (pm : List (String × String))
        (e : String),
      validate_comment_marker_integrity o.cleanedText o.normalizedText o.cardById
          o.sourceLabel = .ok () →
      validate_thread_relationships o.orderedStartedIds o.parentCandidates = .ok pm →
      o.pandocOk = true →
      ¬ o.orderedStartedIds = [] →
      ensure_thread_reply_anchors o.storyFileCount o.synth o.orderedStartedIds pm
          o.markerCounts = .error e →
      convert_md_to_docx o dest0 = (some o.pandocOutput, .error e))
    ∧ (∀ (o : ConvOracle) (dest0 : Option String),
      validate_comment_marker_integrity o.cleanedText o.normalizedText o.cardById
          o.sourceLabel = .ok () →
      (∃ pm, validate_thread_relationships o.orderedStartedIds o.parentCandidates
        = .ok pm) →
      o.pandocOk = false →
      convert_md_to_docx o dest0 = (o.pandocFailureDest, .error "pandoc exited non-zero")) := by
  refine ⟨?_, ?_, ?_, ?_⟩
  · intro o dest0 e h
    unfold convert_md_to_docx
    rw [h]
  · intro o dest0 e h1 h2
    unfold convert_md_to_docx
    rw [h1, h2]
  · intro o dest0 pm e h1 h2 hp hne h3
    rw [convert_after_validations o dest0 pm h1 h2, hp]
    rw [if_neg (by decide)]
    rw [if_neg hne]
    rw [h3]
  · intro o dest0 h1 h2 hp
    obtain ⟨pm, h2⟩ := h2
    rw [convert_after_validations o dest0 pm h1 h2, hp]
    rfl

/-- C2 counterexample: a run whose validations pass and whose external
converter succeeds, but whose reply-anchor synthesis fails (reply 2's parent
1 has no anchors in the story counts), raises — yet the destination, empty
before the run, now holds the converter's output. -/
theorem C2_error_before_write_counterexample :
    convert_md_to_docx
      { cleanedText := "", cardById := [], normalizedText := "",
        sourceLabel := "doc.md", orderedStartedIds := ["1", "2"],
        parentCandidates := [("2", "1")], pandocOk := true,
        pandocFailureDest := none, pandocOutput := "PANDOC.DOCX",
        commentsXmlExists := false,
        markerCounts := { starts := [], ends := [], refs := [] },
        storyFileCount := 0, synth := fun _ _ _ _ _ _ => (false, false, false),
        extendedStateChanged := false, patchedOutput := "PATCHED.DOCX" } none
      = (some "PANDOC.DOCX",
         .error (anchor_error_message
           ["cannot synthesize anchors for reply 2: parent 1 has incomplete anchors"]))
    ∧ some "PANDOC.DOCX" ≠ (none : Option String) := by
  constructor
  · have hval : validate_comment_marker_integrity "" "" [] "doc.md" = .ok () := by
      have hempty : marker_integrity_issues "" "" [] = [] := by
        unfold marker_integrity_issues
        dsimp only
        rw [show collect_span_marker_positions "" = ([], []) from rfl]
        dsimp only
        rw [show rootLinesWithCards "" [] = [] from rfl]
        rw [show markerAllIds [] [] [] = [] from by
          show (dedupFirst ([] ++ [] ++ [])).mergeSort idSortLe = []
          rw [show dedupFirst ([] ++ [] ++ ([] : List String)) = [] from rfl]
          exact List.mergeSort_nil]
        rfl
      unfold validate_comment_marker_integrity
      rw [hempty]
      rfl
    unfold convert_md_to_docx
    dsimp only
    rw [hval]
    rfl
  · exact Option.some_ne_none _





end DMC
